import Mathlib

/-! Library management system: shallow embedding of `lib.c`.

The C program keeps three process-wide structures (the book hash table, the
member list, the transaction list) and mutates them from menu commands.
Here every command is a function from a `State` (plus the values the command
reads from the terminal and the date each of its calls of `getToday` returns)
to a new `State` and an `Outcome` naming the message the command prints.

Conventions of the embedding:

* C `int` is 32 bits wide, two's complement. Where an operation of the source
  can leave the range of `int` on values the program can hold, its result wraps
  modulo `2^32` (`wrapInt`): the negation in `hashBookId`, `d.day += n` in
  `addDays`, `d.year++` in its rollover, and the cast `(int)` of the `long`
  difference in `daysBetween`. `long` is 64 bits wide: the sums of
  `dateToSerial` are below `2^40` for every `int` date, so they are exact. The
  counters `borrowed_count`, `available_copies` and `nextTransId` are
  mathematical integers (`Int`); the first two are bounded by the invariants of
  the reachable states. The C remainder `%` is `Int.tmod` (truncating).
* Singly linked lists (hash chains, member list, transaction list, waitlist
  nodes from `wait_front` to `wait_rear`) are Lean lists in link order.
* A pointer obtained from a `find...` function denotes the first node that the
  search accepts; writing through the pointer replaces that node
  (`replaceFirst`).
* A read outside a C array (`days[month-1]`, `bookTable[index]`) has no defined
  result: the embedded function returns `none`.
* `malloc` always succeeds.
* `float` fines are whole rupees: every value the program stores is `0`,
  `200` or `5 * diff` with `diff ≤ 40`, all exactly representable.
-/

namespace Library

/-! ## Configuration constants -/

def BOOK_TABLE_SIZE : Int := 101
def MAX_BORROW_DAYS : Int := 14
def FINE_PER_DAY : Int := 5
def MAX_FINE : Int := 200
def MEMBER_TYPE_STUDENT : Int := 1
def MEMBER_TYPE_FACULTY : Int := 2
def MAX_BOOKS_STUDENT : Int := 3
def MAX_BOOKS_FACULTY : Int := 5

/-! ## Machine integers -/

/-- Two's-complement wrap of an integer into the range of a 32-bit `int`: the
value an `int` holds after an operation whose exact result is `x`. -/
def wrapInt (x : Int) : Int := (x + 2147483648) % 4294967296 - 2147483648

/-! ## Basic date utilities -/

structure Date where
  day : Int
  month : Int
  year : Int
deriving DecidableEq

/-- Source `isLeap`: `(year%4==0 && year%100!=0) || (year%400==0)`. -/
def isLeap (year : Int) : Bool :=
  (Int.tmod year 4 == 0 && Int.tmod year 100 != 0) || (Int.tmod year 400 == 0)

/-- The static table `days[12]` of `daysInMonth`. -/
def days : List Int := [31, 28, 31, 30, 31, 30, 31, 31, 30, 31, 30, 31]

/-- Source `daysInMonth`: 29 for a leap February, otherwise `days[month-1]`;
`none` when `month-1` is not an index of the table. -/
def daysInMonth (month year : Int) : Option Int :=
  if month = 2 ∧ isLeap year = true then some 29
  else if 0 ≤ month - 1 then days[(month - 1).toNat]? else none

/-- First loop of `dateToSerial`, `for (y = 1; y < d.year; ++y)`: the loop
state before the test is `(days, y)`; the first argument bounds the
remaining iterations. -/
def serialYearLoop (year : Int) : Nat → Int → Int → Int
  | 0, acc, _ => acc
  | k + 1, acc, y =>
    if y < year then serialYearLoop year k (acc + (if isLeap y then 366 else 365)) (y + 1)
    else acc

/-- Second loop of `dateToSerial`, `for (m = 1; m < d.month; ++m)`. -/
def serialMonthLoop (month year : Int) : Nat → Int → Int → Option Int
  | 0, acc, _ => some acc
  | k + 1, acc, m =>
    if m < month then
      match daysInMonth m year with
      | none => none
      | some dim => serialMonthLoop month year k (acc + dim) (m + 1)
    else some acc

/-- Source `dateToSerial`: the day of the month plus the lengths of the years
`1 .. year-1` and of the months `1 .. month-1` of the year. Each loop gets as
many iterations as its counter can take before reaching its bound. The sum is
a `long`; for every `int` date it stays below `2^40`, so it is exact. -/
def dateToSerial (d : Date) : Option Int :=
  serialMonthLoop d.month d.year (d.month - 1).toNat
    (serialYearLoop d.year (d.year - 1).toNat d.day 1) 1

/-- Source `daysBetween`: `(int)(dateToSerial(to) - dateToSerial(from))`; the
cast cuts the `long` difference to the 32 bits of an `int`. -/
def daysBetween (fromD toD : Date) : Option Int :=
  match dateToSerial fromD, dateToSerial toD with
  | some a, some b => some (wrapInt (b - a))
  | _, _ => none

/-- One pass through the body of the `addDays` loop after the `break` test:
`d.day -= dim; d.month++; if (d.month > 12) { d.month = 1; d.year++; }`. The
pass is made with `d.day > dim` and `d.month` in `1..12`, where the first two
operations stay in the range of `int`; `d.year++` wraps at the largest `int`. -/
def rollover (d : Date) (dim : Int) : Date :=
  let d1 : Date := { d with day := d.day - dim, month := d.month + 1 }
  if d1.month > 12 then { d1 with month := 1, year := wrapInt (d1.year + 1) } else d1

/-- The `while (1)` loop of `addDays`; `fuel` bounds the iterations, and the
result is `none` when a month length is read outside the table or the fuel is
used up. -/
def addDaysLoop : Nat → Date → Option Date
  | 0, _ => none
  | fuel + 1, d =>
    match daysInMonth d.month d.year with
    | none => none
    | some dim => if d.day ≤ dim then some d else addDaysLoop fuel (rollover d dim)

/-- Source `addDays`: `d.day += n` in `int` arithmetic, then the rollover loop.
Every iteration lowers `d.day` by a month length, which is at least 28, so the
`d.day + 1` iterations granted here are never used up (`addDaysLoop_spec`). -/
def addDays (d : Date) (n : Int) : Option Date :=
  let d0 : Date := { d with day := wrapInt (d.day + n) }
  addDaysLoop (d0.day.toNat + 1) d0

/-- A date of the Gregorian calendar: month in `1..12`, day in `1..daysInMonth`. -/
def validDate (d : Date) : Prop :=
  1 ≤ d.month ∧ d.month ≤ 12 ∧ 1 ≤ d.day ∧
    ∃ dim, daysInMonth d.month d.year = some dim ∧ d.day ≤ dim

instance (d : Date) : Decidable (validDate d) := by
  unfold validDate
  cases h : daysInMonth d.month d.year with
  | none => exact isFalse (by simp)
  | some dim =>
    by_cases hle : d.day ≤ dim
    · exact decidable_of_iff (1 ≤ d.month ∧ d.month ≤ 12 ∧ 1 ≤ d.day) (by simp [hle])
    · exact isFalse (by simp [hle])

/-- Length of year `y` as the first loop of `dateToSerial` counts it. -/
def yearLength (y : Int) : Int := if isLeap y then 366 else 365

/-- Days in the years `1 .. year-1`, as accumulated by `serialYearLoop`. -/
def daysBeforeYear (year : Int) : Int := serialYearLoop year (year - 1).toNat 0 1

/-- Days in the months `1 .. month-1` of a year, by leap flag (used to state
the value of `serialMonthLoop` in closed form). -/
def daysBeforeMonth (month : Int) (leap : Bool) : Int :=
  (if leap then [0, 31, 60, 91, 121, 152, 182, 213, 244, 274, 305, 335]
   else [0, 31, 59, 90, 120, 151, 181, 212, 243, 273, 304, 334]).getD (month - 1).toNat 0

/-- The body of `daysInMonth` as a function of the leap flag alone. -/
def monthLength (m : Int) (leap : Bool) : Option Int :=
  if m = 2 ∧ leap = true then some 29
  else if 0 ≤ m - 1 then days[(m - 1).toNat]? else none

/-- Days in the years `1 .. year-1` in closed form, by the Gregorian leap rule. -/
def yearStart (year : Int) : Int :=
  365 * (year - 1) + (year - 1) / 4 - (year - 1) / 100 + (year - 1) / 400

/-- The number of a date in the count of days that `dateToSerial` makes, with
the years counted in closed form. -/
def dayNumber (d : Date) : Int :=
  d.day + yearStart d.year + daysBeforeMonth d.month (isLeap d.year)

/-- The last day of the largest year an `int` holds. -/
def lastDate : Date := { day := 31, month := 12, year := 2147483647 }

/-- Calendar order: `a` is an earlier date than `b`, comparing year, then
month, then day. -/
def dateLt (a b : Date) : Prop :=
  a.year < b.year ∨ (a.year = b.year ∧ (a.month < b.month ∨ (a.month = b.month ∧ a.day < b.day)))

/-- Calendar order: `a` is on or before `b`. -/
def dateLe (a b : Date) : Prop := dateLt a b ∨ a = b

instance (a b : Date) : Decidable (dateLt a b) := by
  unfold dateLt
  exact inferInstance

instance (a b : Date) : Decidable (dateLe a b) := by
  unfold dateLe
  exact inferInstance

/-! ## Data structures -/

/-- A `Book` node. The waitlist queue (`wait_front`, `wait_rear` and the
`WaitNode` chain between them) is the list of its member ids from front to
rear; the chaining pointer `next` is the position in the hash chain. -/
structure Book where
  id : Int
  title : String
  author : String
  total_copies : Int
  available_copies : Int
  waitlist : List Int
deriving DecidableEq

/-- A `Member` node; `next` is the position in the member list. -/
structure Member where
  id : Int
  name : String
  type : Int
  borrowed_count : Int
deriving DecidableEq

/-- A `Transaction` node; `is_returned` is `false` for the C value 0 (active)
and `true` for 1 (returned); `fine` is in rupees. -/
structure Transaction where
  id : Int
  bookId : Int
  memberId : Int
  borrow_date : Date
  due_date : Date
  return_date : Date
  is_returned : Bool
  fine : Int
deriving DecidableEq

/-- The global heads: `bookTable` (its chains in index order), `memberHead`,
`transHead` and `nextTransId`. -/
structure State where
  bookTable : List (List Book)
  memberHead : List Member
  transHead : List Transaction
  nextTransId : Int
deriving DecidableEq

/-- The state `main` starts from: every bucket `NULL`, no member, no
transaction, `nextTransId = 1`. -/
def initialState : State :=
  { bookTable := List.replicate BOOK_TABLE_SIZE.toNat [], memberHead := [], transHead := [],
    nextTransId := 1 }

/-- What `autoAssignFromWaitlist` did: returned at one of its first two tests,
skipped a waitlisted member that is not registered, skipped one at the borrow
limit, or issued the book. -/
inductive Assign where
  | nothing
  | memberMissing (memberId : Int)
  | limitReached (memberId : Int)
  | assigned (memberId : Int) (today due : Date)
deriving DecidableEq

/-- The message a command ends with. -/
inductive Outcome where
  /-- "Member with this ID already exists." -/
  | duplicateMember
  /-- "Member registered successfully." -/
  | memberRegistered
  /-- "Cannot delete member. They have active borrowed books." -/
  | hasActiveBorrows
  /-- "Cannot delete member. They are in a waitlist." -/
  | inWaitlist
  /-- "Member not found." -/
  | memberNotFound
  /-- "Member deleted successfully." -/
  | memberDeleted
  /-- "Book with this ID already exists." -/
  | duplicateBook
  /-- "Book added successfully." -/
  | bookAdded
  /-- "Book not found." -/
  | bookNotFound
  /-- "Cannot remove. Some copies are currently borrowed." -/
  | booksOnLoan
  /-- "Cannot remove. Waitlist is not empty." -/
  | waitlistNotEmpty
  /-- "Cannot remove. Active transactions exist." -/
  | activeTransactionsExist
  /-- The silent `if (!curr) return;` of `removeBook`. -/
  | notUnlinked
  /-- "Book removed successfully." -/
  | bookRemoved
  /-- "Borrow limit reached for this member." -/
  | borrowLimitReached
  /-- "Book issued successfully." with the two dates printed. -/
  | issued (today due : Date)
  /-- "No copies available. Adding member to waitlist." -/
  | waitlisted
  /-- "Active transaction not found for this member and book." -/
  | noActiveTransaction
  /-- "Book returned successfully." with the date and fine printed, followed by
  what the auto-assignment did. -/
  | returned (today : Date) (fine : Int) (auto : Assign)
deriving DecidableEq

/-! ## Pointers into lists -/

/-- Write through a pointer to the first node satisfying `p`: that node
becomes `x`, the links are untouched. -/
def replaceFirst {α : Type} (p : α → Bool) (x : α) : List α → List α
  | [] => []
  | y :: ys => if p y then x :: ys else y :: replaceFirst p x ys

/-- The unlink loop shared by `deleteMember` and `removeBook`:
`while (curr && !p(curr)) { prev = curr; curr = curr->next; }`, then `none`
when `curr` is `NULL`, else the list with `curr` cut out. -/
def unlinkFirst {α : Type} (p : α → Bool) : List α → Option (List α)
  | [] => none
  | curr :: rest =>
    if p curr then some rest
    else
      match unlinkFirst p rest with
      | none => none
      | some rest1 => some (curr :: rest1)

/-! ## Hash function -/

/-- Source `hashBookId`: `if (id < 0) id = -id; return id % BOOK_TABLE_SIZE;`. -/
def hashBookId (id : Int) : Int :=
  let id1 := if id < 0 then wrapInt (-id) else id
  Int.tmod id1 BOOK_TABLE_SIZE

/-- The chain `bookTable[index]`; `none` when `index` is outside the table. -/
def chainAt (bookTable : List (List Book)) (index : Int) : Option (List Book) :=
  if 0 ≤ index then bookTable[index.toNat]? else none

/-- The assignment `bookTable[index] = chain`, for an index inside the table. -/
def setChain (bookTable : List (List Book)) (index : Int) (chain : List Book) :
    List (List Book) :=
  bookTable.set index.toNat chain

/-! ## Waitlist queue -/

/-- Source `enqueueWait`: the new node goes behind `wait_rear`. -/
def enqueueWait (book : Book) (memberId : Int) : Book :=
  { book with waitlist := book.waitlist ++ [memberId] }

/-- Source `dequeueWait`: `-1` on an empty queue, else the member id of
`wait_front`, which is unlinked. -/
def dequeueWait (book : Book) : Int × Book :=
  match book.waitlist with
  | [] => (-1, book)
  | id :: rest => (id, { book with waitlist := rest })

/-- Source `isWaitlistEmpty`: `book->wait_front == NULL`. -/
def isWaitlistEmpty (book : Book) : Bool := book.waitlist.isEmpty

/-! ## Member functions -/

/-- Source `findMember`: the first member of the list with this id. -/
def findMember (memberHead : List Member) (id : Int) : Option Member :=
  memberHead.find? (fun curr => curr.id == id)

/-- Source `maxBooksAllowed`. -/
def maxBooksAllowed (m : Member) : Int :=
  if m.type = MEMBER_TYPE_STUDENT then MAX_BOOKS_STUDENT
  else if m.type = MEMBER_TYPE_FACULTY then MAX_BOOKS_FACULTY
  else 0

/-- Write through a `Member *` obtained from `findMember`. -/
def storeMember (memberHead : List Member) (m : Member) : List Member :=
  replaceFirst (fun curr => curr.id == m.id) m memberHead

/-- Source `registerMember`, reading `id`, `name` and `type`. -/
def registerMember (s : State) (id : Int) (name : String) (type : Int) : State × Outcome :=
  match findMember s.memberHead id with
  | some _ => (s, Outcome.duplicateMember)
  | none =>
    let type1 :=
      if type ≠ MEMBER_TYPE_STUDENT ∧ type ≠ MEMBER_TYPE_FACULTY then MEMBER_TYPE_STUDENT
      else type
    let m : Member := { id := id, name := name, type := type1, borrowed_count := 0 }
    ({ s with memberHead := m :: s.memberHead }, Outcome.memberRegistered)

/-- Source `memberHasActiveBorrows`. -/
def memberHasActiveBorrows (transHead : List Transaction) (memberId : Int) : Bool :=
  transHead.any (fun curr => !curr.is_returned && curr.memberId == memberId)

/-- Source `memberInAnyWaitlist`: every chain of the table, every book of the
chain, every node of its waitlist. -/
def memberInAnyWaitlist (bookTable : List (List Book)) (memberId : Int) : Bool :=
  bookTable.any (fun chain => chain.any (fun b => b.waitlist.any (fun w => w == memberId)))

/-- Source `deleteMember`, reading `id`. -/
def deleteMember (s : State) (id : Int) : State × Outcome :=
  if memberHasActiveBorrows s.transHead id then (s, Outcome.hasActiveBorrows)
  else if memberInAnyWaitlist s.bookTable id then (s, Outcome.inWaitlist)
  else
    match unlinkFirst (fun curr => curr.id == id) s.memberHead with
    | none => (s, Outcome.memberNotFound)
    | some rest => ({ s with memberHead := rest }, Outcome.memberDeleted)

/-! ## Book functions -/

/-- Source `findBook`: the first book with this id in the chain of its bucket.
The outer `none` is a bucket index outside the table; inside it, `none` is the
`NULL` result. -/
def findBook (bookTable : List (List Book)) (id : Int) : Option (Option Book) :=
  match chainAt bookTable (hashBookId id) with
  | none => none
  | some chain => some (chain.find? (fun curr => curr.id == id))

/-- Write through a `Book *` obtained from `findBook`. -/
def storeBook (bookTable : List (List Book)) (b : Book) : List (List Book) :=
  match chainAt bookTable (hashBookId b.id) with
  | none => bookTable
  | some chain =>
    setChain bookTable (hashBookId b.id) (replaceFirst (fun curr => curr.id == b.id) b chain)

/-- Source `addBook`, reading `id`, `title`, `author` and `total_copies`. -/
def addBook (s : State) (id : Int) (title author : String) (total_copies : Int) :
    Option (State × Outcome) :=
  match findBook s.bookTable id with
  | none => none
  | some (some _) => some (s, Outcome.duplicateBook)
  | some none =>
    let total := if total_copies < 1 then 1 else total_copies
    let b : Book :=
      { id := id, title := title, author := author, total_copies := total,
        available_copies := total, waitlist := [] }
    let index := hashBookId id
    match chainAt s.bookTable index with
    | none => none
    | some chain =>
      some ({ s with bookTable := setChain s.bookTable index (b :: chain) }, Outcome.bookAdded)

/-- Source `bookHasActiveTransactions`. -/
def bookHasActiveTransactions (transHead : List Transaction) (bookId : Int) : Bool :=
  transHead.any (fun curr => !curr.is_returned && curr.bookId == bookId)

/-- Source `removeBook`, reading `id`. -/
def removeBook (s : State) (id : Int) : Option (State × Outcome) :=
  match findBook s.bookTable id with
  | none => none
  | some none => some (s, Outcome.bookNotFound)
  | some (some b) =>
    if b.available_copies ≠ b.total_copies then some (s, Outcome.booksOnLoan)
    else if !isWaitlistEmpty b then some (s, Outcome.waitlistNotEmpty)
    else if bookHasActiveTransactions s.transHead id then
      some (s, Outcome.activeTransactionsExist)
    else
      let index := hashBookId id
      match chainAt s.bookTable index with
      | none => none
      | some chain =>
        match unlinkFirst (fun curr => curr.id == id) chain with
        | none => some (s, Outcome.notUnlinked)
        | some chain1 =>
          some ({ s with bookTable := setChain s.bookTable index chain1 }, Outcome.bookRemoved)

/-! ## Transaction functions -/

/-- Source `addTransaction`: a new active node at the head of the list. -/
def addTransaction (s : State) (bookId memberId : Int) (borrowDate dueDate : Date) : State :=
  let t : Transaction :=
    { id := s.nextTransId, bookId := bookId, memberId := memberId, borrow_date := borrowDate,
      due_date := dueDate, return_date := { day := 0, month := 0, year := 0 },
      is_returned := false, fine := 0 }
  { s with transHead := t :: s.transHead, nextTransId := s.nextTransId + 1 }

/-- The test of `findActiveTransaction`:
`!curr->is_returned && curr->bookId == bookId && curr->memberId == memberId`. -/
def isActiveFor (bookId memberId : Int) (curr : Transaction) : Bool :=
  !curr.is_returned && curr.bookId == bookId && curr.memberId == memberId

/-- Source `findActiveTransaction`: the first node passing the test. -/
def findActiveTransaction (transHead : List Transaction) (bookId memberId : Int) :
    Option Transaction :=
  transHead.find? (isActiveFor bookId memberId)

/-- Write through the `Transaction *` that `findActiveTransaction` returned
for `(bookId, memberId)`. -/
def storeTransaction (transHead : List Transaction) (bookId memberId : Int)
    (t : Transaction) : List Transaction :=
  replaceFirst (isActiveFor bookId memberId) t transHead

/-! ## Borrow / return logic -/

/-- Source `borrowBook`, reading `memberId` and `bookId`; `today` is the value
of `getToday()`. -/
def borrowBook (s : State) (today : Date) (memberId bookId : Int) :
    Option (State × Outcome) :=
  match findMember s.memberHead memberId with
  | none => some (s, Outcome.memberNotFound)
  | some m =>
    match findBook s.bookTable bookId with
    | none => none
    | some none => some (s, Outcome.bookNotFound)
    | some (some b) =>
      if m.borrowed_count ≥ maxBooksAllowed m then some (s, Outcome.borrowLimitReached)
      else if b.available_copies > 0 then
        let b1 : Book := { b with available_copies := b.available_copies - 1 }
        let m1 : Member := { m with borrowed_count := m.borrowed_count + 1 }
        match addDays today MAX_BORROW_DAYS with
        | none => none
        | some due =>
          let s1 : State :=
            { s with bookTable := storeBook s.bookTable b1,
                     memberHead := storeMember s.memberHead m1 }
          some (addTransaction s1 bookId memberId today due, Outcome.issued today due)
      else
        some ({ s with bookTable := storeBook s.bookTable (enqueueWait b memberId) },
          Outcome.waitlisted)

/-- Source `autoAssignFromWaitlist`; `b` is the content of the node the
`Book *` argument points to, and every change to it is written back; `today`
is the value of its call of `getToday()`. -/
def autoAssignFromWaitlist (s : State) (today : Date) (b : Book) :
    Option (State × Assign) :=
  if b.available_copies ≤ 0 then some (s, Assign.nothing)
  else if isWaitlistEmpty b then some (s, Assign.nothing)
  else
    let nextMemberId := (dequeueWait b).1
    let b1 := (dequeueWait b).2
    let s1 : State := { s with bookTable := storeBook s.bookTable b1 }
    match findMember s1.memberHead nextMemberId with
    | none => some (s1, Assign.memberMissing nextMemberId)
    | some m =>
      if m.borrowed_count ≥ maxBooksAllowed m then some (s1, Assign.limitReached nextMemberId)
      else
        let b2 : Book := { b1 with available_copies := b1.available_copies - 1 }
        let m1 : Member := { m with borrowed_count := m.borrowed_count + 1 }
        match addDays today MAX_BORROW_DAYS with
        | none => none
        | some due =>
          let s2 : State :=
            { s1 with bookTable := storeBook s1.bookTable b2,
                      memberHead := storeMember s1.memberHead m1 }
          some (addTransaction s2 b.id nextMemberId today due,
            Assign.assigned nextMemberId today due)

/-- The fine of `returnBook` for `diff = daysBetween(t->due_date, today)`:
`diff * FINE_PER_DAY` capped at `MAX_FINE` when `diff > 0`, else 0. -/
def computeFine (diff : Int) : Int :=
  if diff > 0 then
    let fine := diff * FINE_PER_DAY
    if fine > MAX_FINE then MAX_FINE else fine
  else 0

/-- The state of `returnBook` when it calls `autoAssignFromWaitlist`: the
transaction `t` closed with fine for `diff` days, `b->available_copies++`, and
`m->borrowed_count--` when positive. -/
def returnUpdate (s : State) (today : Date) (m : Member) (b : Book) (t : Transaction)
    (diff : Int) : State :=
  let t1 : Transaction :=
    { t with return_date := today, is_returned := true, fine := computeFine diff }
  let b1 : Book := { b with available_copies := b.available_copies + 1 }
  let m1 : Member :=
    if m.borrowed_count > 0 then { m with borrowed_count := m.borrowed_count - 1 } else m
  { s with transHead := storeTransaction s.transHead b.id m.id t1,
           bookTable := storeBook s.bookTable b1,
           memberHead := storeMember s.memberHead m1 }

/-- Source `returnBook`, reading `memberId` and `bookId`; `today` is the value
of its own call of `getToday()`, `todayAssign` the value of the call that
`autoAssignFromWaitlist` makes afterwards. -/
def returnBook (s : State) (today todayAssign : Date) (memberId bookId : Int) :
    Option (State × Outcome) :=
  match findMember s.memberHead memberId with
  | none => some (s, Outcome.memberNotFound)
  | some m =>
    match findBook s.bookTable bookId with
    | none => none
    | some none => some (s, Outcome.bookNotFound)
    | some (some b) =>
      match findActiveTransaction s.transHead bookId memberId with
      | none => some (s, Outcome.noActiveTransaction)
      | some t =>
        match daysBetween t.due_date today with
        | none => none
        | some diff =>
          let s1 := returnUpdate s today m b t diff
          match autoAssignFromWaitlist s1 todayAssign
              { b with available_copies := b.available_copies + 1 } with
          | none => none
          | some (s2, auto) => some (s2, Outcome.returned today (computeFine diff) auto)

/-! ## The menu loop -/

/-- The state-changing choices of the menu, with the values each one reads
and the dates `getToday()` returns during the command (once in a borrow,
once in a return and once more in its auto-assignment). -/
inductive Command where
  | addBook (id : Int) (title author : String) (total_copies : Int)
  | removeBook (id : Int)
  | registerMember (id : Int) (name : String) (type : Int)
  | deleteMember (id : Int)
  | borrowBook (today : Date) (memberId bookId : Int)
  | returnBook (today todayAssign : Date) (memberId bookId : Int)
deriving DecidableEq

/-- One pass through the `switch` of `main`; `none` when the command leaves
defined behaviour. -/
def exec (s : State) : Command → Option (State × Outcome)
  | Command.addBook id title author total_copies => addBook s id title author total_copies
  | Command.removeBook id => removeBook s id
  | Command.registerMember id name type => some (registerMember s id name type)
  | Command.deleteMember id => some (deleteMember s id)
  | Command.borrowBook today memberId bookId => borrowBook s today memberId bookId
  | Command.returnBook today todayAssign memberId bookId =>
    returnBook s today todayAssign memberId bookId

/-- Run a list of commands from a state, keeping the final state. -/
def run : State → List Command → Option State
  | s, [] => some s
  | s, c :: cs =>
    match exec s c with
    | none => none
    | some (s1, _) => run s1 cs

/-- States the program can be in: the initial one and every state a command
with a defined result leads to from a reachable state. -/
inductive Reachable : State → Prop where
  | init : Reachable initialState
  | step {s s1 : State} {out : Outcome} (c : Command) :
      Reachable s → exec s c = some (s1, out) → Reachable s1

/-! ## Invariants of the reachable states -/

/-- Number of active transactions of the ledger that reference a book id (the
test of `bookHasActiveTransactions`). -/
def activeForBook (transHead : List Transaction) (bookId : Int) : Nat :=
  transHead.countP (fun curr => !curr.is_returned && curr.bookId == bookId)

/-- Number of active transactions of the ledger that reference a member id
(the test of `memberHasActiveBorrows`). -/
def activeForMember (transHead : List Transaction) (memberId : Int) : Nat :=
  transHead.countP (fun curr => !curr.is_returned && curr.memberId == memberId)

/-- Number of active transactions of the ledger for a pair of book id and
member id (the test of `findActiveTransaction`). -/
def activeForPair (transHead : List Transaction) (bookId memberId : Int) : Nat :=
  transHead.countP (isActiveFor bookId memberId)

/-- Shape of the hash table: `BOOK_TABLE_SIZE` chains, every book in the chain
of its own bucket, no id twice in a chain. -/
structure TableWF (tbl : List (List Book)) : Prop where
  size : (tbl.length : Int) = BOOK_TABLE_SIZE
  bucket : ∀ (n : Nat) (chain : List Book), tbl[n]? = some chain →
    ∀ b ∈ chain, hashBookId b.id = (n : Int)
  distinct : ∀ (n : Nat) (chain : List Book), tbl[n]? = some chain →
    (chain.map (fun b => b.id)).Nodup

/-- Copies are conserved: a book found in the table has `available_copies ≥ 0`,
and `available_copies` plus the number of its active transactions is
`total_copies`. -/
def CopiesInv (tbl : List (List Book)) (transHead : List Transaction) : Prop :=
  ∀ (id : Int) (b : Book), findBook tbl id = some (some b) →
    0 ≤ b.available_copies ∧
      b.available_copies + (activeForBook transHead id : Int) = b.total_copies

/-- Loans are counted: a member found in the list has `borrowed_count` equal
to the number of its active transactions, at most `maxBooksAllowed`, and is a
student or a faculty member. -/
def LoansInv (memberHead : List Member) (transHead : List Transaction) : Prop :=
  ∀ (id : Int) (m : Member), findMember memberHead id = some m →
    m.borrowed_count = (activeForMember transHead id : Int) ∧
      m.borrowed_count ≤ maxBooksAllowed m ∧
      (m.type = MEMBER_TYPE_STUDENT ∨ m.type = MEMBER_TYPE_FACULTY)

/-- Active transactions reference a book of the table and a member of the list. -/
def RefsInv (tbl : List (List Book)) (memberHead : List Member)
    (transHead : List Transaction) : Prop :=
  ∀ t ∈ transHead, t.is_returned = false →
    (∃ b, findBook tbl t.bookId = some (some b)) ∧
      (∃ m, findMember memberHead t.memberId = some m)

/-- The invariant of the reachable states. -/
structure Inv (s : State) : Prop where
  table : TableWF s.bookTable
  members : (s.memberHead.map (fun m => m.id)).Nodup
  copies : CopiesInv s.bookTable s.transHead
  loans : LoansInv s.memberHead s.transHead
  refs : RefsInv s.bookTable s.memberHead s.transHead

/-- Waitlists reference members: every id in the waitlist of a book of the
table is the id of a member of the list. -/
def WaitInv (tbl : List (List Book)) (memberHead : List Member) : Prop :=
  ∀ chain ∈ tbl, ∀ b ∈ chain, ∀ w ∈ b.waitlist, w ∈ memberHead.map (fun m => m.id)

/-- Due dates of the ledger have a month in `1..12`, so that their serial
number is defined. -/
def DueInv (s : State) : Prop :=
  ∀ t ∈ s.transHead, 1 ≤ t.due_date.month ∧ t.due_date.month ≤ 12

/-- Reachable states when, besides the menu commands, the promotion step
`autoAssignFromWaitlist` may also run on its own on any book of the table. -/
inductive ReachableWithAssign : State → Prop where
  | init : ReachableWithAssign initialState
  | step {s s1 : State} {out : Outcome} (c : Command) :
      ReachableWithAssign s → exec s c = some (s1, out) → ReachableWithAssign s1
  | assign {s s1 : State} {a : Assign} (today : Date) (b : Book) :
      ReachableWithAssign s → findBook s.bookTable b.id = some (some b) →
      autoAssignFromWaitlist s today b = some (s1, a) → ReachableWithAssign s1

/-- A member found under `p` who is below the borrow limit. -/
def Eligible (s : State) (p : Int) : Prop :=
  ∃ m, findMember s.memberHead p = some m ∧ m.borrowed_count < maxBooksAllowed m

/-- Member `p` is found and below the borrow limit at promotion time of a
return of book `b` by member `r`: in the state that `returnBook` hands to
`autoAssignFromWaitlist`. -/
def EligibleAtPromotion (s : State) (today : Date) (r bookId p : Int) (b : Book) : Prop :=
  ∀ m t diff, findMember s.memberHead r = some m →
    findActiveTransaction s.transHead bookId r = some t →
    daysBetween t.due_date today = some diff →
    Eligible (returnUpdate s today m b t diff) p

/-! ## Auxiliary definitions for the statements -/

/-- The book node after the promotion step has taken the front of its
waitlist, `rest` being what is left of the queue. -/
def dequeued (b : Book) (rest : List Int) : Book := { b with waitlist := rest }

/-- A run of queue operations on the waitlist of a book: `some id` is
`enqueueWait book id`, `none` is `dequeueWait book` behind the
`isWaitlistEmpty` test that `autoAssignFromWaitlist` makes. The result is the
list of the ids that `dequeueWait` returned, in order, and the book at the end. -/
def queueRun : Book → List (Option Int) → List Int × Book
  | book, [] => ([], book)
  | book, some id :: ops => queueRun (enqueueWait book id) ops
  | book, none :: ops =>
    if isWaitlistEmpty book then queueRun book ops
    else ((dequeueWait book).1 :: (queueRun (dequeueWait book).2 ops).1,
          (queueRun (dequeueWait book).2 ops).2)

/-! ## Sample sessions -/

/-- A small session: one book with one copy, two students, the first borrows
the copy and the second is put on the waitlist. -/
def sessionCommands : List Command :=
  [Command.addBook 7 "Title" "Author" 1,
   Command.registerMember 1 "Ann" 1,
   Command.registerMember 2 "Bob" 1,
   Command.borrowBook { day := 1, month := 3, year := 5 } 1 7,
   Command.borrowBook { day := 2, month := 3, year := 5 } 2 7]

/-- The state after the first three of `sessionCommands`: the book is in the
table with its copy available, both students are registered. -/
def readyState : State :=
  { bookTable := (List.replicate 101 ([] : List Book)).set 7
      [{ id := 7, title := "Title", author := "Author", total_copies := 1,
         available_copies := 1, waitlist := [] }],
    memberHead :=
      [{ id := 2, name := "Bob", type := 1, borrowed_count := 0 },
       { id := 1, name := "Ann", type := 1, borrowed_count := 0 }],
    transHead := [],
    nextTransId := 1 }

/-- The state after the first four of `sessionCommands`: member 1 holds the
copy, borrowed on day 1 of the month and due on day 15. -/
def loanState : State :=
  { bookTable := (List.replicate 101 ([] : List Book)).set 7
      [{ id := 7, title := "Title", author := "Author", total_copies := 1,
         available_copies := 0, waitlist := [] }],
    memberHead :=
      [{ id := 2, name := "Bob", type := 1, borrowed_count := 0 },
       { id := 1, name := "Ann", type := 1, borrowed_count := 1 }],
    transHead :=
      [{ id := 1, bookId := 7, memberId := 1,
         borrow_date := { day := 1, month := 3, year := 5 },
         due_date := { day := 15, month := 3, year := 5 },
         return_date := { day := 0, month := 0, year := 0 },
         is_returned := false, fine := 0 }],
    nextTransId := 2 }

/-- The state after `sessionCommands`, written out. -/
def sessionState : State :=
  { bookTable := (List.replicate 101 ([] : List Book)).set 7
      [{ id := 7, title := "Title", author := "Author", total_copies := 1,
         available_copies := 0, waitlist := [2] }],
    memberHead :=
      [{ id := 2, name := "Bob", type := 1, borrowed_count := 0 },
       { id := 1, name := "Ann", type := 1, borrowed_count := 1 }],
    transHead :=
      [{ id := 1, bookId := 7, memberId := 1,
         borrow_date := { day := 1, month := 3, year := 5 },
         due_date := { day := 15, month := 3, year := 5 },
         return_date := { day := 0, month := 0, year := 0 },
         is_returned := false, fine := 0 }],
    nextTransId := 2 }

/-- A session in which member 1 borrows the only copy of book 7 and then asks
for the same book again, which puts member 1 on the waitlist of the book
whose copy member 1 holds. -/
def selfWaitCommands : List Command :=
  [Command.addBook 7 "Title" "Author" 1,
   Command.registerMember 1 "Ann" 1,
   Command.borrowBook { day := 1, month := 3, year := 5 } 1 7,
   Command.borrowBook { day := 2, month := 3, year := 5 } 1 7]

/-- The state after `selfWaitCommands`, written out. -/
def selfWaitState : State :=
  { bookTable := (List.replicate 101 ([] : List Book)).set 7
      [{ id := 7, title := "Title", author := "Author", total_copies := 1,
         available_copies := 0, waitlist := [1] }],
    memberHead := [{ id := 1, name := "Ann", type := 1, borrowed_count := 1 }],
    transHead :=
      [{ id := 1, bookId := 7, memberId := 1,
         borrow_date := { day := 1, month := 3, year := 5 },
         due_date := { day := 15, month := 3, year := 5 },
         return_date := { day := 0, month := 0, year := 0 },
         is_returned := false, fine := 0 }],
    nextTransId := 2 }

/-- The state after member 1 returns book 7 in `selfWaitState` on day 20: the
loan is closed with a fine of 25 and the copy is issued to member 1 again. -/
def selfWaitReturned : State :=
  { bookTable := (List.replicate 101 ([] : List Book)).set 7
      [{ id := 7, title := "Title", author := "Author", total_copies := 1,
         available_copies := 0, waitlist := [] }],
    memberHead := [{ id := 1, name := "Ann", type := 1, borrowed_count := 1 }],
    transHead :=
      [{ id := 2, bookId := 7, memberId := 1,
         borrow_date := { day := 20, month := 3, year := 5 },
         due_date := { day := 3, month := 4, year := 5 },
         return_date := { day := 0, month := 0, year := 0 },
         is_returned := false, fine := 0 },
       { id := 1, bookId := 7, memberId := 1,
         borrow_date := { day := 1, month := 3, year := 5 },
         due_date := { day := 15, month := 3, year := 5 },
         return_date := { day := 20, month := 3, year := 5 },
         is_returned := true, fine := 25 }],
    nextTransId := 3 }

/-- A state in which book 7 has two copies on the shelf and members 1 and 2 on
its waitlist; member 1, a student, already holds three books. -/
def queuedState : State :=
  { bookTable := (List.replicate 101 ([] : List Book)).set 7
      [{ id := 7, title := "Title", author := "Author", total_copies := 2,
         available_copies := 2, waitlist := [1, 2] }],
    memberHead :=
      [{ id := 2, name := "Bob", type := 1, borrowed_count := 0 },
       { id := 1, name := "Ann", type := 1, borrowed_count := 3 }],
    transHead := [],
    nextTransId := 4 }

/-- A session on book 7 with one copy: member 9 borrows it, members 1, 2 and 3
ask for it in that order, then members 9, 1 and 2 return it in turn. -/
def fifoCommands : List Command :=
  [Command.addBook 7 "Title" "Author" 1,
   Command.registerMember 9 "Eve" 2,
   Command.registerMember 1 "Ann" 1,
   Command.registerMember 2 "Bob" 1,
   Command.registerMember 3 "Cid" 1,
   Command.borrowBook { day := 1, month := 3, year := 5 } 9 7,
   Command.borrowBook { day := 2, month := 3, year := 5 } 1 7,
   Command.borrowBook { day := 3, month := 3, year := 5 } 2 7,
   Command.borrowBook { day := 4, month := 3, year := 5 } 3 7,
   Command.returnBook { day := 10, month := 3, year := 5 }
     { day := 10, month := 3, year := 5 } 9 7,
   Command.returnBook { day := 20, month := 3, year := 5 }
     { day := 20, month := 3, year := 5 } 1 7,
   Command.returnBook { day := 30, month := 3, year := 5 }
     { day := 30, month := 3, year := 5 } 2 7]

/-- The state after the first `n` of `fifoCommands`. -/
def fifoState (n : Nat) : State :=
  (run initialState (fifoCommands.take n)).getD initialState

/-- A session in which member 1 borrows book 7, which has two copies, on two
days in a row. -/
def doubleLoanCommands : List Command :=
  [Command.addBook 7 "Title" "Author" 2,
   Command.registerMember 1 "Ann" 1,
   Command.borrowBook { day := 1, month := 3, year := 5 } 1 7,
   Command.borrowBook { day := 2, month := 3, year := 5 } 1 7]

/-- The state after `doubleLoanCommands`, written out: both copies are on loan
to member 1. -/
def doubleLoanState : State :=
  { bookTable := (List.replicate 101 ([] : List Book)).set 7
      [{ id := 7, title := "Title", author := "Author", total_copies := 2,
         available_copies := 0, waitlist := [] }],
    memberHead := [{ id := 1, name := "Ann", type := 1, borrowed_count := 2 }],
    transHead :=
      [{ id := 2, bookId := 7, memberId := 1,
         borrow_date := { day := 2, month := 3, year := 5 },
         due_date := { day := 16, month := 3, year := 5 },
         return_date := { day := 0, month := 0, year := 0 },
         is_returned := false, fine := 0 },
       { id := 1, bookId := 7, memberId := 1,
         borrow_date := { day := 1, month := 3, year := 5 },
         due_date := { day := 15, month := 3, year := 5 },
         return_date := { day := 0, month := 0, year := 0 },
         is_returned := false, fine := 0 }],
    nextTransId := 3 }

/-- A session far in the future: member 1 borrows book 7 on 18 December of
year 5879611, so that the loan is due on 1 January of year 5879612. -/
def farCommands : List Command :=
  [Command.addBook 7 "Title" "Author" 1,
   Command.registerMember 1 "Ann" 1,
   Command.borrowBook { day := 18, month := 12, year := 5879611 } 1 7]

/-- The state after `farCommands`, written out. -/
def farLoanState : State :=
  { bookTable := (List.replicate 101 ([] : List Book)).set 7
      [{ id := 7, title := "Title", author := "Author", total_copies := 1,
         available_copies := 0, waitlist := [] }],
    memberHead := [{ id := 1, name := "Ann", type := 1, borrowed_count := 1 }],
    transHead :=
      [{ id := 1, bookId := 7, memberId := 1,
         borrow_date := { day := 18, month := 12, year := 5879611 },
         due_date := { day := 1, month := 1, year := 5879612 },
         return_date := { day := 0, month := 0, year := 0 },
         is_returned := false, fine := 0 }],
    nextTransId := 2 }

/-! ## Calendar lemmas -/

theorem daysInMonth_monthLength (m year : Int) :
    daysInMonth m year = monthLength m (isLeap year) := rfl

theorem monthLength_eq (m : Int) (leap : Bool) (h1 : 1 ≤ m) (h12 : m ≤ 12) :
    monthLength m leap
      = some (if m = 12 then 31 else daysBeforeMonth (m + 1) leap - daysBeforeMonth m leap) := by
  have hm : m = 1 ∨ m = 2 ∨ m = 3 ∨ m = 4 ∨ m = 5 ∨ m = 6 ∨
      m = 7 ∨ m = 8 ∨ m = 9 ∨ m = 10 ∨ m = 11 ∨ m = 12 := by omega
  rcases hm with h | h | h | h | h | h | h | h | h | h | h | h <;> subst h <;>
    cases leap <;> decide

theorem serialYearLoop_acc (year : Int) (k : Nat) (acc c y : Int) :
    serialYearLoop year k (acc + c) y = serialYearLoop year k acc y + c := by
  induction k generalizing acc y with
  | zero => simp [serialYearLoop]
  | succ k ih =>
    simp only [serialYearLoop]
    split
    · rw [show acc + c + (if isLeap y = true then (366 : Int) else 365)
          = acc + (if isLeap y = true then (366 : Int) else 365) + c by ring]
      exact ih _ _
    · rfl

theorem serialYearLoop_succ (year : Int) (k : Nat) (acc y : Int) (h : y + k = year) :
    serialYearLoop (year + 1) (k + 1) acc y = serialYearLoop year k acc y + yearLength year := by
  induction k generalizing acc y with
  | zero =>
    have hy : y = year := by simpa using h
    subst hy
    simp [serialYearLoop, yearLength]
  | succ k ih =>
    have h1 : y < year := by push_cast at h; omega
    have h2 : y < year + 1 := by omega
    have e1 : serialYearLoop (year + 1) (k + 1 + 1) acc y
        = serialYearLoop (year + 1) (k + 1) (acc + (if isLeap y then 366 else 365)) (y + 1) := by
      conv => lhs; unfold serialYearLoop
      simp [h2]
    have e2 : serialYearLoop year (k + 1) acc y
        = serialYearLoop year k (acc + (if isLeap y then 366 else 365)) (y + 1) := by
      conv => lhs; unfold serialYearLoop
      simp [h1]
    rw [e1, e2]
    exact ih _ _ (by push_cast at h ⊢; omega)

theorem daysBeforeYear_succ (year : Int) (h : 1 ≤ year) :
    daysBeforeYear (year + 1) = daysBeforeYear year + yearLength year := by
  unfold daysBeforeYear
  have e : (year + 1 - 1).toNat = (year - 1).toNat + 1 := by omega
  rw [e]
  exact serialYearLoop_succ year _ 0 1 (by omega)

theorem serialMonthLoop_acc (month year : Int) (k : Nat) (acc c m : Int) :
    serialMonthLoop month year k (acc + c) m
      = (serialMonthLoop month year k acc m).map (· + c) := by
  induction k generalizing acc m with
  | zero => simp [serialMonthLoop]
  | succ k ih =>
    simp only [serialMonthLoop]
    split
    · cases hd : daysInMonth m year with
      | none => simp
      | some dim =>
        simp only
        rw [show acc + c + dim = acc + dim + c by ring]
        exact ih _ _
    · simp

theorem daysInMonth_eq (m year : Int) (h1 : 1 ≤ m) (h12 : m ≤ 12) :
    daysInMonth m year
      = some (if m = 12 then 31
              else daysBeforeMonth (m + 1) (isLeap year) - daysBeforeMonth m (isLeap year)) := by
  rw [daysInMonth_monthLength, monthLength_eq m _ h1 h12]

theorem serialMonthLoop_gen (month year : Int) (k : Nat) (acc m : Int)
    (h1 : 1 ≤ m) (h12 : month ≤ 12) (h : m + k = month) :
    serialMonthLoop month year k acc m
      = some (acc + daysBeforeMonth month (isLeap year) - daysBeforeMonth m (isLeap year)) := by
  induction k generalizing acc m with
  | zero =>
    have hy : m = month := by simpa using h
    subst hy
    simp [serialMonthLoop]
  | succ k ih =>
    have hlt : m < month := by push_cast at h; omega
    have e : serialMonthLoop month year (k + 1) acc m
        = match daysInMonth m year with
          | none => none
          | some dim => serialMonthLoop month year k (acc + dim) (m + 1) := by
      conv => lhs; unfold serialMonthLoop
      simp [hlt]
    rw [e, daysInMonth_eq m year h1 (by omega)]
    have hne : m ≠ 12 := by omega
    simp only [if_neg hne]
    rw [ih _ _ (by omega) (by push_cast at h ⊢; omega)]
    congr 1; ring

theorem serialMonthLoop_eq (month year : Int) (h1 : 1 ≤ month) (h12 : month ≤ 12) :
    serialMonthLoop month year (month - 1).toNat 0 1
      = some (daysBeforeMonth month (isLeap year)) := by
  rw [serialMonthLoop_gen month year _ 0 1 (by omega) h12 (by omega)]
  have : daysBeforeMonth 1 (isLeap year) = 0 := by cases isLeap year <;> decide
  rw [this]; simp

theorem dateToSerial_eq (d : Date) (h1 : 1 ≤ d.month) (h12 : d.month ≤ 12) :
    dateToSerial d
      = some (d.day + daysBeforeYear d.year + daysBeforeMonth d.month (isLeap d.year)) := by
  unfold dateToSerial
  have e1 : serialYearLoop d.year (d.year - 1).toNat d.day 1
      = 0 + (daysBeforeYear d.year + d.day) := by
    unfold daysBeforeYear
    rw [← serialYearLoop_acc]; simp
  rw [e1, serialMonthLoop_acc, serialMonthLoop_eq _ _ h1 h12]
  simp; ring

theorem monthLength_bounds (m : Int) (leap : Bool) (h1 : 1 ≤ m) (h12 : m ≤ 12) :
    ∃ dim, monthLength m leap = some dim ∧ 28 ≤ dim ∧ dim ≤ 31 := by
  have hm : m = 1 ∨ m = 2 ∨ m = 3 ∨ m = 4 ∨ m = 5 ∨ m = 6 ∨
      m = 7 ∨ m = 8 ∨ m = 9 ∨ m = 10 ∨ m = 11 ∨ m = 12 := by omega
  rcases hm with h | h | h | h | h | h | h | h | h | h | h | h <;> subst h <;>
    cases leap <;> exact ⟨_, rfl, by decide, by decide⟩

theorem daysInMonth_bounds (m year : Int) (h1 : 1 ≤ m) (h12 : m ≤ 12) :
    ∃ dim, daysInMonth m year = some dim ∧ 28 ≤ dim ∧ dim ≤ 31 :=
  monthLength_bounds m (isLeap year) h1 h12

theorem daysBeforeMonth_one (leap : Bool) : daysBeforeMonth 1 leap = 0 := by
  cases leap <;> decide

theorem daysBeforeMonth_twelve (year : Int) :
    daysBeforeMonth 12 (isLeap year) + 31 = yearLength year := by
  unfold yearLength
  cases isLeap year <;> decide

theorem daysBeforeMonth_mono (a b : Int) (leap : Bool) (ha : 1 ≤ a) (hab : a ≤ b)
    (hb : b ≤ 12) : daysBeforeMonth a leap ≤ daysBeforeMonth b leap := by
  have h1 : a = 1 ∨ a = 2 ∨ a = 3 ∨ a = 4 ∨ a = 5 ∨ a = 6 ∨
      a = 7 ∨ a = 8 ∨ a = 9 ∨ a = 10 ∨ a = 11 ∨ a = 12 := by omega
  have h2 : b = 1 ∨ b = 2 ∨ b = 3 ∨ b = 4 ∨ b = 5 ∨ b = 6 ∨
      b = 7 ∨ b = 8 ∨ b = 9 ∨ b = 10 ∨ b = 11 ∨ b = 12 := by omega
  rcases h1 with h | h | h | h | h | h | h | h | h | h | h | h <;> subst h <;>
    rcases h2 with h | h | h | h | h | h | h | h | h | h | h | h <;> subst h <;>
    first
      | (exfalso; omega)
      | (cases leap <;> decide)

theorem daysBeforeMonth_nonneg (m : Int) (leap : Bool) (h1 : 1 ≤ m) (h12 : m ≤ 12) :
    0 ≤ daysBeforeMonth m leap := by
  have := daysBeforeMonth_mono 1 m leap (le_refl _) h1 h12
  rw [daysBeforeMonth_one] at this
  exact this

theorem wrapInt_of_range (x : Int) (hlo : -2147483648 ≤ x) (hhi : x ≤ 2147483647) :
    wrapInt x = x := by
  unfold wrapInt
  omega

theorem wrapInt_range (x : Int) : -2147483648 ≤ wrapInt x ∧ wrapInt x ≤ 2147483647 := by
  unfold wrapInt
  omega

theorem tmod_eq_zero_iff (y k : Int) : Int.tmod y k = 0 ↔ y % k = 0 := by
  rw [← Int.dvd_iff_tmod_eq_zero, Int.dvd_iff_emod_eq_zero]

theorem isLeap_iff (y : Int) :
    isLeap y = true ↔ (y % 4 = 0 ∧ y % 100 ≠ 0) ∨ y % 400 = 0 := by
  unfold isLeap
  simp only [Bool.or_eq_true, Bool.and_eq_true, beq_iff_eq, bne_iff_ne, ne_eq, tmod_eq_zero_iff]

theorem yearStart_succ (y : Int) : yearStart (y + 1) = yearStart y + yearLength y := by
  unfold yearStart yearLength
  by_cases h : isLeap y = true
  · rw [if_pos h]
    rw [isLeap_iff] at h
    omega
  · rw [if_neg h]
    rw [isLeap_iff] at h
    omega

theorem daysBeforeYear_one : daysBeforeYear 1 = 0 := by
  decide

theorem daysBeforeYear_eq_yearStart (y : Int) (h : 1 ≤ y) : daysBeforeYear y = yearStart y := by
  obtain ⟨k, rfl⟩ : ∃ k : Nat, y = (k : Int) + 1 := ⟨(y - 1).toNat, by omega⟩
  induction k with
  | zero => decide
  | succ k ih =>
    have e : ((k + 1 : Nat) : Int) + 1 = ((k : Int) + 1) + 1 := by push_cast; ring
    rw [e, daysBeforeYear_succ _ (by omega), yearStart_succ, ih (by omega)]

theorem dateToSerial_dayNumber (d : Date) (h1 : 1 ≤ d.month) (h12 : d.month ≤ 12)
    (hy : 1 ≤ d.year) : dateToSerial d = some (dayNumber d) := by
  rw [dateToSerial_eq d h1 h12, daysBeforeYear_eq_yearStart d.year hy]
  rfl

theorem dateToSerial_lastDate : dateToSerial lastDate = some 784352295939 := by
  rw [dateToSerial_dayNumber lastDate (by decide) (by decide) (by decide)]
  decide

theorem dateToSerial_far : dateToSerial ⟨1, 1, 5879612⟩ = some 2147483821 := by
  rw [dateToSerial_dayNumber ⟨1, 1, 5879612⟩ (by decide) (by decide) (by decide)]
  decide

theorem addDaysLoop_succ (fuel : Nat) (d : Date) (dim : Int)
    (hd : daysInMonth d.month d.year = some dim) :
    addDaysLoop (fuel + 1) d
      = if d.day ≤ dim then some d else addDaysLoop fuel (rollover d dim) := by
  conv => lhs; unfold addDaysLoop
  simp only [hd]

theorem yearStart_last : yearStart 2147483648 = 784352295939 := by
  decide

theorem yearStart_mono (a b : Int) (h : a ≤ b) : yearStart a ≤ yearStart b := by
  unfold yearStart
  omega

/-- A pass of the rollover loop keeps the day number of the date, as long as
the year it may step to is one an `int` holds. -/
theorem dayNumber_rollover (d : Date) (dim : Int) (h1 : 1 ≤ d.month) (h12 : d.month ≤ 12)
    (hd : daysInMonth d.month d.year = some dim) (hylo : -2147483648 ≤ d.year)
    (hyhi : d.month = 12 → d.year < 2147483647) :
    dayNumber (rollover d dim) = dayNumber d ∧ d.year ≤ (rollover d dim).year ∧
      (d.year ≤ 2147483647 → (rollover d dim).year ≤ 2147483647) := by
  rw [daysInMonth_eq _ _ h1 h12] at hd
  have hdim := Option.some.inj hd
  by_cases hm : d.month = 12
  · have hw : wrapInt (d.year + 1) = d.year + 1 :=
      wrapInt_of_range _ (by omega) (by have := hyhi hm; omega)
    have e : rollover d dim = { day := d.day - dim, month := 1, year := d.year + 1 } := by
      simp [rollover, hm, hw]
    rw [e]
    unfold dayNumber
    simp only [yearStart_succ, daysBeforeMonth_one, hm]
    rw [if_pos hm] at hdim
    have := daysBeforeMonth_twelve d.year
    have := hyhi hm
    refine ⟨by omega, by omega, fun _ => by omega⟩
  · have e : rollover d dim = { day := d.day - dim, month := d.month + 1, year := d.year } := by
      have : ¬ (d.month + 1 > 12) := by omega
      simp [rollover, this]
    rw [e]
    unfold dayNumber
    rw [if_neg hm] at hdim
    simp only
    refine ⟨by omega, le_refl _, fun h => h⟩

theorem rollover_month (d : Date) (dim : Int) (h1 : 1 ≤ d.month) (h12 : d.month ≤ 12) :
    1 ≤ (rollover d dim).month ∧ (rollover d dim).month ≤ 12 ∧
      (rollover d dim).day = d.day - dim := by
  unfold rollover
  by_cases hm : d.month + 1 > 12
  · simp [hm]
  · simp [hm]; omega

/-- A date in December past its 31st day has a day number beyond the end of
its year. -/
theorem dayNumber_december (d : Date) (hm : d.month = 12) (hday : 31 < d.day) :
    yearStart (d.year + 1) < dayNumber d := by
  unfold dayNumber
  rw [yearStart_succ, hm]
  have := daysBeforeMonth_twelve d.year
  omega

/-- The rollover loop ends within `d.day + 1` iterations on every date whose
month is in `1..12`. Its result has a month in `1..12` and a day within the
month, a positive one whenever the day it started from was positive. When the
day number of the date is not beyond the last day of the largest `int` year,
no year wraps: the year does not go down and the day number is kept. -/
theorem addDaysLoop_spec (fuel : Nat) (d : Date) (h1 : 1 ≤ d.month) (h12 : d.month ≤ 12)
    (hfuel : d.day.toNat < fuel) :
    ∃ e, addDaysLoop fuel d = some e ∧ 1 ≤ e.month ∧ e.month ≤ 12 ∧
      (∃ dim, daysInMonth e.month e.year = some dim ∧ e.day ≤ dim) ∧
      (1 ≤ d.day → 1 ≤ e.day) ∧ (d.day ≤ 0 → e = d) ∧
      (-2147483648 ≤ d.year → d.year ≤ 2147483647 → dayNumber d ≤ 784352295939 →
        d.year ≤ e.year ∧ e.year ≤ 2147483647 ∧ dayNumber e = dayNumber d) := by
  induction fuel generalizing d with
  | zero => omega
  | succ fuel ih =>
    obtain ⟨dim, hd, hlo, hhi⟩ := daysInMonth_bounds d.month d.year h1 h12
    rw [addDaysLoop_succ fuel d dim hd]
    by_cases hle : d.day ≤ dim
    · rw [if_pos hle]
      exact ⟨d, rfl, h1, h12, ⟨dim, hd, hle⟩, id, fun _ => rfl,
        fun _ hy _ => ⟨le_refl _, hy, rfl⟩⟩
    · rw [if_neg hle]
      obtain ⟨r1, r12, rday⟩ := rollover_month d dim h1 h12
      obtain ⟨e, he, e1, e12, edim, eday, _, eyr⟩ :=
        ih (rollover d dim) r1 r12 (by rw [rday]; omega)
      refine ⟨e, he, e1, e12, edim, fun _ => eday (by rw [rday]; omega),
        fun h0 => by omega, fun hylo hyhi hnum => ?_⟩
      have hdec : d.month = 12 → d.year < 2147483647 := by
        intro hm
        have hm12 : daysInMonth 12 d.year = some 31 := by
          unfold daysInMonth
          simp
          rfl
        rw [hm, hm12] at hd
        have hdim31 : dim = 31 := (Option.some.inj hd).symm
        have h2 := dayNumber_december d hm (by omega)
        by_contra hc
        have h3 : d.year = 2147483647 := by omega
        rw [h3] at h2
        have h4 : yearStart (2147483647 + 1) = 784352295939 := yearStart_last
        rw [h4] at h2
        omega
      obtain ⟨rnum, ryr, rhi⟩ := dayNumber_rollover d dim h1 h12 hd hylo hdec
      obtain ⟨ey, ehi, enum⟩ := eyr (by omega) (rhi hyhi) (by rw [rnum]; exact hnum)
      exact ⟨by omega, ehi, by rw [enum, rnum]⟩

/-- On a date with month in `1..12`, `addDays` returns a date with a month in
`1..12` and a day within the month. -/
theorem addDays_spec (d : Date) (n : Int) (h1 : 1 ≤ d.month) (h12 : d.month ≤ 12) :
    ∃ e, addDays d n = some e ∧ 1 ≤ e.month ∧ e.month ≤ 12 ∧
      (∃ dim, daysInMonth e.month e.year = some dim ∧ e.day ≤ dim) ∧
      (1 ≤ wrapInt (d.day + n) → 1 ≤ e.day) ∧
      (wrapInt (d.day + n) ≤ 0 → e = { d with day := wrapInt (d.day + n) }) ∧
      (-2147483648 ≤ d.year → d.year ≤ 2147483647 →
        dayNumber d - d.day + wrapInt (d.day + n) ≤ 784352295939 →
        d.year ≤ e.year ∧ e.year ≤ 2147483647 ∧
          dayNumber e = dayNumber d - d.day + wrapInt (d.day + n)) := by
  unfold addDays
  obtain ⟨e, he, e1, e12, edim, eday, estay, eyr⟩ :=
    addDaysLoop_spec ((wrapInt (d.day + n)).toNat + 1) { d with day := wrapInt (d.day + n) }
      h1 h12 (by simp)
  have hnum : dayNumber { d with day := wrapInt (d.day + n) }
      = dayNumber d - d.day + wrapInt (d.day + n) := by
    unfold dayNumber
    simp only
    omega
  refine ⟨e, he, e1, e12, edim, eday, estay, fun hylo hyhi hb => ?_⟩
  rw [← hnum] at hb ⊢
  exact eyr hylo hyhi hb

/-- The result `none` of `addDays` never stands for used-up fuel: it occurs
exactly when the month of the date is outside `1..12`, where the first read of
a month length is outside the table. -/
theorem addDays_eq_none_iff (d : Date) (n : Int) :
    addDays d n = none ↔ ¬ (1 ≤ d.month ∧ d.month ≤ 12) := by
  constructor
  · intro h hm
    obtain ⟨e, he, _⟩ := addDays_spec d n hm.1 hm.2
    rw [h] at he
    cases he
  · intro hm
    unfold addDays
    simp only
    unfold addDaysLoop
    cases hd : daysInMonth d.month d.year with
    | none => rfl
    | some dim =>
      exfalso
      apply hm
      unfold daysInMonth at hd
      split at hd
      · omega
      · split at hd
        · have hlt : (d.month - 1).toNat < days.length := by
            by_contra hc
            rw [List.getElem?_eq_none (by omega)] at hd
            simp at hd
          have : days.length = 12 := rfl
          omega
        · simp at hd

/-- Adding days to a date of the calendar gives a date of the calendar when
`d.day + n` is a value of an `int`. -/
theorem validDate_addDays (d : Date) (n : Int) (hv : validDate d) (hn : 0 ≤ n)
    (hday : d.day + n ≤ 2147483647) :
    ∃ e, addDays d n = some e ∧ validDate e := by
  obtain ⟨h1, h12, hd1, _⟩ := hv
  obtain ⟨e, he, e1, e12, edim, eday, _⟩ := addDays_spec d n h1 h12
  have hw : wrapInt (d.day + n) = d.day + n := wrapInt_of_range _ (by omega) hday
  exact ⟨e, he, e1, e12, eday (by rw [hw]; omega), edim⟩

theorem dateToSerial_valid (d : Date) (hv : validDate d) :
    ∃ a, dateToSerial d = some a := ⟨_, dateToSerial_eq d hv.1 hv.2.1⟩

theorem daysBetween_valid (d e : Date) (hd : validDate d) (he : validDate e) :
    ∃ k, daysBetween d e = some k := by
  obtain ⟨a, ha⟩ := dateToSerial_valid d hd
  obtain ⟨b, hb⟩ := dateToSerial_valid e he
  exact ⟨wrapInt (b - a), by simp [daysBetween, ha, hb]⟩

theorem daysBetween_eq (d e : Date) (a b : Int) (ha : dateToSerial d = some a)
    (hb : dateToSerial e = some b) : daysBetween d e = some (wrapInt (b - a)) := by
  simp [daysBetween, ha, hb]

/-- C1, within the range of `int`. For a date `d` of the Gregorian calendar
with `year ≥ 1`, serial number `a`, and an `int` `n ≥ 0` such that the date `n`
days after `d` is not later than 31 December 2147483647, the last day an `int`
year holds (serial number 784352295939), `addDays d n` returns a date `e` with
`daysBetween d e = n`, and `e` is a date of the calendar when `d.day + n` is a
value of an `int`. When `d.day + n` is beyond the largest `int` the day wraps,
`e` is `d` with a negative day, and `daysBetween d e` is `n` all the same. -/
theorem daysBetween_addDays (d : Date) (n a : Int) (hv : validDate d) (hy : 1 ≤ d.year)
    (hn : 0 ≤ n) (hnhi : n ≤ 2147483647) (ha : dateToSerial d = some a)
    (hend : d.day + n ≤ 2147483647 → a + n ≤ 784352295939) :
    dateToSerial lastDate = some 784352295939 ∧
    ∃ e, addDays d n = some e ∧ daysBetween d e = some n ∧
      (d.day + n ≤ 2147483647 → validDate e ∧ dateToSerial e = some (a + n)) ∧
      (2147483647 < d.day + n → e = { d with day := d.day + n - 4294967296 }) := by
  refine ⟨dateToSerial_lastDate, ?_⟩
  obtain ⟨h1, h12, hd1, dim, hdim, hd2⟩ := hv
  obtain ⟨dim2, hdim2, _, hdimhi⟩ := daysInMonth_bounds d.month d.year h1 h12
  rw [hdim] at hdim2
  have hdd : dim = dim2 := Option.some.inj hdim2
  have hnum : a = dayNumber d := by
    rw [dateToSerial_dayNumber d h1 h12 hy] at ha
    exact (Option.some.inj ha).symm
  obtain ⟨e, he, e1, e12, edim, eday, estay, eyr⟩ := addDays_spec d n h1 h12
  refine ⟨e, he, ?_⟩
  by_cases hday : d.day + n ≤ 2147483647
  · have hw : wrapInt (d.day + n) = d.day + n := wrapInt_of_range _ (by omega) hday
    have hlast := hend hday
    have hyhi : d.year ≤ 2147483647 := by
      by_contra hc
      have hys := yearStart_mono 2147483648 d.year (by omega)
      rw [yearStart_last] at hys
      have h2 : 0 ≤ daysBeforeMonth d.month (isLeap d.year) :=
        daysBeforeMonth_nonneg d.month _ h1 h12
      unfold dayNumber at hnum
      omega
    obtain ⟨ey, ehi, enum⟩ := eyr (by omega) hyhi (by rw [hw]; omega)
    have hse : dateToSerial e = some (a + n) := by
      rw [dateToSerial_dayNumber e e1 e12 (by omega), enum, hw, hnum]
      congr 1
      omega
    refine ⟨?_, fun _ => ⟨⟨e1, e12, eday (by rw [hw]; omega), edim⟩, hse⟩,
      fun h => absurd hday (by omega)⟩
    rw [daysBetween_eq d e a (a + n) ha hse]
    congr 1
    rw [show a + n - a = n by omega]
    exact wrapInt_of_range n (by omega) hnhi
  · have hw : wrapInt (d.day + n) = d.day + n - 4294967296 := by
      unfold wrapInt
      omega
    have hee := estay (by rw [hw]; omega)
    rw [hw] at hee
    refine ⟨?_, fun h => absurd h hday, fun _ => hee⟩
    have hse : dateToSerial e
        = some (d.day + n - 4294967296 + daysBeforeYear d.year
            + daysBeforeMonth d.month (isLeap d.year)) := by
      rw [hee]
      exact dateToSerial_eq _ h1 h12
    rw [dateToSerial_eq d h1 h12] at ha
    have haa := Option.some.inj ha
    rw [daysBetween_eq d e a _ (by rw [dateToSerial_eq d h1 h12, haa]) hse]
    congr 1
    unfold wrapInt
    omega

theorem daysBetween_addDays_witness :
    validDate ⟨31, 12, 3⟩ ∧ (1 : Int) ≤ 3 ∧ (0 : Int) ≤ 60 ∧ (60 : Int) ≤ 2147483647 ∧
    dateToSerial ⟨31, 12, 3⟩ = some 1095 ∧
    ((31 : Int) + 60 ≤ 2147483647 → (1095 : Int) + 60 ≤ 784352295939) ∧
    dateToSerial lastDate = some 784352295939 ∧
    ∃ e, addDays ⟨31, 12, 3⟩ 60 = some e ∧ daysBetween ⟨31, 12, 3⟩ e = some 60 ∧
      ((31 : Int) + 60 ≤ 2147483647 → validDate e ∧ dateToSerial e = some (1095 + 60)) ∧
      ((2147483647 : Int) < 31 + 60 →
        e = { (⟨31, 12, 3⟩ : Date) with day := 31 + 60 - 4294967296 }) :=
  ⟨by decide, by decide, by decide, by decide, by decide, by decide,
    daysBetween_addDays ⟨31, 12, 3⟩ 60 1095 (by decide) (by decide) (by decide) (by decide)
      (by decide) (by decide)⟩

/-- C1 as the spec has it, refuted on the code. One day after 31 December of
the largest `int` year the year wraps: `addDays` returns 1 January of year
-2147483648, and `daysBetween` from the first date to that one is 1626719230,
not 1. -/
theorem daysBetween_addDays_counterexample :
    validDate ⟨31, 12, 2147483647⟩ ∧ (1 : Int) ≤ 2147483647 ∧ (0 : Int) ≤ 1 ∧
    addDays ⟨31, 12, 2147483647⟩ 1 = some ⟨1, 1, -2147483648⟩ ∧
    daysBetween ⟨31, 12, 2147483647⟩ ⟨1, 1, -2147483648⟩ = some 1626719230 ∧
    ¬ (∀ (d : Date) (n : Int), validDate d → 1 ≤ d.year → 0 ≤ n →
        ∃ e, addDays d n = some e ∧ daysBetween d e = some n) := by
  have hadd : addDays ⟨31, 12, 2147483647⟩ 1 = some ⟨1, 1, -2147483648⟩ := by decide
  have hbet : daysBetween ⟨31, 12, 2147483647⟩ ⟨1, 1, -2147483648⟩ = some 1626719230 := by
    rw [daysBetween_eq ⟨31, 12, 2147483647⟩ ⟨1, 1, -2147483648⟩ 784352295939 1
      dateToSerial_lastDate (by decide)]
    decide
  refine ⟨by decide, by decide, by decide, hadd, hbet, ?_⟩
  intro h
  obtain ⟨e, he, hd⟩ := h ⟨31, 12, 2147483647⟩ 1 (by decide) (by decide) (by decide)
  rw [hadd] at he
  have hee := Option.some.inj he
  rw [← hee, hbet] at hd
  simp at hd

/-! ## Lists: writing through a pointer, unlinking a node -/

theorem replaceFirst_length {α : Type} (p : α → Bool) (x : α) (l : List α) :
    (replaceFirst p x l).length = l.length := by
  induction l with
  | nil => rfl
  | cons y ys ih =>
    unfold replaceFirst
    split <;> simp [ih]

theorem replaceFirst_of_find_none {α : Type} (p : α → Bool) (x : α) (l : List α)
    (h : l.find? p = none) : replaceFirst p x l = l := by
  induction l with
  | nil => rfl
  | cons y ys ih =>
    rw [List.find?_cons] at h
    unfold replaceFirst
    cases hp : p y with
    | true => simp [hp] at h
    | false =>
      simp only [hp] at h
      simp [ih h]

/-- The node found by `find?` is the one `replaceFirst` overwrites: the list
splits around it, and only that position changes. -/
theorem replaceFirst_split {α : Type} (p : α → Bool) (y : α) (l : List α)
    (h : l.find? p = some y) :
    ∃ pre post, l = pre ++ y :: post ∧ (∀ z ∈ pre, p z = false) ∧
      ∀ x, replaceFirst p x l = pre ++ x :: post := by
  induction l with
  | nil => simp at h
  | cons z zs ih =>
    rw [List.find?_cons] at h
    cases hp : p z with
    | true =>
      simp only [hp, Option.some.injEq] at h
      subst h
      exact ⟨[], zs, rfl, by simp, fun x => by simp [replaceFirst, hp]⟩
    | false =>
      simp only [hp] at h
      obtain ⟨pre, post, e1, e2, e3⟩ := ih h
      refine ⟨z :: pre, post, by simp [e1], ?_, fun x => by simp [replaceFirst, hp, e3 x]⟩
      intro w hw
      rcases List.mem_cons.1 hw with rfl | hw
      · exact hp
      · exact e2 w hw

theorem mem_replaceFirst {α : Type} (p : α → Bool) (x z : α) (l : List α)
    (h : z ∈ replaceFirst p x l) : z = x ∨ z ∈ l := by
  induction l with
  | nil => simp [replaceFirst] at h
  | cons y ys ih =>
    unfold replaceFirst at h
    split at h
    · rcases List.mem_cons.1 h with h | h
      · exact Or.inl h
      · exact Or.inr (List.mem_cons_of_mem _ h)
    · rcases List.mem_cons.1 h with h | h
      · exact Or.inr (by simp [h])
      · rcases ih h with h | h
        · exact Or.inl h
        · exact Or.inr (List.mem_cons_of_mem _ h)

theorem map_replaceFirst {α β : Type} (f : α → β) (p : α → Bool) (x : α) (l : List α)
    (h : ∀ y ∈ l, p y = true → f y = f x) : (replaceFirst p x l).map f = l.map f := by
  induction l with
  | nil => rfl
  | cons y ys ih =>
    unfold replaceFirst
    cases hp : p y with
    | true => simp [h y (by simp) hp]
    | false =>
      simp only [Bool.false_eq_true, if_false, List.map_cons]
      rw [ih (fun z hz => h z (List.mem_cons_of_mem _ hz))]

theorem find_replaceFirst_same {α : Type} (p : α → Bool) (x : α) (l : List α)
    (hx : p x = true) : (replaceFirst p x l).find? p = (l.find? p).map (fun _ => x) := by
  induction l with
  | nil => rfl
  | cons y ys ih =>
    unfold replaceFirst
    cases hp : p y with
    | true => simp [List.find?_cons, hp, hx]
    | false => simp [List.find?_cons, hp, ih]

theorem find_replaceFirst_other {α : Type} (p q : α → Bool) (x : α) (l : List α)
    (hx : q x = false) (hpq : ∀ y, p y = true → q y = false) :
    (replaceFirst p x l).find? q = l.find? q := by
  induction l with
  | nil => rfl
  | cons y ys ih =>
    unfold replaceFirst
    cases hp : p y with
    | true => simp [List.find?_cons, hx, hpq y hp]
    | false => simp [List.find?_cons, ih]

theorem countP_replaceFirst {α : Type} (p q : α → Bool) (x y : α) (l : List α)
    (h : l.find? p = some y) :
    (replaceFirst p x l).countP q + (if q y then 1 else 0)
      = l.countP q + (if q x then 1 else 0) := by
  obtain ⟨pre, post, e1, _, e3⟩ := replaceFirst_split p y l h
  rw [e3 x, e1]
  simp only [List.countP_append, List.countP_cons]
  omega

theorem unlinkFirst_eq {α : Type} (p : α → Bool) (l : List α) :
    unlinkFirst p l = if (l.find? p).isSome then some (l.eraseP p) else none := by
  induction l with
  | nil => rfl
  | cons y ys ih =>
    unfold unlinkFirst
    cases hp : p y with
    | true => simp [List.find?_cons, hp, List.eraseP_cons]
    | false =>
      simp only [Bool.false_eq_true, if_false, List.find?_cons, List.eraseP_cons, ih]
      cases hf : List.find? p ys <;> simp [hp]

theorem unlinkFirst_none {α : Type} (p : α → Bool) (l : List α) :
    unlinkFirst p l = none ↔ l.find? p = none := by
  rw [unlinkFirst_eq]
  cases l.find? p <;> simp

theorem unlinkFirst_sublist {α : Type} (p : α → Bool) (l r : List α)
    (h : unlinkFirst p l = some r) : r.Sublist l := by
  rw [unlinkFirst_eq] at h
  split at h
  · simp only [Option.some.injEq] at h
    subst h
    exact List.eraseP_sublist l
  · simp at h

theorem find_unlinkFirst_other {α : Type} (p q : α → Bool) (l r : List α)
    (h : unlinkFirst p l = some r) (hpq : ∀ y, p y = true → q y = false) :
    r.find? q = l.find? q := by
  induction l generalizing r with
  | nil => simp [unlinkFirst] at h
  | cons y ys ih =>
    unfold unlinkFirst at h
    cases hp : p y with
    | true =>
      simp only [hp, if_true, Option.some.injEq] at h
      subst h
      simp [List.find?_cons, hpq y hp]
    | false =>
      simp only [hp, Bool.false_eq_true, if_false] at h
      cases hu : unlinkFirst p ys with
      | none => simp [hu] at h
      | some r1 =>
        simp only [hu, Option.some.injEq] at h
        subst h
        simp [List.find?_cons, ih r1 hu]

/-- When the keys `f` of a list are pairwise distinct and `p` tests the key,
nothing passing `p` is left after the first such node is unlinked. -/
theorem find_unlinkFirst_same {α : Type} (f : α → Int) (k : Int) (l r : List α)
    (hnd : (l.map f).Nodup) (h : unlinkFirst (fun y => f y == k) l = some r) :
    r.find? (fun y => f y == k) = none := by
  induction l generalizing r with
  | nil => simp [unlinkFirst] at h
  | cons y ys ih =>
    rw [List.map_cons, List.nodup_cons] at hnd
    unfold unlinkFirst at h
    by_cases hp : f y = k
    · simp only [hp, beq_self_eq_true, if_true, Option.some.injEq] at h
      subst h
      rw [List.find?_eq_none]
      intro z hz hzk
      apply hnd.1
      rw [hp]
      exact List.mem_map.2 ⟨z, hz, by simpa using hzk⟩
    · have hp1 : (f y == k) = false := by simpa using hp
      simp only [hp1, Bool.false_eq_true, if_false] at h
      cases hu : unlinkFirst (fun y => f y == k) ys with
      | none => simp [hu] at h
      | some r1 =>
        simp only [hu, Option.some.injEq] at h
        subst h
        simp only [List.find?_cons, hp1]
        exact ih r1 hnd.2 hu

/-- In a list with pairwise distinct keys every node is the one found by its key. -/
theorem find_of_mem_nodup {α : Type} (f : α → Int) (l : List α) (x : α)
    (hnd : (l.map f).Nodup) (hx : x ∈ l) : l.find? (fun y => f y == f x) = some x := by
  induction l with
  | nil => simp at hx
  | cons y ys ih =>
    rw [List.map_cons, List.nodup_cons] at hnd
    rcases List.mem_cons.1 hx with rfl | hx
    · simp [List.find?_cons]
    · have hne : f y ≠ f x := by
        intro he
        exact hnd.1 (he ▸ List.mem_map.2 ⟨x, hx, rfl⟩)
      have : (f y == f x) = false := by simpa using hne
      simp only [List.find?_cons, this]
      exact ih hnd.2 hx

/-! ## The book table -/

theorem chainAt_some {tbl : List (List Book)} {i : Int} {chain : List Book}
    (h : chainAt tbl i = some chain) :
    0 ≤ i ∧ tbl[i.toNat]? = some chain ∧ i.toNat < tbl.length := by
  unfold chainAt at h
  split at h
  · refine ⟨by assumption, h, ?_⟩
    by_contra hlt
    rw [List.getElem?_eq_none (by omega)] at h
    simp at h
  · simp at h

theorem chainAt_mem {tbl : List (List Book)} {i : Int} {chain : List Book}
    (h : chainAt tbl i = some chain) : chain ∈ tbl :=
  List.mem_iff_getElem?.2 ⟨_, (chainAt_some h).2.1⟩

theorem chainAt_setChain (tbl : List (List Book)) (i j : Int) (c c0 : List Book)
    (h : chainAt tbl i = some c0) :
    chainAt (setChain tbl i c) j = if j = i then some c else chainAt tbl j := by
  obtain ⟨h0, _, hlt⟩ := chainAt_some h
  unfold chainAt setChain
  by_cases hj : 0 ≤ j
  · simp only [hj, if_true, List.getElem?_set]
    by_cases hji : j = i
    · subst hji
      simp [hlt]
    · have : i.toNat ≠ j.toNat := by omega
      simp [this, hji]
  · have hji : j ≠ i := by omega
    simp [hj, hji]

theorem setChain_length (tbl : List (List Book)) (i : Int) (c : List Book) :
    (setChain tbl i c).length = tbl.length := by
  simp [setChain]

theorem getElem_setChain (tbl : List (List Book)) (i : Int) (c : List Book) (n : Nat)
    (chain : List Book) (h : (setChain tbl i c)[n]? = some chain) :
    (n = i.toNat ∧ chain = c) ∨ (n ≠ i.toNat ∧ tbl[n]? = some chain) := by
  unfold setChain at h
  rw [List.getElem?_set] at h
  by_cases hn : i.toNat = n
  · rw [if_pos hn] at h
    split at h
    · exact Or.inl ⟨hn.symm, (Option.some.inj h).symm⟩
    · simp at h
  · rw [if_neg hn] at h
    exact Or.inr ⟨fun e => hn e.symm, h⟩

theorem findBook_some {tbl : List (List Book)} {id : Int} {r : Option Book}
    (h : findBook tbl id = some r) :
    ∃ chain, chainAt tbl (hashBookId id) = some chain ∧
      chain.find? (fun curr => curr.id == id) = r := by
  unfold findBook at h
  cases hc : chainAt tbl (hashBookId id) with
  | none => simp [hc] at h
  | some chain =>
    simp only [hc, Option.some.injEq] at h
    exact ⟨chain, rfl, h⟩

theorem findBook_id {tbl : List (List Book)} {id : Int} {b : Book}
    (h : findBook tbl id = some (some b)) : b.id = id := by
  obtain ⟨chain, _, hf⟩ := findBook_some h
  simpa using List.find?_some hf

theorem findBook_mem {tbl : List (List Book)} {id : Int} {b : Book}
    (h : findBook tbl id = some (some b)) : ∃ chain ∈ tbl, b ∈ chain := by
  obtain ⟨chain, hc, hf⟩ := findBook_some h
  exact ⟨chain, chainAt_mem hc, List.mem_of_find?_eq_some hf⟩

/-- Reading the table after a write through a book pointer: the written book
under its own id, every other id as before. -/
theorem findBook_storeBook (tbl : List (List Book)) (b b0 : Book)
    (h : findBook tbl b.id = some (some b0)) (id : Int) :
    findBook (storeBook tbl b) id = if id = b.id then some (some b) else findBook tbl id := by
  obtain ⟨chain, hc, hf⟩ := findBook_some h
  unfold storeBook
  simp only [hc]
  unfold findBook
  rw [chainAt_setChain tbl _ _ _ chain hc]
  by_cases hid : id = b.id
  · subst hid
    simp only [if_true]
    rw [find_replaceFirst_same _ _ _ (by simp), hf]
    rfl
  · simp only [if_neg hid]
    by_cases hh : hashBookId id = hashBookId b.id
    · rw [if_pos hh, hh, hc]
      simp only
      rw [find_replaceFirst_other]
      · simpa using fun e => hid e.symm
      · intro y hy
        have : y.id = b.id := by simpa using hy
        simpa [this] using fun e => hid e.symm
    · rw [if_neg hh]

theorem storeBook_length (tbl : List (List Book)) (b : Book) :
    (storeBook tbl b).length = tbl.length := by
  unfold storeBook
  split
  · rfl
  · exact setChain_length _ _ _

/-- Reading the table after `addBook` linked `b` in front of its chain. -/
theorem findBook_link (tbl : List (List Book)) (b : Book) (chain : List Book)
    (hc : chainAt tbl (hashBookId b.id) = some chain) (id : Int) :
    findBook (setChain tbl (hashBookId b.id) (b :: chain)) id
      = if id = b.id then some (some b) else findBook tbl id := by
  unfold findBook
  rw [chainAt_setChain tbl _ _ _ chain hc]
  by_cases hid : id = b.id
  · subst hid
    simp
  · simp only [if_neg hid]
    by_cases hh : hashBookId id = hashBookId b.id
    · rw [if_pos hh, hh, hc]
      have : (b.id == id) = false := by simpa using fun e => hid e.symm
      simp [List.find?_cons, this]
    · rw [if_neg hh]

/-- Reading the table after `removeBook` unlinked the first book with `id0`
from its chain: other ids as before. -/
theorem findBook_unlink (tbl : List (List Book)) (id0 : Int) (chain chain1 : List Book)
    (hc : chainAt tbl (hashBookId id0) = some chain)
    (hu : unlinkFirst (fun curr => curr.id == id0) chain = some chain1) (id : Int)
    (hid : id ≠ id0) :
    findBook (setChain tbl (hashBookId id0) chain1) id = findBook tbl id := by
  unfold findBook
  rw [chainAt_setChain tbl _ _ _ chain hc]
  by_cases hh : hashBookId id = hashBookId id0
  · rw [if_pos hh, hh, hc]
    simp only
    rw [find_unlinkFirst_other _ _ _ _ hu]
    intro y hy
    have : y.id = id0 := by simpa using hy
    simpa [this] using fun e => hid e.symm
  · rw [if_neg hh]


/-! ## The member list -/

theorem findMember_id {l : List Member} {id : Int} {m : Member}
    (h : findMember l id = some m) : m.id = id := by
  simpa using List.find?_some h

theorem findMember_mem {l : List Member} {id : Int} {m : Member}
    (h : findMember l id = some m) : m ∈ l :=
  List.mem_of_find?_eq_some h

theorem findMember_cons (m : Member) (l : List Member) (id : Int) :
    findMember (m :: l) id = if id = m.id then some m else findMember l id := by
  unfold findMember
  by_cases h : id = m.id
  · simp [List.find?_cons, h]
  · have : (m.id == id) = false := by simpa using fun e => h e.symm
    simp [List.find?_cons, this, h]

/-- Reading the member list after a write through a member pointer. -/
theorem findMember_storeMember (l : List Member) (m m0 : Member)
    (h : findMember l m.id = some m0) (id : Int) :
    findMember (storeMember l m) id = if id = m.id then some m else findMember l id := by
  unfold findMember storeMember
  by_cases hid : id = m.id
  · subst hid
    rw [find_replaceFirst_same _ _ _ (by simp)]
    unfold findMember at h
    simp [h]
  · rw [if_neg hid, find_replaceFirst_other]
    · simpa using fun e => hid e.symm
    · intro y hy
      have : y.id = m.id := by simpa using hy
      simpa [this] using fun e => hid e.symm

theorem storeMember_ids (l : List Member) (m : Member) :
    (storeMember l m).map (fun x => x.id) = l.map (fun x => x.id) := by
  unfold storeMember
  apply map_replaceFirst
  intro y _ hy
  simpa using hy

theorem findMember_of_mem (l : List Member) (m : Member)
    (hnd : (l.map (fun x => x.id)).Nodup) (hm : m ∈ l) : findMember l m.id = some m :=
  find_of_mem_nodup (fun (x : Member) => x.id) l m hnd hm

/-! ## Counting active transactions -/

theorem activeForBook_cons (t : Transaction) (l : List Transaction) (id : Int) :
    activeForBook (t :: l) id
      = activeForBook l id + (if t.is_returned = false ∧ t.bookId = id then 1 else 0) := by
  unfold activeForBook
  rw [List.countP_cons]
  congr 1
  cases t.is_returned <;> simp

theorem activeForMember_cons (t : Transaction) (l : List Transaction) (id : Int) :
    activeForMember (t :: l) id
      = activeForMember l id + (if t.is_returned = false ∧ t.memberId = id then 1 else 0) := by
  unfold activeForMember
  rw [List.countP_cons]
  congr 1
  cases t.is_returned <;> simp

theorem findActiveTransaction_some {l : List Transaction} {bookId memberId : Int}
    {t : Transaction} (h : findActiveTransaction l bookId memberId = some t) :
    t ∈ l ∧ t.is_returned = false ∧ t.bookId = bookId ∧ t.memberId = memberId := by
  refine ⟨List.mem_of_find?_eq_some h, ?_⟩
  have := List.find?_some h
  simpa [isActiveFor, and_assoc] using this

/-- Closing the transaction found for `(bookId, memberId)` takes one active
transaction away from that book and none from any other. -/
theorem activeForBook_close (l : List Transaction) (bookId memberId : Int)
    (t t1 : Transaction) (h : findActiveTransaction l bookId memberId = some t)
    (h1 : t1.is_returned = true) (id : Int) :
    activeForBook (storeTransaction l bookId memberId t1) id
        + (if id = bookId then 1 else 0) = activeForBook l id := by
  obtain ⟨_, hr, hb, _⟩ := findActiveTransaction_some h
  have := countP_replaceFirst (isActiveFor bookId memberId)
    (fun curr => !curr.is_returned && curr.bookId == id) t1 t l h
  simp only [h1, hr, Bool.not_true, Bool.false_and, Bool.not_false, Bool.true_and, hb,
    beq_iff_eq] at this
  unfold activeForBook storeTransaction
  by_cases hid : id = bookId
  · subst hid
    simpa using this
  · have hne : ¬ bookId = id := fun e => hid e.symm
    simpa [hid, hne] using this

theorem activeForMember_close (l : List Transaction) (bookId memberId : Int)
    (t t1 : Transaction) (h : findActiveTransaction l bookId memberId = some t)
    (h1 : t1.is_returned = true) (id : Int) :
    activeForMember (storeTransaction l bookId memberId t1) id
        + (if id = memberId then 1 else 0) = activeForMember l id := by
  obtain ⟨_, hr, _, hm⟩ := findActiveTransaction_some h
  have := countP_replaceFirst (isActiveFor bookId memberId)
    (fun curr => !curr.is_returned && curr.memberId == id) t1 t l h
  simp only [h1, hr, Bool.not_true, Bool.false_and, Bool.not_false, Bool.true_and, hm,
    beq_iff_eq] at this
  unfold activeForMember storeTransaction
  by_cases hid : id = memberId
  · subst hid
    simpa using this
  · have hne : ¬ memberId = id := fun e => hid e.symm
    simpa [hid, hne] using this

theorem activeForBook_pos {l : List Transaction} {t : Transaction} (ht : t ∈ l)
    (hr : t.is_returned = false) : 0 < activeForBook l t.bookId := by
  unfold activeForBook
  rw [List.countP_pos_iff]
  exact ⟨t, ht, by simp [hr]⟩

theorem activeForMember_pos {l : List Transaction} {t : Transaction} (ht : t ∈ l)
    (hr : t.is_returned = false) : 0 < activeForMember l t.memberId := by
  unfold activeForMember
  rw [List.countP_pos_iff]
  exact ⟨t, ht, by simp [hr]⟩

theorem activeForBook_zero {l : List Transaction} {id : Int}
    (h : bookHasActiveTransactions l id = false) : activeForBook l id = 0 := by
  unfold activeForBook
  unfold bookHasActiveTransactions at h
  rw [List.countP_eq_zero]
  intro t ht
  have := (List.any_eq_false.1 h) t ht
  simpa using this

theorem activeForMember_zero {l : List Transaction} {id : Int}
    (h : memberHasActiveBorrows l id = false) : activeForMember l id = 0 := by
  unfold activeForMember
  unfold memberHasActiveBorrows at h
  rw [List.countP_eq_zero]
  intro t ht
  have := (List.any_eq_false.1 h) t ht
  simpa using this

/-! ## Shape of the table -/

theorem TableWF_initialState : TableWF initialState.bookTable := by
  refine ⟨by decide, ?_, ?_⟩
  · intro n chain h b hb
    have hm : chain ∈ initialState.bookTable := List.mem_iff_getElem?.2 ⟨n, h⟩
    have : chain = [] := List.eq_of_mem_replicate hm
    subst this
    simp at hb
  · intro n chain h
    have hm : chain ∈ initialState.bookTable := List.mem_iff_getElem?.2 ⟨n, h⟩
    have : chain = [] := List.eq_of_mem_replicate hm
    subst this
    simp

theorem TableWF_setChain (tbl : List (List Book)) (i : Int) (c c0 : List Book)
    (hwf : TableWF tbl) (hc : chainAt tbl i = some c0)
    (hb : ∀ b ∈ c, hashBookId b.id = i) (hd : (c.map (fun b => b.id)).Nodup) :
    TableWF (setChain tbl i c) := by
  obtain ⟨h0, _, _⟩ := chainAt_some hc
  refine ⟨by rw [setChain_length]; exact hwf.size, ?_, ?_⟩
  · intro n chain h b hbm
    rcases getElem_setChain tbl i c n chain h with ⟨hn, he⟩ | ⟨_, he⟩
    · subst he
      rw [hb b hbm, hn]
      omega
    · exact hwf.bucket n chain he b hbm
  · intro n chain h
    rcases getElem_setChain tbl i c n chain h with ⟨_, he⟩ | ⟨_, he⟩
    · subst he
      exact hd
    · exact hwf.distinct n chain he

theorem TableWF_chain {tbl : List (List Book)} {i : Int} {chain : List Book}
    (hwf : TableWF tbl) (hc : chainAt tbl i = some chain) :
    (∀ b ∈ chain, hashBookId b.id = i) ∧ (chain.map (fun b => b.id)).Nodup := by
  obtain ⟨h0, hg, _⟩ := chainAt_some hc
  refine ⟨fun b hb => ?_, hwf.distinct _ _ hg⟩
  rw [hwf.bucket _ _ hg b hb]
  omega

theorem TableWF_storeBook (tbl : List (List Book)) (b b0 : Book) (hwf : TableWF tbl)
    (h : findBook tbl b.id = some (some b0)) : TableWF (storeBook tbl b) := by
  obtain ⟨chain, hc, _⟩ := findBook_some h
  obtain ⟨hb, hd⟩ := TableWF_chain hwf hc
  unfold storeBook
  simp only [hc]
  apply TableWF_setChain tbl _ _ chain hwf hc
  · intro z hz
    rcases mem_replaceFirst _ _ _ _ hz with rfl | hz
    · rfl
    · exact hb z hz
  · rw [map_replaceFirst]
    · exact hd
    · intro y _ hy
      simpa using hy

/-- In a well-shaped table every book of every chain is the one `findBook`
returns for its id. -/
theorem findBook_of_mem (tbl : List (List Book)) (hwf : TableWF tbl) (chain : List Book)
    (hc : chain ∈ tbl) (b : Book) (hb : b ∈ chain) : findBook tbl b.id = some (some b) := by
  obtain ⟨n, hn⟩ := List.mem_iff_getElem?.1 hc
  have hh := hwf.bucket n chain hn b hb
  have hd := hwf.distinct n chain hn
  unfold findBook chainAt
  rw [hh]
  simp only [Int.natCast_nonneg, if_true, Int.toNat_ofNat, hn]
  rw [find_of_mem_nodup (fun (x : Book) => x.id) chain b hd hb]

theorem findBook_unlink_same (tbl : List (List Book)) (hwf : TableWF tbl) (id0 : Int)
    (chain chain1 : List Book) (hc : chainAt tbl (hashBookId id0) = some chain)
    (hu : unlinkFirst (fun curr => curr.id == id0) chain = some chain1) :
    findBook (setChain tbl (hashBookId id0) chain1) id0 = some none := by
  unfold findBook
  rw [chainAt_setChain tbl _ _ _ chain hc, if_pos rfl]
  simp only
  rw [find_unlinkFirst_same (fun (x : Book) => x.id) id0 chain chain1
    (TableWF_chain hwf hc).2 hu]

theorem TableWF_unlink (tbl : List (List Book)) (hwf : TableWF tbl) (id0 : Int)
    (chain chain1 : List Book) (hc : chainAt tbl (hashBookId id0) = some chain)
    (hu : unlinkFirst (fun curr => curr.id == id0) chain = some chain1) :
    TableWF (setChain tbl (hashBookId id0) chain1) := by
  obtain ⟨hb, hd⟩ := TableWF_chain hwf hc
  have hs := unlinkFirst_sublist _ _ _ hu
  apply TableWF_setChain tbl _ _ chain hwf hc
  · exact fun b hbm => hb b (hs.subset hbm)
  · exact hd.sublist (hs.map _)

theorem TableWF_link (tbl : List (List Book)) (hwf : TableWF tbl) (b : Book)
    (chain : List Book) (hc : chainAt tbl (hashBookId b.id) = some chain)
    (hf : chain.find? (fun curr => curr.id == b.id) = none) :
    TableWF (setChain tbl (hashBookId b.id) (b :: chain)) := by
  obtain ⟨hb, hd⟩ := TableWF_chain hwf hc
  apply TableWF_setChain tbl _ _ chain hwf hc
  · intro z hz
    rcases List.mem_cons.1 hz with rfl | hz
    · rfl
    · exact hb z hz
  · rw [List.map_cons, List.nodup_cons]
    refine ⟨?_, hd⟩
    intro hm
    obtain ⟨z, hz, hzid⟩ := List.mem_map.1 hm
    have := (List.find?_eq_none.1 hf) z hz
    simp at this
    exact this hzid

/-! ## Preservation of the invariant -/

theorem activeForMember_eq_zero {l : List Transaction} {id : Int}
    (h : ∀ t ∈ l, t.is_returned = false → t.memberId ≠ id) : activeForMember l id = 0 := by
  unfold activeForMember
  rw [List.countP_eq_zero]
  intro t ht
  have := h t ht
  cases hr : t.is_returned <;> simp_all

theorem activeForBook_eq_zero {l : List Transaction} {id : Int}
    (h : ∀ t ∈ l, t.is_returned = false → t.bookId ≠ id) : activeForBook l id = 0 := by
  unfold activeForBook
  rw [List.countP_eq_zero]
  intro t ht
  have := h t ht
  cases hr : t.is_returned <;> simp_all

theorem Inv_initialState : Inv initialState := by
  refine ⟨TableWF_initialState, by simp [initialState], ?_, ?_, ?_⟩
  · intro id b h
    obtain ⟨chain, hc, hb⟩ := findBook_mem h
    have : chain = [] := List.eq_of_mem_replicate hc
    subst this
    simp at hb
  · intro id m h
    simp [initialState, findMember] at h
  · intro t ht
    simp [initialState] at ht

theorem maxBooksAllowed_nonneg (m : Member) : 0 ≤ maxBooksAllowed m := by
  unfold maxBooksAllowed MAX_BOOKS_STUDENT MAX_BOOKS_FACULTY
  split
  · decide
  · split <;> decide

theorem Inv_registerMember (s : State) (id : Int) (name : String) (type : Int)
    (hinv : Inv s) : Inv (registerMember s id name type).1 := by
  unfold registerMember
  cases hf : findMember s.memberHead id with
  | some m0 => exact hinv
  | none =>
    simp only
    have hfresh : ∀ x ∈ s.memberHead, x.id ≠ id := by
      intro x hx
      have := (List.find?_eq_none.1 hf) x hx
      simpa using this
    refine ⟨hinv.table, ?_, hinv.copies, ?_, ?_⟩
    · simp only [List.map_cons, List.nodup_cons]
      refine ⟨?_, hinv.members⟩
      intro hm
      obtain ⟨x, hx, hxid⟩ := List.mem_map.1 hm
      exact hfresh x hx hxid
    · intro id1 m hm
      simp only at hm
      rw [findMember_cons] at hm
      by_cases hid : id1 = id
      · subst hid
        simp only [if_true, Option.some.injEq] at hm
        subst hm
        have hz : activeForMember s.transHead id1 = 0 := by
          apply activeForMember_eq_zero
          intro t ht hr he
          obtain ⟨m1, hm1⟩ := (hinv.refs t ht hr).2
          rw [he, hf] at hm1
          simp at hm1
        refine ⟨by simp [hz], maxBooksAllowed_nonneg _, ?_⟩
        simp only [MEMBER_TYPE_STUDENT, MEMBER_TYPE_FACULTY]
        split <;> omega
      · rw [if_neg hid] at hm
        exact hinv.loans id1 m hm
    · intro t ht hr
      obtain ⟨hb, m1, hm1⟩ := hinv.refs t ht hr
      refine ⟨hb, ?_⟩
      simp only
      rw [findMember_cons]
      by_cases hid : t.memberId = id
      · exact ⟨_, if_pos hid⟩
      · exact ⟨m1, by rw [if_neg hid]; exact hm1⟩

theorem Inv_deleteMember (s : State) (id : Int) (hinv : Inv s) :
    Inv (deleteMember s id).1 := by
  unfold deleteMember
  cases ha : memberHasActiveBorrows s.transHead id with
  | true => exact hinv
  | false =>
    simp only [Bool.false_eq_true, if_false]
    split
    · exact hinv
    · cases hu : unlinkFirst (fun curr => curr.id == id) s.memberHead with
      | none => exact hinv
      | some rest =>
        simp only
        have hother : ∀ id1, id1 ≠ id → findMember rest id1 = findMember s.memberHead id1 := by
          intro id1 hne
          unfold findMember
          apply find_unlinkFirst_other _ _ _ _ hu
          intro y hy
          have : y.id = id := by simpa using hy
          simpa [this] using fun e => hne e.symm
        refine ⟨hinv.table, ?_, hinv.copies, ?_, ?_⟩
        · exact hinv.members.sublist ((unlinkFirst_sublist _ _ _ hu).map _)
        · intro id1 m hm
          simp only at hm
          by_cases hid : id1 = id
          · subst hid
            have := find_unlinkFirst_same (fun (x : Member) => x.id) id1 _ _ hinv.members hu
            unfold findMember at hm
            rw [this] at hm
            simp at hm
          · rw [hother id1 hid] at hm
            exact hinv.loans id1 m hm
        · intro t ht hr
          obtain ⟨hb, m1, hm1⟩ := hinv.refs t ht hr
          refine ⟨hb, m1, ?_⟩
          simp only
          rw [hother _ ?_]
          · exact hm1
          · intro he
            have h1 := activeForMember_pos ht hr
            rw [he, activeForMember_zero ha] at h1
            omega

theorem Inv_addBook (s s1 : State) (id : Int) (title author : String) (total_copies : Int)
    (out : Outcome) (hinv : Inv s)
    (h : addBook s id title author total_copies = some (s1, out)) : Inv s1 := by
  unfold addBook at h
  cases hf : findBook s.bookTable id with
  | none => simp [hf] at h
  | some r =>
    cases r with
    | some b0 =>
      simp only [hf, Option.some.injEq, Prod.mk.injEq] at h
      rw [← h.1]
      exact hinv
    | none =>
      simp only [hf] at h
      obtain ⟨chain, hc, hfind⟩ := findBook_some hf
      simp only [hc, Option.some.injEq, Prod.mk.injEq] at h
      obtain ⟨h, _⟩ := h
      subst h
      have hzero : activeForBook s.transHead id = 0 := by
        apply activeForBook_eq_zero
        intro t ht hr he
        obtain ⟨⟨b1, hb1⟩, _⟩ := hinv.refs t ht hr
        rw [he, hf] at hb1
        simp at hb1
      have hlink := findBook_link s.bookTable
        { id := id, title := title, author := author,
          total_copies := if total_copies < 1 then 1 else total_copies,
          available_copies := if total_copies < 1 then 1 else total_copies,
          waitlist := [] } chain hc
      refine ⟨TableWF_link _ hinv.table
        { id := id, title := title, author := author,
          total_copies := if total_copies < 1 then 1 else total_copies,
          available_copies := if total_copies < 1 then 1 else total_copies,
          waitlist := [] } chain hc hfind, hinv.members, ?_, hinv.loans, ?_⟩
      · intro id1 b hb
        simp only at hb
        rw [hlink] at hb
        by_cases hid : id1 = id
        · subst hid
          simp only [if_true, Option.some.injEq] at hb
          subst hb
          simp only [hzero]
          by_cases htc : total_copies < 1
          · simp [htc]
          · simp only [if_neg htc]
            omega
        · simp only [if_neg hid] at hb
          exact hinv.copies id1 b hb
      · intro t ht hr
        obtain ⟨⟨b1, hb1⟩, hm⟩ := hinv.refs t ht hr
        refine ⟨?_, hm⟩
        simp only
        rw [hlink]
        by_cases hid : t.bookId = id
        · exact ⟨_, if_pos hid⟩
        · exact ⟨b1, by rw [if_neg hid]; exact hb1⟩

theorem Inv_removeBook (s s1 : State) (id : Int) (out : Outcome) (hinv : Inv s)
    (h : removeBook s id = some (s1, out)) : Inv s1 := by
  unfold removeBook at h
  cases hf : findBook s.bookTable id with
  | none => simp [hf] at h
  | some r =>
    cases r with
    | none =>
      simp only [hf, Option.some.injEq, Prod.mk.injEq] at h
      rw [← h.1]
      exact hinv
    | some b =>
      simp only [hf] at h
      split at h
      · simp only [Option.some.injEq, Prod.mk.injEq] at h
        rw [← h.1]
        exact hinv
      · split at h
        · simp only [Option.some.injEq, Prod.mk.injEq] at h
          rw [← h.1]
          exact hinv
        · cases ha : bookHasActiveTransactions s.transHead id with
          | true =>
            simp only [ha, if_true, Option.some.injEq, Prod.mk.injEq] at h
            rw [← h.1]
            exact hinv
          | false =>
            simp only [ha, Bool.false_eq_true, if_false] at h
            obtain ⟨chain, hc, _⟩ := findBook_some hf
            simp only [hc] at h
            cases hu : unlinkFirst (fun curr => curr.id == id) chain with
            | none =>
              simp only [hu, Option.some.injEq, Prod.mk.injEq] at h
              rw [← h.1]
              exact hinv
            | some chain1 =>
              simp only [hu, Option.some.injEq, Prod.mk.injEq] at h
              obtain ⟨h, _⟩ := h
              subst h
              refine ⟨TableWF_unlink _ hinv.table id chain chain1 hc hu, hinv.members, ?_,
                hinv.loans, ?_⟩
              · intro id1 b1 hb1
                simp only at hb1
                by_cases hid : id1 = id
                · subst hid
                  rw [findBook_unlink_same _ hinv.table id1 chain chain1 hc hu] at hb1
                  simp at hb1
                · rw [findBook_unlink _ id chain chain1 hc hu id1 hid] at hb1
                  exact hinv.copies id1 b1 hb1
              · intro t ht hr
                obtain ⟨⟨b1, hb1⟩, hm⟩ := hinv.refs t ht hr
                refine ⟨⟨b1, ?_⟩, hm⟩
                simp only
                rw [findBook_unlink _ id chain chain1 hc hu]
                · exact hb1
                · intro he
                  have h1 := activeForBook_pos ht hr
                  rw [he, activeForBook_zero ha] at h1
                  omega

/-- Writing back a book whose copy counts are those of the node keeps the
invariant (the waitlist is free to change). -/
theorem Inv_storeBook (s : State) (b b0 : Book) (hinv : Inv s)
    (h : findBook s.bookTable b.id = some (some b0))
    (ha : b.available_copies = b0.available_copies)
    (ht : b.total_copies = b0.total_copies) :
    Inv { s with bookTable := storeBook s.bookTable b } := by
  refine ⟨TableWF_storeBook _ b b0 hinv.table h, hinv.members, ?_, hinv.loans, ?_⟩
  · intro id x hx
    simp only at hx
    rw [findBook_storeBook _ b b0 h] at hx
    by_cases hid : id = b.id
    · simp only [if_pos hid, Option.some.injEq] at hx
      subst hx
      rw [ha, ht, hid]
      exact hinv.copies _ b0 h
    · rw [if_neg hid] at hx
      exact hinv.copies id x hx
  · intro t htm hr
    obtain ⟨⟨b1, hb1⟩, hm⟩ := hinv.refs t htm hr
    refine ⟨?_, hm⟩
    simp only
    rw [findBook_storeBook _ b b0 h]
    by_cases hid : t.bookId = b.id
    · exact ⟨_, if_pos hid⟩
    · exact ⟨b1, by rw [if_neg hid]; exact hb1⟩

/-- Issuing a copy (the common tail of `borrowBook` and
`autoAssignFromWaitlist`) keeps the invariant. -/
theorem Inv_issue (s : State) (b : Book) (m : Member) (bid mid : Int) (today due : Date)
    (hinv : Inv s) (hb : findBook s.bookTable bid = some (some b))
    (hm : findMember s.memberHead mid = some m) (hav : 0 < b.available_copies)
    (hlim : m.borrowed_count < maxBooksAllowed m) :
    Inv (addTransaction
      { s with bookTable := storeBook s.bookTable
                 { b with available_copies := b.available_copies - 1 },
               memberHead := storeMember s.memberHead
                 { m with borrowed_count := m.borrowed_count + 1 } } bid mid today due) := by
  have hbid := findBook_id hb
  have hmid := findMember_id hm
  have hb1 : findBook s.bookTable
      ({ b with available_copies := b.available_copies - 1 } : Book).id = some (some b) := by
    rw [show ({ b with available_copies := b.available_copies - 1 } : Book).id = bid from hbid]
    exact hb
  have hm1 : findMember s.memberHead
      ({ m with borrowed_count := m.borrowed_count + 1 } : Member).id = some m := by
    rw [show ({ m with borrowed_count := m.borrowed_count + 1 } : Member).id = mid from hmid]
    exact hm
  unfold addTransaction
  refine ⟨TableWF_storeBook _ _ b hinv.table hb1, ?_, ?_, ?_, ?_⟩
  · simp only
    rw [storeMember_ids]
    exact hinv.members
  · intro id x hx
    simp only at hx
    rw [findBook_storeBook _ _ b hb1] at hx
    simp only [activeForBook_cons]
    by_cases hid : id = bid
    · simp only [hid, hbid, if_true, Option.some.injEq] at hx
      subst hx
      have := hinv.copies bid b hb
      simp only [hid]
      simp
      omega
    · simp only [hbid, if_neg hid] at hx
      have := hinv.copies id x hx
      have hne : ¬ bid = id := fun e => hid e.symm
      simp only [hne, and_false, if_false]
      simpa using this
  · intro id x hx
    simp only at hx
    rw [findMember_storeMember _ _ m hm1] at hx
    simp only [activeForMember_cons]
    by_cases hid : id = mid
    · simp only [hid, hmid, if_true, Option.some.injEq] at hx
      subst hx
      obtain ⟨h1, _, h3⟩ := hinv.loans mid m hm
      simp only [hid]
      refine ⟨by simp; omega, ?_, h3⟩
      show m.borrowed_count + 1 ≤ maxBooksAllowed m
      omega
    · simp only [hmid, if_neg hid] at hx
      have := hinv.loans id x hx
      have hne : ¬ mid = id := fun e => hid e.symm
      simp only [hne, and_false, if_false]
      simpa using this
  · intro t ht hr
    simp only at ht
    simp only
    rw [findBook_storeBook _ _ b hb1, findMember_storeMember _ _ m hm1]
    simp only [hbid, hmid]
    rcases List.mem_cons.1 ht with rfl | ht
    · simp
    · obtain ⟨⟨b2, hb2⟩, ⟨m2, hm2⟩⟩ := hinv.refs t ht hr
      constructor
      · by_cases hid : t.bookId = bid
        · exact ⟨_, if_pos hid⟩
        · exact ⟨b2, by rw [if_neg hid]; exact hb2⟩
      · by_cases hid : t.memberId = mid
        · exact ⟨_, if_pos hid⟩
        · exact ⟨m2, by rw [if_neg hid]; exact hm2⟩

theorem Inv_borrowBook (s s1 : State) (today : Date) (memberId bookId : Int) (out : Outcome)
    (hinv : Inv s) (h : borrowBook s today memberId bookId = some (s1, out)) : Inv s1 := by
  unfold borrowBook at h
  cases hm : findMember s.memberHead memberId with
  | none =>
    simp only [hm, Option.some.injEq, Prod.mk.injEq] at h
    rw [← h.1]; exact hinv
  | some m =>
    simp only [hm] at h
    cases hf : findBook s.bookTable bookId with
    | none => simp [hf] at h
    | some r =>
      cases r with
      | none =>
        simp only [hf, Option.some.injEq, Prod.mk.injEq] at h
        rw [← h.1]; exact hinv
      | some b =>
        simp only [hf] at h
        by_cases hlim : m.borrowed_count ≥ maxBooksAllowed m
        · simp only [hlim, if_true, Option.some.injEq, Prod.mk.injEq] at h
          rw [← h.1]; exact hinv
        · simp only [hlim, if_false] at h
          by_cases hav : b.available_copies > 0
          · simp only [hav, if_true] at h
            cases hd : addDays today MAX_BORROW_DAYS with
            | none => simp [hd] at h
            | some due =>
              simp only [hd, Option.some.injEq, Prod.mk.injEq] at h
              rw [← h.1]
              exact Inv_issue s b m bookId memberId today due hinv hf hm hav (by omega)
          · simp only [hav, if_false, Option.some.injEq, Prod.mk.injEq] at h
            rw [← h.1]
            have hid := findBook_id hf
            apply Inv_storeBook s _ b hinv
            · show findBook s.bookTable b.id = some (some b)
              rw [hid]; exact hf
            · rfl
            · rfl

theorem mem_storeTransaction {l : List Transaction} {bookId memberId : Int}
    {t1 x : Transaction} (h : x ∈ storeTransaction l bookId memberId t1) : x = t1 ∨ x ∈ l :=
  mem_replaceFirst _ _ _ _ h

/-- The updates `returnBook` makes before calling `autoAssignFromWaitlist`
keep the invariant. -/
theorem Inv_returnUpdate (s : State) (today : Date) (m : Member) (b : Book)
    (t : Transaction) (diff : Int) (hinv : Inv s)
    (hm : findMember s.memberHead m.id = some m)
    (hb : findBook s.bookTable b.id = some (some b))
    (ht : findActiveTransaction s.transHead b.id m.id = some t) :
    Inv (returnUpdate s today m b t diff) := by
  obtain ⟨htm, htr, htb, htmem⟩ := findActiveTransaction_some ht
  obtain ⟨hl1, hl2, hl3⟩ := hinv.loans m.id m hm
  have hpos : 0 < m.borrowed_count := by
    have := activeForMember_pos htm htr
    rw [htmem] at this
    omega
  have hmsel : (if m.borrowed_count > 0 then
      ({ m with borrowed_count := m.borrowed_count - 1 } : Member) else m)
        = { m with borrowed_count := m.borrowed_count - 1 } := if_pos hpos
  unfold returnUpdate
  simp only [hmsel]
  have hb1 : findBook s.bookTable
      ({ b with available_copies := b.available_copies + 1 } : Book).id = some (some b) := hb
  have hm1 : findMember s.memberHead
      ({ m with borrowed_count := m.borrowed_count - 1 } : Member).id = some m := hm
  have hcb := activeForBook_close s.transHead b.id m.id t
    { t with return_date := today, is_returned := true, fine := computeFine diff } ht rfl
  have hcm := activeForMember_close s.transHead b.id m.id t
    { t with return_date := today, is_returned := true, fine := computeFine diff } ht rfl
  refine ⟨TableWF_storeBook _ _ b hinv.table hb1, ?_, ?_, ?_, ?_⟩
  · simp only
    rw [storeMember_ids]
    exact hinv.members
  · intro id x hx
    simp only at hx
    rw [findBook_storeBook _ _ b hb1] at hx
    have hc := hcb id
    by_cases hid : id = b.id
    · simp only [hid, if_true, Option.some.injEq] at hx
      subst hx
      have := hinv.copies b.id b hb
      rw [hid] at hc ⊢
      simp only [if_true] at hc
      simp only
      omega
    · simp only [if_neg hid] at hx
      have := hinv.copies id x hx
      simp only [if_neg hid] at hc
      simp only
      omega
  · intro id x hx
    simp only at hx
    rw [findMember_storeMember _ _ m hm1] at hx
    have hc := hcm id
    by_cases hid : id = m.id
    · simp only [hid, if_true, Option.some.injEq] at hx
      subst hx
      rw [hid] at hc ⊢
      simp only [if_true] at hc
      refine ⟨by simp only; omega, ?_, hl3⟩
      show m.borrowed_count - 1 ≤ maxBooksAllowed m
      omega
    · simp only [if_neg hid] at hx
      have := hinv.loans id x hx
      simp only [if_neg hid] at hc
      simp only
      rw [Nat.add_zero] at hc
      rw [hc]
      exact this
  · intro x hx hr
    simp only at hx
    simp only
    rw [findBook_storeBook _ _ b hb1, findMember_storeMember _ _ m hm1]
    rcases mem_storeTransaction hx with rfl | hx
    · simp at hr
    · obtain ⟨⟨b2, hb2⟩, ⟨m2, hm2⟩⟩ := hinv.refs x hx hr
      constructor
      · by_cases hid : x.bookId = b.id
        · exact ⟨_, if_pos hid⟩
        · exact ⟨b2, by rw [if_neg hid]; exact hb2⟩
      · by_cases hid : x.memberId = m.id
        · exact ⟨_, if_pos hid⟩
        · exact ⟨m2, by rw [if_neg hid]; exact hm2⟩

theorem returnUpdate_findBook (s : State) (today : Date) (m : Member) (b : Book)
    (t : Transaction) (diff : Int) (hb : findBook s.bookTable b.id = some (some b)) :
    findBook (returnUpdate s today m b t diff).bookTable b.id
      = some (some { b with available_copies := b.available_copies + 1 }) := by
  unfold returnUpdate
  simp only
  have hb1 : findBook s.bookTable
      ({ b with available_copies := b.available_copies + 1 } : Book).id = some (some b) := hb
  rw [findBook_storeBook _ _ b hb1]
  simp

theorem dequeueWait_fst_snd (b : Book) :
    (dequeueWait b).2.id = b.id ∧ (dequeueWait b).2.available_copies = b.available_copies ∧
      (dequeueWait b).2.total_copies = b.total_copies := by
  unfold dequeueWait
  cases b.waitlist <;> simp

theorem Inv_autoAssignFromWaitlist (s s1 : State) (today : Date) (b : Book) (a : Assign)
    (hinv : Inv s) (hb : findBook s.bookTable b.id = some (some b))
    (h : autoAssignFromWaitlist s today b = some (s1, a)) : Inv s1 := by
  unfold autoAssignFromWaitlist at h
  by_cases hav : b.available_copies ≤ 0
  · simp only [hav, if_true, Option.some.injEq, Prod.mk.injEq] at h
    rw [← h.1]; exact hinv
  · simp only [hav, if_false] at h
    cases hw : isWaitlistEmpty b with
    | true =>
      simp only [hw, if_true, Option.some.injEq, Prod.mk.injEq] at h
      rw [← h.1]; exact hinv
    | false =>
      simp only [hw, Bool.false_eq_true, if_false] at h
      obtain ⟨hdid, hdav, hdtot⟩ := dequeueWait_fst_snd b
      have hb0 : findBook s.bookTable (dequeueWait b).2.id = some (some b) := by
        rw [hdid]; exact hb
      have hinv1 : Inv { s with bookTable := storeBook s.bookTable (dequeueWait b).2 } :=
        Inv_storeBook s _ b hinv hb0 hdav hdtot
      have hfb1 : findBook (storeBook s.bookTable (dequeueWait b).2) b.id
          = some (some (dequeueWait b).2) := by
        rw [findBook_storeBook _ _ b hb0, hdid]
        simp
      cases hm : findMember s.memberHead (dequeueWait b).1 with
      | none =>
        simp only [hm, Option.some.injEq, Prod.mk.injEq] at h
        rw [← h.1]; exact hinv1
      | some m =>
        simp only [hm] at h
        by_cases hlim : m.borrowed_count ≥ maxBooksAllowed m
        · simp only [hlim, if_true, Option.some.injEq, Prod.mk.injEq] at h
          rw [← h.1]; exact hinv1
        · simp only [hlim, if_false] at h
          cases hd : addDays today MAX_BORROW_DAYS with
          | none => simp [hd] at h
          | some due =>
            simp only [hd, Option.some.injEq, Prod.mk.injEq] at h
            rw [← h.1]
            exact Inv_issue { s with bookTable := storeBook s.bookTable (dequeueWait b).2 }
              (dequeueWait b).2 m b.id (dequeueWait b).1 today due hinv1 hfb1 hm
              (by rw [hdav]; omega) (by omega)

theorem Inv_returnBook (s s1 : State) (today ta : Date) (memberId bookId : Int)
    (out : Outcome) (hinv : Inv s)
    (h : returnBook s today ta memberId bookId = some (s1, out)) : Inv s1 := by
  unfold returnBook at h
  cases hm : findMember s.memberHead memberId with
  | none =>
    simp only [hm, Option.some.injEq, Prod.mk.injEq] at h
    rw [← h.1]; exact hinv
  | some m =>
    simp only [hm] at h
    cases hf : findBook s.bookTable bookId with
    | none => simp [hf] at h
    | some r =>
      cases r with
      | none =>
        simp only [hf, Option.some.injEq, Prod.mk.injEq] at h
        rw [← h.1]; exact hinv
      | some b =>
        simp only [hf] at h
        cases ht : findActiveTransaction s.transHead bookId memberId with
        | none =>
          simp only [ht, Option.some.injEq, Prod.mk.injEq] at h
          rw [← h.1]; exact hinv
        | some t =>
          simp only [ht] at h
          cases hd : daysBetween t.due_date today with
          | none => simp [hd] at h
          | some diff =>
            simp only [hd] at h
            have hbid := findBook_id hf
            have hmid := findMember_id hm
            rw [← hbid] at hf
            rw [← hmid] at hm
            rw [← hbid, ← hmid] at ht
            cases ha : autoAssignFromWaitlist (returnUpdate s today m b t diff) ta
                { b with available_copies := b.available_copies + 1 } with
            | none => simp [ha] at h
            | some r =>
              obtain ⟨s2, a⟩ := r
              simp only [ha, Option.some.injEq, Prod.mk.injEq] at h
              rw [← h.1]
              exact Inv_autoAssignFromWaitlist _ s2 ta
                { b with available_copies := b.available_copies + 1 } a
                (Inv_returnUpdate s today m b t diff hinv hm hf ht)
                (returnUpdate_findBook s today m b t diff hf) ha

theorem Inv_exec (s s1 : State) (c : Command) (out : Outcome) (hinv : Inv s)
    (h : exec s c = some (s1, out)) : Inv s1 := by
  cases c with
  | addBook id title author total_copies => exact Inv_addBook s s1 _ _ _ _ out hinv h
  | removeBook id => exact Inv_removeBook s s1 id out hinv h
  | registerMember id name type =>
    simp only [exec, Option.some.injEq] at h
    rw [← show (registerMember s id name type).1 = s1 by rw [h]]
    exact Inv_registerMember s id name type hinv
  | deleteMember id =>
    simp only [exec, Option.some.injEq] at h
    rw [← show (deleteMember s id).1 = s1 by rw [h]]
    exact Inv_deleteMember s id hinv
  | borrowBook today memberId bookId => exact Inv_borrowBook s s1 _ _ _ out hinv h
  | returnBook today ta memberId bookId => exact Inv_returnBook s s1 _ _ _ _ out hinv h

/-- Every reachable state satisfies the invariant. -/
theorem Inv_of_Reachable (s : State) (h : Reachable s) : Inv s := by
  induction h with
  | init => exact Inv_initialState
  | step c _ hexec ih => exact Inv_exec _ _ c _ ih hexec

/-! ## Reachable states -/

theorem Reachable_run (s s1 : State) (cs : List Command) (hs : Reachable s)
    (h : run s cs = some s1) : Reachable s1 := by
  induction cs generalizing s with
  | nil =>
    simp only [run, Option.some.injEq] at h
    rw [← h]; exact hs
  | cons c cs ih =>
    unfold run at h
    cases he : exec s c with
    | none => simp [he] at h
    | some r =>
      obtain ⟨s2, out⟩ := r
      simp only [he] at h
      exact ih s2 (Reachable.step c hs he) h

theorem run_sessionCommands : run initialState sessionCommands = some sessionState := by
  decide

theorem Reachable_sessionState : Reachable sessionState :=
  Reachable_run initialState sessionState sessionCommands Reachable.init run_sessionCommands

theorem ReachableWithAssign_of_Reachable (s : State) (h : Reachable s) :
    ReachableWithAssign s := by
  induction h with
  | init => exact ReachableWithAssign.init
  | step c _ hexec ih => exact ReachableWithAssign.step c ih hexec

theorem Inv_of_ReachableWithAssign (s : State) (h : ReachableWithAssign s) : Inv s := by
  induction h with
  | init => exact Inv_initialState
  | step c _ hexec ih => exact Inv_exec _ _ c _ ih hexec
  | assign today b _ hb ha ih => exact Inv_autoAssignFromWaitlist _ _ today b _ ih hb ha

/-! ## C2, C3: the borrow limit and the copy counts -/

/-- C2. Borrow-limit invariant: in every state reachable from the initial
state by the menu commands (register, delete member, add book, remove book,
borrow, return with its auto-assignment), every member `m` of the member list
has `borrowed_count ≤ maxBooksAllowed m`; the member is a student holding at
most 3 books or a faculty member holding at most 5. -/
theorem borrow_limit_invariant (s : State) (h : Reachable s) :
    ∀ m ∈ s.memberHead, m.borrowed_count ≤ maxBooksAllowed m ∧
      ((m.type = MEMBER_TYPE_STUDENT ∧ m.borrowed_count ≤ 3) ∨
       (m.type = MEMBER_TYPE_FACULTY ∧ m.borrowed_count ≤ 5)) := by
  intro m hm
  have hinv := Inv_of_Reachable s h
  obtain ⟨_, h2, h3⟩ := hinv.loans m.id m (findMember_of_mem _ m hinv.members hm)
  refine ⟨h2, ?_⟩
  unfold maxBooksAllowed at h2
  rcases h3 with h3 | h3
  · left
    rw [if_pos h3] at h2
    exact ⟨h3, h2⟩
  · right
    have hne : ¬ m.type = MEMBER_TYPE_STUDENT := by
      rw [h3]; decide
    rw [if_neg hne, if_pos h3] at h2
    exact ⟨h3, h2⟩

theorem borrow_limit_invariant_witness :
    Reachable sessionState ∧
      ∀ m ∈ sessionState.memberHead, m.borrowed_count ≤ maxBooksAllowed m ∧
        ((m.type = MEMBER_TYPE_STUDENT ∧ m.borrowed_count ≤ 3) ∨
         (m.type = MEMBER_TYPE_FACULTY ∧ m.borrowed_count ≤ 5)) :=
  ⟨Reachable_sessionState, borrow_limit_invariant sessionState Reachable_sessionState⟩

/-- C3. Copy-count invariant: in every state reachable from the initial state
by the menu commands, also when the auto-assignment may run on its own between
them, every book in every chain of the table has
`0 ≤ available_copies ≤ total_copies`. -/
theorem copy_count_invariant (s : State) (h : ReachableWithAssign s) :
    ∀ chain ∈ s.bookTable, ∀ b ∈ chain,
      0 ≤ b.available_copies ∧ b.available_copies ≤ b.total_copies := by
  intro chain hc b hb
  have hinv := Inv_of_ReachableWithAssign s h
  obtain ⟨h1, h2⟩ := hinv.copies b.id b (findBook_of_mem _ hinv.table chain hc b hb)
  exact ⟨h1, by omega⟩

theorem copy_count_invariant_witness :
    ReachableWithAssign sessionState ∧
      ∀ chain ∈ sessionState.bookTable, ∀ b ∈ chain,
        0 ≤ b.available_copies ∧ b.available_copies ≤ b.total_copies :=
  ⟨ReachableWithAssign_of_Reachable _ Reachable_sessionState,
   copy_count_invariant sessionState
     (ReachableWithAssign_of_Reachable _ Reachable_sessionState)⟩

/-! ## Serial numbers follow the calendar order -/

/-- Within a year, the days before a month plus the length of the month do not
pass the days before any later month, nor the length of the year. -/
theorem daysBeforeMonth_next (m year dim : Int) (h1 : 1 ≤ m) (h12 : m ≤ 12)
    (hd : daysInMonth m year = some dim) :
    daysBeforeMonth m (isLeap year) + dim ≤ yearLength year ∧
      ∀ m2, m < m2 → m2 ≤ 12 →
        daysBeforeMonth m (isLeap year) + dim ≤ daysBeforeMonth m2 (isLeap year) := by
  rw [daysInMonth_eq m year h1 h12] at hd
  have hdim := Option.some.inj hd
  have h12y := daysBeforeMonth_twelve year
  constructor
  · by_cases hm : m = 12
    · rw [if_pos hm] at hdim
      rw [hm]; omega
    · rw [if_neg hm] at hdim
      have := daysBeforeMonth_mono (m + 1) 12 (isLeap year) (by omega) (by omega) (le_refl _)
      omega
  · intro m2 hlt hle
    have hm : m ≠ 12 := by omega
    rw [if_neg hm] at hdim
    have := daysBeforeMonth_mono (m + 1) m2 (isLeap year) (by omega) (by omega) hle
    omega

theorem yearLength_pos (y : Int) : 365 ≤ yearLength y := by
  unfold yearLength
  split <;> decide

theorem daysBeforeYear_mono (a : Int) (k : Nat) (ha : 1 ≤ a) :
    daysBeforeYear a ≤ daysBeforeYear (a + k) := by
  induction k with
  | zero => simp
  | succ k ih =>
    have := daysBeforeYear_succ (a + k) (by omega)
    have hl := yearLength_pos (a + k)
    rw [show a + ((k + 1 : Nat) : Int) = a + k + 1 by push_cast; ring]
    omega

theorem daysBeforeYear_le (a b : Int) (ha : 1 ≤ a) (hab : a ≤ b) :
    daysBeforeYear a ≤ daysBeforeYear b := by
  have := daysBeforeYear_mono a (b - a).toNat ha
  rw [show a + ((b - a).toNat : Int) = b by omega] at this
  exact this

/-- On calendar dates of years from 1 on, an earlier date has a smaller serial
number. -/
theorem dateToSerial_lt (d1 d2 : Date) (a1 a2 : Int) (hv1 : validDate d1)
    (hv2 : validDate d2) (hy1 : 1 ≤ d1.year) (hlt : dateLt d1 d2)
    (h1 : dateToSerial d1 = some a1) (h2 : dateToSerial d2 = some a2) : a1 < a2 := by
  obtain ⟨m1lo, m1hi, day1lo, dim1, hdim1, day1hi⟩ := hv1
  obtain ⟨m2lo, m2hi, day2lo, dim2, hdim2, day2hi⟩ := hv2
  rw [dateToSerial_eq d1 m1lo m1hi] at h1
  rw [dateToSerial_eq d2 m2lo m2hi] at h2
  have e1 := Option.some.inj h1
  have e2 := Option.some.inj h2
  obtain ⟨hyl, hnext⟩ := daysBeforeMonth_next d1.month d1.year dim1 m1lo m1hi hdim1
  have hB2 := daysBeforeMonth_nonneg d2.month (isLeap d2.year) m2lo m2hi
  rcases hlt with hy | ⟨hy, hm | ⟨hm, hd⟩⟩
  · have hs := daysBeforeYear_succ d1.year hy1
    have hmono := daysBeforeYear_le (d1.year + 1) d2.year (by omega) (by omega)
    omega
  · have := hnext d2.month hm m2hi
    rw [hy] at e1 this
    omega
  · rw [hy, hm] at e1
    omega

/-- A return on or before the due date has `daysBetween due r ≤ 0` when the
due date is at most `2^31` days after the return date, so that the difference
of the serial numbers is a value of an `int`. -/
theorem daysBetween_nonpos_of_dateLe (due r : Date) (diff a c : Int) (hdue : validDate due)
    (hr : validDate r) (hry : 1 ≤ r.year) (hle : dateLe r due)
    (ha : dateToSerial due = some a) (hc : dateToSerial r = some c)
    (hnear : a - c ≤ 2147483648)
    (hd : daysBetween due r = some diff) : diff ≤ 0 := by
  rw [daysBetween_eq due r a c ha hc] at hd
  have hdiff := Option.some.inj hd
  have hca : c ≤ a := by
    rcases hle with hlt | he
    · have := dateToSerial_lt r due c a hr hdue hry hlt hc ha
      omega
    · subst he
      rw [ha] at hc
      have := Option.some.inj hc
      omega
  rw [wrapInt_of_range (c - a) (by omega) (by omega)] at hdiff
  omega

/-- The serial number of a date of the calendar with year in `1..5879610` is
between 1 and `2^31`. -/
theorem dateToSerial_small (d : Date) (hv : validDate d) (hy : 1 ≤ d.year)
    (hhi : d.year ≤ 5879610) :
    ∃ a, dateToSerial d = some a ∧ 1 ≤ a ∧ a ≤ 2147483648 := by
  obtain ⟨h1, h12, hd1, dim, hdim, hd2⟩ := hv
  refine ⟨dayNumber d, dateToSerial_dayNumber d h1 h12 hy, ?_, ?_⟩
  · have h0 := daysBeforeMonth_nonneg d.month (isLeap d.year) h1 h12
    have hys := yearStart_mono 1 d.year hy
    have h11 : yearStart 1 = 0 := by decide
    unfold dayNumber
    omega
  · obtain ⟨hyl, _⟩ := daysBeforeMonth_next d.month d.year dim h1 h12 hdim
    have hys := yearStart_mono (d.year + 1) 5879611 (by omega)
    have hlast : yearStart 5879611 = 2147483455 := by decide
    rw [yearStart_succ] at hys
    unfold dayNumber
    omega

/-! ## What `autoAssignFromWaitlist` does -/

theorem addDays_some (today : Date) (n : Int) (h1 : 1 ≤ today.month) (h12 : today.month ≤ 12) :
    ∃ due, addDays today n = some due := by
  obtain ⟨e, he, _⟩ := addDays_spec today n h1 h12
  exact ⟨e, he⟩

theorem autoAssign_nothing (s : State) (today : Date) (b : Book)
    (h : b.available_copies ≤ 0 ∨ b.waitlist = []) :
    autoAssignFromWaitlist s today b = some (s, Assign.nothing) := by
  unfold autoAssignFromWaitlist
  by_cases hav : b.available_copies ≤ 0
  · simp [hav]
  · have hw : b.waitlist = [] := by
      rcases h with h | h
      · exact absurd h hav
      · exact h
    simp [hav, isWaitlistEmpty, hw]

/-- With a copy available and `id` at the front of the waitlist, the promotion
step unlinks `id` and then depends only on the member found for `id`. -/
theorem autoAssign_front (s : State) (today : Date) (b : Book) (id : Int) (rest : List Int)
    (hav : 0 < b.available_copies) (hw : b.waitlist = id :: rest) :
    autoAssignFromWaitlist s today b =
      match findMember s.memberHead id with
      | none =>
        some ({ s with bookTable := storeBook s.bookTable (dequeued b rest) },
          Assign.memberMissing id)
      | some m =>
        if m.borrowed_count ≥ maxBooksAllowed m then
          some ({ s with bookTable := storeBook s.bookTable (dequeued b rest) },
            Assign.limitReached id)
        else
          match addDays today MAX_BORROW_DAYS with
          | none => none
          | some due =>
            some (addTransaction
              { s with
                bookTable := storeBook (storeBook s.bookTable (dequeued b rest))
                  { dequeued b rest with available_copies := b.available_copies - 1 },
                memberHead := storeMember s.memberHead
                  { m with borrowed_count := m.borrowed_count + 1 } }
              b.id id today due, Assign.assigned id today due) := by
  have hav1 : ¬ b.available_copies ≤ 0 := by omega
  have hd1 : (dequeueWait b).1 = id := by simp [dequeueWait, hw]
  have hd2 : (dequeueWait b).2 = dequeued b rest := by simp [dequeueWait, hw, dequeued]
  unfold autoAssignFromWaitlist
  simp only [hav1, if_false, isWaitlistEmpty, hw, List.isEmpty_cons, Bool.false_eq_true,
    hd1, hd2]
  rfl

/-- The promotion step always returns when `today` has a month in `1..12`,
and it leaves the ledger as it was or puts one new active transaction for the
book in front of it. -/
theorem autoAssign_ledger (s : State) (today : Date) (b : Book) (h1 : 1 ≤ today.month)
    (h12 : today.month ≤ 12) :
    ∃ s1 a, autoAssignFromWaitlist s today b = some (s1, a) ∧
      s1.memberHead.length = s.memberHead.length ∧
      (s1.transHead = s.transHead ∨
        ∃ tnew, s1.transHead = tnew :: s.transHead ∧ tnew.is_returned = false ∧
          tnew.bookId = b.id) := by
  by_cases hn : b.available_copies ≤ 0 ∨ b.waitlist = []
  · exact ⟨s, _, autoAssign_nothing s today b hn, rfl, Or.inl rfl⟩
  · have hav : 0 < b.available_copies := by
      by_contra hc
      exact hn (Or.inl (by omega))
    cases hw : b.waitlist with
    | nil => exact absurd (Or.inr hw) hn
    | cons id rest =>
      rw [autoAssign_front s today b id rest hav hw]
      cases hm : findMember s.memberHead id with
      | none => exact ⟨_, _, rfl, rfl, Or.inl rfl⟩
      | some m =>
        simp only
        by_cases hlim : m.borrowed_count ≥ maxBooksAllowed m
        · rw [if_pos hlim]
          exact ⟨_, _, rfl, rfl, Or.inl rfl⟩
        · rw [if_neg hlim]
          obtain ⟨due, hdue⟩ := addDays_some today MAX_BORROW_DAYS h1 h12
          rw [hdue]
          refine ⟨_, _, rfl, ?_, Or.inr ⟨_, rfl, rfl, rfl⟩⟩
          simp [addTransaction, storeMember, replaceFirst_length]

/-! ## C4: the fine -/

theorem computeFine_eq (diff : Int) : computeFine diff = min (max 0 diff * 5) 200 := by
  unfold computeFine FINE_PER_DAY MAX_FINE
  by_cases h : diff > 0
  · rw [if_pos h, max_eq_right (by omega)]
    simp only
    split
    · rw [min_eq_right (by omega)]
    · rw [min_eq_left (by omega)]
  · rw [if_neg h, max_eq_left (by omega)]
    simp

/-- A return that passes the three lookups and whose dates have a serial
number goes through: `returnBook` ends with the state and report of the
promotion step run on the updated state. -/
theorem returnBook_found (s : State) (r ta : Date) (memberId bookId : Int) (m : Member)
    (b : Book) (t : Transaction) (diff : Int)
    (hm : findMember s.memberHead memberId = some m)
    (hb : findBook s.bookTable bookId = some (some b))
    (ht : findActiveTransaction s.transHead bookId memberId = some t)
    (hd : daysBetween t.due_date r = some diff)
    (s1 : State) (a : Assign)
    (ha : autoAssignFromWaitlist (returnUpdate s r m b t diff) ta
      { b with available_copies := b.available_copies + 1 } = some (s1, a)) :
    returnBook s r ta memberId bookId
      = some (s1, Outcome.returned r (computeFine diff) a) := by
  unfold returnBook
  simp only [hm, hb, ht, hd, ha]

/-- C4. Fine formula: when `returnBook` finds the member, the book and an
active transaction `t` whose due date is a calendar date, and the return date
`r` is a calendar date (as is the date `ta` that the promotion step reads), it
goes through with `fine = min (max 0 (daysBetween due r) * 5) 200`; in the
ledger exactly the node of `t` changes, to `t` with `is_returned` set,
`return_date = r` and that fine (the promotion step may put one new
transaction in front), `daysBetween` being the `int` the code computes. The
fine lies in `[0, 200]`. It is 0 when `r` is on or before the due date (years
from 1 on) and the due date is at most `2^31` days after `r`, as it is
whenever the year of the due date is at most 5879610. -/
theorem returnBook_fine (s : State) (r ta : Date) (memberId bookId : Int) (m : Member)
    (b : Book) (t : Transaction)
    (hm : findMember s.memberHead memberId = some m)
    (hb : findBook s.bookTable bookId = some (some b))
    (ht : findActiveTransaction s.transHead bookId memberId = some t)
    (hdue : validDate t.due_date) (hr : validDate r) (hta : validDate ta) :
    ∃ diff fine s1 auto pre post,
      daysBetween t.due_date r = some diff ∧
      fine = min (max 0 diff * 5) 200 ∧
      returnBook s r ta memberId bookId = some (s1, Outcome.returned r fine auto) ∧
      s.transHead = pre ++ t :: post ∧
      (∀ x ∈ pre, isActiveFor bookId memberId x = false) ∧
      (s1.transHead
          = pre ++ { t with return_date := r, is_returned := true, fine := fine } :: post ∨
        ∃ tnew, s1.transHead
          = tnew :: (pre ++ { t with return_date := r, is_returned := true, fine := fine }
              :: post)) ∧
      (∀ a c, 1 ≤ r.year → dateLe r t.due_date → dateToSerial t.due_date = some a →
        dateToSerial r = some c → a - c ≤ 2147483648 → fine = 0) ∧
      (1 ≤ r.year → dateLe r t.due_date → t.due_date.year ≤ 5879610 → fine = 0) ∧
      0 ≤ fine ∧ fine ≤ 200 := by
  obtain ⟨diff, hd⟩ := daysBetween_valid t.due_date r hdue hr
  obtain ⟨s1, a, ha, _, hled⟩ := autoAssign_ledger (returnUpdate s r m b t diff) ta
    { b with available_copies := b.available_copies + 1 } hta.1 hta.2.1
  have hbid := findBook_id hb
  have hmid := findMember_id hm
  obtain ⟨pre, post, hsplit, hpre, hrep⟩ :=
    replaceFirst_split (isActiveFor bookId memberId) t s.transHead ht
  have hupd : (returnUpdate s r m b t diff).transHead
      = pre ++ { t with return_date := r, is_returned := true, fine := computeFine diff }
          :: post := by
    unfold returnUpdate storeTransaction
    simp only [hbid, hmid]
    exact hrep _
  refine ⟨diff, computeFine diff, s1, a, pre, post, hd, computeFine_eq diff,
    returnBook_found s r ta memberId bookId m b t diff hm hb ht hd s1 a ha, hsplit, hpre, ?_,
    ?_, ?_,
    ?_, ?_⟩
  · rcases hled with h | ⟨tnew, h, _⟩
    · left; rw [h, hupd]
    · right; exact ⟨tnew, by rw [h, hupd]⟩
  · intro a c hry hle hsa hsc hnear
    have := daysBetween_nonpos_of_dateLe t.due_date r diff a c hdue hr hry hle hsa hsc hnear hd
    unfold computeFine
    rw [if_neg (by omega)]
  · intro hry hle hyear
    have hduey : 1 ≤ t.due_date.year := by
      rcases hle with hlt | he
      · unfold dateLt at hlt
        omega
      · rw [← he]
        exact hry
    obtain ⟨a, hsa, _, hahi⟩ := dateToSerial_small t.due_date hdue hduey hyear
    obtain ⟨c, hsc⟩ := dateToSerial_valid r hr
    have hc1 : 1 ≤ c := by
      have hrle : r.year ≤ 5879610 := by
        rcases hle with hlt | he
        · unfold dateLt at hlt
          omega
        · rw [he]
          exact hyear
      obtain ⟨c2, hsc2, hc2, _⟩ := dateToSerial_small r hr hry hrle
      rw [hsc] at hsc2
      have := Option.some.inj hsc2
      omega
    have := daysBetween_nonpos_of_dateLe t.due_date r diff a c hdue hr hry hle hsa hsc
      (by omega) hd
    unfold computeFine
    rw [if_neg (by omega)]
  · rw [computeFine_eq]
    exact le_min (by positivity) (by decide)
  · rw [computeFine_eq]
    exact min_le_right _ _

theorem returnBook_fine_witness :
    (∃ diff fine s1 auto pre post,
        daysBetween { day := 15, month := 3, year := 5 } { day := 20, month := 3, year := 5 }
          = some diff ∧
        fine = min (max 0 diff * 5) 200 ∧
        returnBook sessionState { day := 20, month := 3, year := 5 }
            { day := 21, month := 3, year := 5 } 1 7
          = some (s1, Outcome.returned { day := 20, month := 3, year := 5 } fine auto) ∧
        sessionState.transHead = pre ++
          { id := 1, bookId := 7, memberId := 1,
            borrow_date := { day := 1, month := 3, year := 5 },
            due_date := { day := 15, month := 3, year := 5 },
            return_date := { day := 0, month := 0, year := 0 },
            is_returned := false, fine := 0 } :: post ∧
        (∀ x ∈ pre, isActiveFor 7 1 x = false) ∧
        (s1.transHead
            = pre ++ { id := 1, bookId := 7, memberId := 1,
                       borrow_date := { day := 1, month := 3, year := 5 },
                       due_date := { day := 15, month := 3, year := 5 },
                       return_date := { day := 20, month := 3, year := 5 },
                       is_returned := true, fine := fine } :: post ∨
          ∃ tnew, s1.transHead
            = tnew :: (pre ++
                { id := 1, bookId := 7, memberId := 1,
                  borrow_date := { day := 1, month := 3, year := 5 },
                  due_date := { day := 15, month := 3, year := 5 },
                  return_date := { day := 20, month := 3, year := 5 },
                  is_returned := true, fine := fine } :: post)) ∧
        (∀ a c, (1 : Int) ≤ 5 → dateLe { day := 20, month := 3, year := 5 }
            { day := 15, month := 3, year := 5 } →
          dateToSerial { day := 15, month := 3, year := 5 } = some a →
          dateToSerial { day := 20, month := 3, year := 5 } = some c →
          a - c ≤ 2147483648 → fine = 0) ∧
        ((1 : Int) ≤ 5 → dateLe { day := 20, month := 3, year := 5 }
            { day := 15, month := 3, year := 5 } → (5 : Int) ≤ 5879610 → fine = 0) ∧
        0 ≤ fine ∧ fine ≤ 200) ∧
    (∃ s1 auto, returnBook sessionState { day := 10, month := 3, year := 5 }
        { day := 10, month := 3, year := 5 } 1 7
      = some (s1, Outcome.returned { day := 10, month := 3, year := 5 } 0 auto)) :=
  ⟨returnBook_fine sessionState { day := 20, month := 3, year := 5 }
       { day := 21, month := 3, year := 5 } 1 7
       { id := 1, name := "Ann", type := 1, borrowed_count := 1 }
       { id := 7, title := "Title", author := "Author", total_copies := 1,
         available_copies := 0, waitlist := [2] }
       { id := 1, bookId := 7, memberId := 1,
         borrow_date := { day := 1, month := 3, year := 5 },
         due_date := { day := 15, month := 3, year := 5 },
         return_date := { day := 0, month := 0, year := 0 },
         is_returned := false, fine := 0 }
       (by decide) (by decide) (by decide) (by decide) (by decide) (by decide),
   by
    obtain ⟨diff, fine, s1, auto, pre, post, _, _, hret, _, _, _, _, hzero, _⟩ :=
      returnBook_fine sessionState { day := 10, month := 3, year := 5 }
        { day := 10, month := 3, year := 5 } 1 7
        { id := 1, name := "Ann", type := 1, borrowed_count := 1 }
        { id := 7, title := "Title", author := "Author", total_copies := 1,
          available_copies := 0, waitlist := [2] }
        { id := 1, bookId := 7, memberId := 1,
          borrow_date := { day := 1, month := 3, year := 5 },
          due_date := { day := 15, month := 3, year := 5 },
          return_date := { day := 0, month := 0, year := 0 },
          is_returned := false, fine := 0 }
        (by decide) (by decide) (by decide) (by decide) (by decide) (by decide)
    have h0 := hzero (by decide) (by decide) (by decide)
    rw [h0] at hret
    exact ⟨s1, auto, hret⟩⟩

theorem run_farCommands : run initialState farCommands = some farLoanState := by
  decide

theorem Reachable_farLoanState : Reachable farLoanState :=
  Reachable_run initialState farLoanState farCommands Reachable.init run_farCommands

theorem daysBetween_far :
    daysBetween { day := 1, month := 1, year := 5879612 } { day := 1, month := 1, year := 1 }
      = some 2147483476 := by
  rw [daysBetween_eq ⟨1, 1, 5879612⟩ ⟨1, 1, 1⟩ 2147483821 1 dateToSerial_far (by decide)]
  decide

/-- C4 as the spec has it, refuted on the code. In the reachable state
`farLoanState` the loan of member 1 is due on 1 January of year 5879612. A
return on 1 January of year 1 is before the due date, yet the difference of
the serial numbers, -2147483820, does not fit an `int`: `daysBetween` is
2147483476 and `returnBook` charges the full fine of 200, not 0. -/
theorem returnBook_fine_counterexample :
    Reachable farLoanState ∧
    findActiveTransaction farLoanState.transHead 7 1
      = some { id := 1, bookId := 7, memberId := 1,
               borrow_date := { day := 18, month := 12, year := 5879611 },
               due_date := { day := 1, month := 1, year := 5879612 },
               return_date := { day := 0, month := 0, year := 0 },
               is_returned := false, fine := 0 } ∧
    validDate { day := 1, month := 1, year := 5879612 } ∧
    validDate { day := 1, month := 1, year := 1 } ∧
    dateLe { day := 1, month := 1, year := 1 } { day := 1, month := 1, year := 5879612 } ∧
    daysBetween { day := 1, month := 1, year := 5879612 } { day := 1, month := 1, year := 1 }
      = some 2147483476 ∧
    (∃ s1, returnBook farLoanState { day := 1, month := 1, year := 1 }
        { day := 1, month := 1, year := 1 } 1 7
      = some (s1, Outcome.returned { day := 1, month := 1, year := 1 } 200 Assign.nothing)) ∧
    ¬ ∃ s1 auto, returnBook farLoanState { day := 1, month := 1, year := 1 }
        { day := 1, month := 1, year := 1 } 1 7
      = some (s1, Outcome.returned { day := 1, month := 1, year := 1 } 0 auto) := by
  have hret : ∃ s1, returnBook farLoanState { day := 1, month := 1, year := 1 }
      { day := 1, month := 1, year := 1 } 1 7
      = some (s1, Outcome.returned { day := 1, month := 1, year := 1 } 200 Assign.nothing) := by
    have h := returnBook_found farLoanState { day := 1, month := 1, year := 1 }
      { day := 1, month := 1, year := 1 } 1 7
      { id := 1, name := "Ann", type := 1, borrowed_count := 1 }
      { id := 7, title := "Title", author := "Author", total_copies := 1,
        available_copies := 0, waitlist := [] }
      { id := 1, bookId := 7, memberId := 1,
        borrow_date := { day := 18, month := 12, year := 5879611 },
        due_date := { day := 1, month := 1, year := 5879612 },
        return_date := { day := 0, month := 0, year := 0 },
        is_returned := false, fine := 0 }
      2147483476 (by decide) (by decide) (by decide) daysBetween_far _ Assign.nothing
      (autoAssign_nothing _ _ _ (Or.inr rfl))
    exact ⟨_, h⟩
  refine ⟨Reachable_farLoanState, by decide, by decide, by decide, by decide, daysBetween_far,
    hret, ?_⟩
  rintro ⟨s1, auto, h0⟩
  obtain ⟨s2, h200⟩ := hret
  rw [h0] at h200
  simp at h200

/-! ## C6: a successful borrow -/

/-- The node `findBook` returns splits its chain, and a write through the
pointer changes that position only. -/
theorem findBook_split {tbl : List (List Book)} {id : Int} {b : Book}
    (h : findBook tbl id = some (some b)) :
    ∃ pre post, chainAt tbl (hashBookId id) = some (pre ++ b :: post) ∧
      (∀ x ∈ pre, x.id ≠ id) ∧
      ∀ b1 : Book, b1.id = id →
        storeBook tbl b1 = setChain tbl (hashBookId id) (pre ++ b1 :: post) := by
  obtain ⟨chain, hc, hf⟩ := findBook_some h
  obtain ⟨pre, post, e1, e2, e3⟩ := replaceFirst_split (fun curr => curr.id == id) b chain hf
  refine ⟨pre, post, by rw [hc, e1], ?_, ?_⟩
  · intro x hx
    simpa using e2 x hx
  · intro b1 hb1
    unfold storeBook
    rw [hb1, hc]
    simp only
    rw [e3 b1]

theorem findMember_split {l : List Member} {id : Int} {m : Member}
    (h : findMember l id = some m) :
    ∃ pre post, l = pre ++ m :: post ∧ (∀ x ∈ pre, x.id ≠ id) ∧
      ∀ m1 : Member, m1.id = id → storeMember l m1 = pre ++ m1 :: post := by
  unfold findMember at h
  obtain ⟨pre, post, e1, e2, e3⟩ := replaceFirst_split (fun curr => curr.id == id) m l h
  refine ⟨pre, post, e1, ?_, ?_⟩
  · intro x hx
    simpa using e2 x hx
  · intro m1 hm1
    unfold storeMember
    rw [hm1]
    exact e3 m1

/-- The forward reading of the issuing branch of `borrowBook`. -/
theorem borrowBook_issued (s : State) (today due : Date) (memberId bookId : Int)
    (m : Member) (b : Book)
    (hm : findMember s.memberHead memberId = some m)
    (hb : findBook s.bookTable bookId = some (some b))
    (hlim : m.borrowed_count < maxBooksAllowed m) (hav : 0 < b.available_copies)
    (hdue : addDays today MAX_BORROW_DAYS = some due) :
    borrowBook s today memberId bookId
      = some (addTransaction
          { s with bookTable := storeBook s.bookTable
                     { b with available_copies := b.available_copies - 1 },
                   memberHead := storeMember s.memberHead
                     { m with borrowed_count := m.borrowed_count + 1 } }
          bookId memberId today due, Outcome.issued today due) := by
  unfold borrowBook
  have h1 : ¬ m.borrowed_count ≥ maxBooksAllowed m := by omega
  have h2 : b.available_copies > 0 := hav
  simp only [hm, hb, h1, h2, if_true, if_false, hdue]

/-- The forward reading of the waitlisting branch of `borrowBook`. -/
theorem borrowBook_waitlisted (s : State) (today : Date) (memberId bookId : Int)
    (m : Member) (b : Book)
    (hm : findMember s.memberHead memberId = some m)
    (hb : findBook s.bookTable bookId = some (some b))
    (hlim : m.borrowed_count < maxBooksAllowed m) (hav : b.available_copies ≤ 0) :
    borrowBook s today memberId bookId
      = some ({ s with bookTable := storeBook s.bookTable (enqueueWait b memberId) },
          Outcome.waitlisted) := by
  unfold borrowBook
  have h1 : ¬ m.borrowed_count ≥ maxBooksAllowed m := by omega
  have h2 : ¬ b.available_copies > 0 := by omega
  simp only [hm, hb, h1, h2, if_false]

/-- C6. Successful borrow: for a member `m` found under `memberId` with
`borrowed_count < maxBooksAllowed m` and a book `b` found under `bookId` with
`available_copies > 0` (and `today` a calendar date), `borrowBook` issues the
book. The resulting state is the old one with exactly three changes: the node
of `b` holds `available_copies - 1`, the node of `m` holds
`borrowed_count + 1`, and one new transaction with `bookId`, `memberId`,
`borrow_date = today`, `due_date = addDays today 14`, `is_returned = false`
and `fine = 0` is in front of the ledger. Every other chain, book, member,
waitlist and every earlier transaction is as before. -/
theorem borrowBook_success (s : State) (today : Date) (memberId bookId : Int)
    (m : Member) (b : Book)
    (hm : findMember s.memberHead memberId = some m)
    (hb : findBook s.bookTable bookId = some (some b))
    (hlim : m.borrowed_count < maxBooksAllowed m) (hav : 0 < b.available_copies)
    (htoday : validDate today) :
    ∃ due pre post mpre mpost s1,
      addDays today MAX_BORROW_DAYS = some due ∧
      borrowBook s today memberId bookId = some (s1, Outcome.issued today due) ∧
      chainAt s.bookTable (hashBookId bookId) = some (pre ++ b :: post) ∧
      (∀ x ∈ pre, x.id ≠ bookId) ∧
      s1.bookTable = setChain s.bookTable (hashBookId bookId)
        (pre ++ { b with available_copies := b.available_copies - 1 } :: post) ∧
      s.memberHead = mpre ++ m :: mpost ∧
      (∀ x ∈ mpre, x.id ≠ memberId) ∧
      s1.memberHead = mpre ++ { m with borrowed_count := m.borrowed_count + 1 } :: mpost ∧
      s1.transHead =
        { id := s.nextTransId, bookId := bookId, memberId := memberId, borrow_date := today,
          due_date := due, return_date := { day := 0, month := 0, year := 0 },
          is_returned := false, fine := 0 } :: s.transHead ∧
      s1.nextTransId = s.nextTransId + 1 ∧
      findBook s1.bookTable bookId
        = some (some { b with available_copies := b.available_copies - 1 }) ∧
      (∀ id, id ≠ bookId → findBook s1.bookTable id = findBook s.bookTable id) ∧
      findMember s1.memberHead memberId
        = some { m with borrowed_count := m.borrowed_count + 1 } ∧
      (∀ id, id ≠ memberId → findMember s1.memberHead id = findMember s.memberHead id) := by
  obtain ⟨due, hdue⟩ := addDays_some today MAX_BORROW_DAYS htoday.1 htoday.2.1
  obtain ⟨pre, post, hchain, hpre, hstore⟩ := findBook_split hb
  obtain ⟨mpre, mpost, hlist, hmpre, hmstore⟩ := findMember_split hm
  have hbid := findBook_id hb
  have hmid := findMember_id hm
  have hb1 : findBook s.bookTable
      ({ b with available_copies := b.available_copies - 1 } : Book).id = some (some b) := by
    rw [show ({ b with available_copies := b.available_copies - 1 } : Book).id = bookId
      from hbid]
    exact hb
  have hm1 : findMember s.memberHead
      ({ m with borrowed_count := m.borrowed_count + 1 } : Member).id = some m := by
    rw [show ({ m with borrowed_count := m.borrowed_count + 1 } : Member).id = memberId
      from hmid]
    exact hm
  refine ⟨due, pre, post, mpre, mpost, _, hdue,
    borrowBook_issued s today due memberId bookId m b hm hb hlim hav hdue, hchain, hpre,
    ?_, hlist, hmpre, ?_, rfl, rfl, ?_, ?_, ?_, ?_⟩
  · exact hstore _ hbid
  · exact hmstore _ hmid
  · show findBook (storeBook s.bookTable _) bookId = _
    rw [findBook_storeBook _ _ b hb1]
    simp [hbid]
  · intro id hid
    show findBook (storeBook s.bookTable _) id = _
    rw [findBook_storeBook _ _ b hb1]
    simp [hbid, hid]
  · show findMember (storeMember s.memberHead _) memberId = _
    rw [findMember_storeMember _ _ m hm1]
    simp [hmid]
  · intro id hid
    show findMember (storeMember s.memberHead _) id = _
    rw [findMember_storeMember _ _ m hm1]
    simp [hmid, hid]

/-! ## C5: the worked example of the fine -/

theorem addDays_same_month (d : Date) (n : Int) (h1 : 1 ≤ d.month) (h12 : d.month ≤ 12)
    (h0 : -2147483648 ≤ d.day + n) (h : d.day + n ≤ 28) :
    addDays d n = some { d with day := d.day + n } := by
  obtain ⟨dim, hdim, hlo, _⟩ := daysInMonth_bounds d.month d.year h1 h12
  unfold addDays
  simp only
  rw [wrapInt_of_range (d.day + n) h0 (by omega)]
  rw [addDaysLoop_succ _ { day := d.day + n, month := d.month, year := d.year } dim hdim,
    if_pos (by simp only; omega)]

theorem daysBetween_same_month (mo y d1 d2 : Int) (h1 : 1 ≤ mo) (h12 : mo ≤ 12) :
    daysBetween { day := d1, month := mo, year := y } { day := d2, month := mo, year := y }
      = some (wrapInt (d2 - d1)) := by
  unfold daysBetween
  rw [dateToSerial_eq _ h1 h12, dateToSerial_eq _ h1 h12]
  simp only [Option.some.injEq]
  congr 1
  ring

/-- Reading an `issued` report of `borrowBook` backwards. -/
theorem borrowBook_issued_inv (s s1 : State) (today d1 d2 : Date) (memberId bookId : Int)
    (h : borrowBook s today memberId bookId = some (s1, Outcome.issued d1 d2)) :
    ∃ m b, findMember s.memberHead memberId = some m ∧
      findBook s.bookTable bookId = some (some b) ∧
      m.borrowed_count < maxBooksAllowed m ∧ 0 < b.available_copies ∧
      d1 = today ∧ addDays today MAX_BORROW_DAYS = some d2 ∧
      s1 = addTransaction
          { s with bookTable := storeBook s.bookTable
                     { b with available_copies := b.available_copies - 1 },
                   memberHead := storeMember s.memberHead
                     { m with borrowed_count := m.borrowed_count + 1 } }
          bookId memberId today d2 := by
  unfold borrowBook at h
  cases hm : findMember s.memberHead memberId with
  | none => simp [hm] at h
  | some m =>
    simp only [hm] at h
    cases hf : findBook s.bookTable bookId with
    | none => simp [hf] at h
    | some r =>
      cases r with
      | none => simp [hf] at h
      | some b =>
        simp only [hf] at h
        by_cases hlim : m.borrowed_count ≥ maxBooksAllowed m
        · simp [hlim] at h
        · simp only [hlim, if_false] at h
          by_cases hav : b.available_copies > 0
          · simp only [hav, if_true] at h
            cases hd : addDays today MAX_BORROW_DAYS with
            | none => simp [hd] at h
            | some due =>
              simp only [hd, Option.some.injEq, Prod.mk.injEq, Outcome.issued.injEq] at h
              obtain ⟨hs, ht, hdd⟩ := h
              subst hdd
              exact ⟨m, b, rfl, rfl, by omega, hav, ht.symm, rfl, hs.symm⟩
          · simp [hav] at h

/-- The transaction a borrow has just opened is the one `findActiveTransaction`
returns for the pair. -/
theorem findActiveTransaction_head (s : State) (bookId memberId : Int) (today due : Date) :
    findActiveTransaction (addTransaction s bookId memberId today due).transHead bookId memberId
      = some { id := s.nextTransId, bookId := bookId, memberId := memberId,
               borrow_date := today, due_date := due,
               return_date := { day := 0, month := 0, year := 0 },
               is_returned := false, fine := 0 } := by
  simp [findActiveTransaction, addTransaction, isActiveFor, List.find?_cons]

/-- C5 as the code has it. A book borrowed on day 1 of a month is due on day 15
of that month (`addDays` of 14 days); returned on day 20 of the same month it
is 5 days late, and `returnBook` charges a fine of 25: it reports 25 and
stores 25 in the transaction it closes (`ta` is the date the promotion step
reads, a calendar date). -/
theorem fine_example (s s1 : State) (mo y : Int) (memberId bookId : Int) (due ta : Date)
    (h1 : 1 ≤ mo) (h12 : mo ≤ 12) (hta : validDate ta)
    (hborrow : borrowBook s { day := 1, month := mo, year := y } memberId bookId
      = some (s1, Outcome.issued { day := 1, month := mo, year := y } due)) :
    due = { day := 15, month := mo, year := y } ∧
    daysBetween due { day := 20, month := mo, year := y } = some 5 ∧
    ∃ s2 auto, returnBook s1 { day := 20, month := mo, year := y } ta memberId bookId
        = some (s2, Outcome.returned { day := 20, month := mo, year := y } 25 auto) ∧
      { id := s.nextTransId, bookId := bookId, memberId := memberId,
        borrow_date := { day := 1, month := mo, year := y }, due_date := due,
        return_date := { day := 20, month := mo, year := y },
        is_returned := true, fine := 25 } ∈ s2.transHead := by
  obtain ⟨m, b, hm, hb, hlim, hav, _, hadd, hs1⟩ :=
    borrowBook_issued_inv s s1 _ _ _ memberId bookId hborrow
  rw [addDays_same_month { day := 1, month := mo, year := y } MAX_BORROW_DAYS h1 h12
    (by show (-2147483648 : Int) ≤ 1 + 14; decide)
    (by show (1 : Int) + 14 ≤ 28; decide)] at hadd
  have hdue : due = { day := 15, month := mo, year := y } := by
    rw [← Option.some.inj hadd]
    simp [MAX_BORROW_DAYS]
  have hdiff : daysBetween due { day := 20, month := mo, year := y } = some 5 := by
    rw [hdue, daysBetween_same_month mo y 15 20 h1 h12]
    decide
  have hbid := findBook_id hb
  have hmid := findMember_id hm
  have hb1 : findBook s.bookTable
      ({ b with available_copies := b.available_copies - 1 } : Book).id = some (some b) := by
    rw [show ({ b with available_copies := b.available_copies - 1 } : Book).id = bookId
      from hbid]
    exact hb
  have hm1 : findMember s.memberHead
      ({ m with borrowed_count := m.borrowed_count + 1 } : Member).id = some m := by
    rw [show ({ m with borrowed_count := m.borrowed_count + 1 } : Member).id = memberId
      from hmid]
    exact hm
  have hfm : findMember s1.memberHead memberId
      = some { m with borrowed_count := m.borrowed_count + 1 } := by
    rw [hs1]
    show findMember (storeMember s.memberHead _) memberId = _
    rw [findMember_storeMember _ _ m hm1]
    simp [hmid]
  have hfb : findBook s1.bookTable bookId
      = some (some { b with available_copies := b.available_copies - 1 }) := by
    rw [hs1]
    show findBook (storeBook s.bookTable _) bookId = _
    rw [findBook_storeBook _ _ b hb1]
    simp [hbid]
  have hft : findActiveTransaction s1.transHead bookId memberId
      = some { id := s.nextTransId, bookId := bookId, memberId := memberId,
               borrow_date := { day := 1, month := mo, year := y }, due_date := due,
               return_date := { day := 0, month := 0, year := 0 },
               is_returned := false, fine := 0 } := by
    rw [hs1]
    exact findActiveTransaction_head _ bookId memberId _ due
  obtain ⟨s2, a, ha, _, hled⟩ := autoAssign_ledger
    (returnUpdate s1 { day := 20, month := mo, year := y } _ _ _ 5) ta _ hta.1 hta.2.1
  have hret := returnBook_found s1 { day := 20, month := mo, year := y } ta memberId bookId
    _ _ _ 5 hfm hfb hft hdiff s2 a ha
  have hfine : computeFine 5 = 25 := by decide
  rw [hfine] at hret
  refine ⟨hdue, hdiff, s2, a, hret, ?_⟩
  have hin :
      ({ id := s.nextTransId, bookId := bookId, memberId := memberId,
         borrow_date := { day := 1, month := mo, year := y }, due_date := due,
         return_date := { day := 20, month := mo, year := y },
         is_returned := true, fine := 25 } : Transaction)
      ∈ (returnUpdate s1 { day := 20, month := mo, year := y }
          { m with borrowed_count := m.borrowed_count + 1 }
          { b with available_copies := b.available_copies - 1 }
          { id := s.nextTransId, bookId := bookId, memberId := memberId,
            borrow_date := { day := 1, month := mo, year := y }, due_date := due,
            return_date := { day := 0, month := 0, year := 0 },
            is_returned := false, fine := 0 } 5).transHead := by
    obtain ⟨pre, post, _, _, e3⟩ :=
      replaceFirst_split (isActiveFor bookId memberId) _ s1.transHead hft
    unfold returnUpdate storeTransaction
    simp only [hbid, hmid, hfine]
    rw [e3]
    simp
  rcases hled with h | ⟨tnew, h, _⟩
  · rw [h]; exact hin
  · rw [h]; exact List.mem_cons_of_mem _ hin

theorem borrowBook_readyState :
    borrowBook readyState { day := 1, month := 3, year := 5 } 1 7
      = some (loanState,
          Outcome.issued { day := 1, month := 3, year := 5 }
            { day := 15, month := 3, year := 5 }) := by
  decide

theorem fine_example_witness :
    { day := 15, month := 3, year := 5 } = ({ day := 15, month := 3, year := 5 } : Date) ∧
    daysBetween { day := 15, month := 3, year := 5 } { day := 20, month := 3, year := 5 }
      = some 5 ∧
    ∃ s2 auto, returnBook loanState { day := 20, month := 3, year := 5 }
          { day := 20, month := 3, year := 5 } 1 7
        = some (s2, Outcome.returned { day := 20, month := 3, year := 5 } 25 auto) ∧
      { id := readyState.nextTransId, bookId := 7, memberId := 1,
        borrow_date := { day := 1, month := 3, year := 5 },
        due_date := { day := 15, month := 3, year := 5 },
        return_date := { day := 20, month := 3, year := 5 },
        is_returned := true, fine := 25 } ∈ s2.transHead :=
  fine_example readyState loanState 3 5 1 7 { day := 15, month := 3, year := 5 }
    { day := 20, month := 3, year := 5 } (by decide) (by decide) (by decide)
    borrowBook_readyState

/-- C5 as the spec has it, refuted on the code. Member 1 borrows book 7 on
day 1 of a month and the due date computed by `addDays` is day 15; returned on
day 20 of the same month the book is 5 days late, not 6, and `returnBook`
charges 25, not 30. -/
theorem fine_example_counterexample :
    borrowBook readyState { day := 1, month := 3, year := 5 } 1 7
      = some (loanState,
          Outcome.issued { day := 1, month := 3, year := 5 }
            { day := 15, month := 3, year := 5 }) ∧
    addDays { day := 1, month := 3, year := 5 } MAX_BORROW_DAYS
      = some { day := 15, month := 3, year := 5 } ∧
    daysBetween { day := 15, month := 3, year := 5 } { day := 20, month := 3, year := 5 }
      = some 5 ∧
    daysBetween { day := 15, month := 3, year := 5 } { day := 20, month := 3, year := 5 }
      ≠ some 6 ∧
    (returnBook loanState { day := 20, month := 3, year := 5 }
        { day := 20, month := 3, year := 5 } 1 7).map (fun r => r.2)
      = some (Outcome.returned { day := 20, month := 3, year := 5 } 25 Assign.nothing) ∧
    ¬ ∃ s2 auto, returnBook loanState { day := 20, month := 3, year := 5 }
          { day := 20, month := 3, year := 5 } 1 7
        = some (s2, Outcome.returned { day := 20, month := 3, year := 5 } 30 auto) := by
  refine ⟨by decide, by decide, by decide, by decide, by decide, ?_⟩
  rintro ⟨s2, auto, h⟩
  have h25 : (returnBook loanState { day := 20, month := 3, year := 5 }
      { day := 20, month := 3, year := 5 } 1 7).map (fun r => r.2)
      = some (Outcome.returned { day := 20, month := 3, year := 5 } 25 Assign.nothing) := by
    decide
  rw [h] at h25
  simp at h25

theorem borrowBook_success_witness :
    ∃ due pre post mpre mpost s1,
      addDays { day := 1, month := 3, year := 5 } MAX_BORROW_DAYS = some due ∧
      borrowBook readyState { day := 1, month := 3, year := 5 } 1 7
        = some (s1, Outcome.issued { day := 1, month := 3, year := 5 } due) ∧
      chainAt readyState.bookTable (hashBookId 7)
        = some (pre ++
            { id := 7, title := "Title", author := "Author", total_copies := 1,
              available_copies := 1, waitlist := [] } :: post) ∧
      (∀ x ∈ pre, x.id ≠ 7) ∧
      s1.bookTable = setChain readyState.bookTable (hashBookId 7)
        (pre ++
          { id := 7, title := "Title", author := "Author", total_copies := 1,
            available_copies := 1 - 1, waitlist := [] } :: post) ∧
      readyState.memberHead
        = mpre ++ { id := 1, name := "Ann", type := 1, borrowed_count := 0 } :: mpost ∧
      (∀ x ∈ mpre, x.id ≠ 1) ∧
      s1.memberHead
        = mpre ++ { id := 1, name := "Ann", type := 1, borrowed_count := 0 + 1 } :: mpost ∧
      s1.transHead =
        { id := readyState.nextTransId, bookId := 7, memberId := 1,
          borrow_date := { day := 1, month := 3, year := 5 },
          due_date := due, return_date := { day := 0, month := 0, year := 0 },
          is_returned := false, fine := 0 } :: readyState.transHead ∧
      s1.nextTransId = readyState.nextTransId + 1 ∧
      findBook s1.bookTable 7
        = some (some { id := 7, title := "Title", author := "Author", total_copies := 1,
                       available_copies := 1 - 1, waitlist := [] }) ∧
      (∀ id, id ≠ 7 → findBook s1.bookTable id = findBook readyState.bookTable id) ∧
      findMember s1.memberHead 1
        = some { id := 1, name := "Ann", type := 1, borrowed_count := 0 + 1 } ∧
      (∀ id, id ≠ 1 → findMember s1.memberHead id = findMember readyState.memberHead id) :=
  borrowBook_success readyState { day := 1, month := 3, year := 5 } 1 7
    { id := 1, name := "Ann", type := 1, borrowed_count := 0 }
    { id := 7, title := "Title", author := "Author", total_copies := 1,
      available_copies := 1, waitlist := [] }
    (by decide) (by decide) (by decide) (by decide) (by decide)

/-! ## Due dates of the ledger -/

theorem daysInMonth_some_month (m y dim : Int) (h : daysInMonth m y = some dim) :
    1 ≤ m ∧ m ≤ 12 := by
  unfold daysInMonth at h
  split at h
  · omega
  · split at h
    · have hlt : (m - 1).toNat < days.length := by
        by_contra hc
        rw [List.getElem?_eq_none (by omega)] at h
        simp at h
      have : days.length = 12 := rfl
      omega
    · simp at h

theorem addDays_month (d e : Date) (n : Int) (h : addDays d n = some e) :
    1 ≤ e.month ∧ e.month ≤ 12 := by
  have hm : 1 ≤ d.month ∧ d.month ≤ 12 := by
    unfold addDays at h
    simp only at h
    unfold addDaysLoop at h
    cases hd : daysInMonth d.month d.year with
    | none => simp [hd] at h
    | some dim => exact daysInMonth_some_month _ _ _ hd
  obtain ⟨e1, he1, h1, h12, _⟩ := addDays_spec d n hm.1 hm.2
  rw [h] at he1
  rw [Option.some.inj he1]
  exact ⟨h1, h12⟩

theorem daysBetween_some (d e : Date) (hd : 1 ≤ d.month ∧ d.month ≤ 12)
    (he : 1 ≤ e.month ∧ e.month ≤ 12) : ∃ diff, daysBetween d e = some diff := by
  unfold daysBetween
  rw [dateToSerial_eq d hd.1 hd.2, dateToSerial_eq e he.1 he.2]
  exact ⟨_, rfl⟩

theorem addBook_transHead (s s1 : State) (id : Int) (title author : String) (tc : Int)
    (out : Outcome) (h : addBook s id title author tc = some (s1, out)) :
    s1.transHead = s.transHead ∧ s1.memberHead = s.memberHead := by
  unfold addBook at h
  cases hf : findBook s.bookTable id with
  | none => simp [hf] at h
  | some r =>
    cases r with
    | some b0 =>
      simp only [hf, Option.some.injEq, Prod.mk.injEq] at h
      rw [← h.1]; exact ⟨rfl, rfl⟩
    | none =>
      simp only [hf] at h
      cases hc : chainAt s.bookTable (hashBookId id) with
      | none => simp [hc] at h
      | some chain =>
        simp only [hc, Option.some.injEq, Prod.mk.injEq] at h
        rw [← h.1]; exact ⟨rfl, rfl⟩

theorem removeBook_transHead (s s1 : State) (id : Int) (out : Outcome)
    (h : removeBook s id = some (s1, out)) :
    s1.transHead = s.transHead ∧ s1.memberHead = s.memberHead := by
  unfold removeBook at h
  cases hf : findBook s.bookTable id with
  | none => simp [hf] at h
  | some r =>
    cases r with
    | none =>
      simp only [hf, Option.some.injEq, Prod.mk.injEq] at h
      rw [← h.1]; exact ⟨rfl, rfl⟩
    | some b =>
      simp only [hf] at h
      split at h
      · simp only [Option.some.injEq, Prod.mk.injEq] at h
        rw [← h.1]; exact ⟨rfl, rfl⟩
      · split at h
        · simp only [Option.some.injEq, Prod.mk.injEq] at h
          rw [← h.1]; exact ⟨rfl, rfl⟩
        · split at h
          · simp only [Option.some.injEq, Prod.mk.injEq] at h
            rw [← h.1]; exact ⟨rfl, rfl⟩
          · cases hc : chainAt s.bookTable (hashBookId id) with
            | none => simp [hc] at h
            | some chain =>
              simp only [hc] at h
              cases hu : unlinkFirst (fun curr => curr.id == id) chain with
              | none =>
                simp only [hu, Option.some.injEq, Prod.mk.injEq] at h
                rw [← h.1]; exact ⟨rfl, rfl⟩
              | some chain1 =>
                simp only [hu, Option.some.injEq, Prod.mk.injEq] at h
                rw [← h.1]; exact ⟨rfl, rfl⟩

theorem registerMember_transHead (s : State) (id : Int) (name : String) (type : Int) :
    (registerMember s id name type).1.transHead = s.transHead ∧
      (registerMember s id name type).1.bookTable = s.bookTable := by
  unfold registerMember
  split <;> exact ⟨rfl, rfl⟩

theorem deleteMember_transHead (s : State) (id : Int) :
    (deleteMember s id).1.transHead = s.transHead ∧
      (deleteMember s id).1.bookTable = s.bookTable := by
  unfold deleteMember
  split
  · exact ⟨rfl, rfl⟩
  · split
    · exact ⟨rfl, rfl⟩
    · split <;> exact ⟨rfl, rfl⟩

/-- Every way `borrowBook` can end, read off its report. -/
theorem borrowBook_cases (s s1 : State) (today : Date) (memberId bookId : Int)
    (out : Outcome) (h : borrowBook s today memberId bookId = some (s1, out)) :
    (s1 = s ∧ (out = Outcome.memberNotFound ∨ out = Outcome.bookNotFound ∨
        out = Outcome.borrowLimitReached)) ∨
    (∃ due, out = Outcome.issued today due) ∨
    (∃ m b, out = Outcome.waitlisted ∧ findMember s.memberHead memberId = some m ∧
      findBook s.bookTable bookId = some (some b) ∧
      m.borrowed_count < maxBooksAllowed m ∧ b.available_copies ≤ 0 ∧
      s1 = { s with bookTable := storeBook s.bookTable (enqueueWait b memberId) }) := by
  unfold borrowBook at h
  cases hm : findMember s.memberHead memberId with
  | none =>
    simp only [hm, Option.some.injEq, Prod.mk.injEq] at h
    exact Or.inl ⟨h.1.symm, Or.inl h.2.symm⟩
  | some m =>
    simp only [hm] at h
    cases hf : findBook s.bookTable bookId with
    | none => simp [hf] at h
    | some r =>
      cases r with
      | none =>
        simp only [hf, Option.some.injEq, Prod.mk.injEq] at h
        exact Or.inl ⟨h.1.symm, Or.inr (Or.inl h.2.symm)⟩
      | some b =>
        simp only [hf] at h
        by_cases hlim : m.borrowed_count ≥ maxBooksAllowed m
        · simp only [hlim, if_true, Option.some.injEq, Prod.mk.injEq] at h
          exact Or.inl ⟨h.1.symm, Or.inr (Or.inr h.2.symm)⟩
        · simp only [hlim, if_false] at h
          by_cases hav : b.available_copies > 0
          · simp only [hav, if_true] at h
            cases hd : addDays today MAX_BORROW_DAYS with
            | none => simp [hd] at h
            | some due =>
              simp only [hd, Option.some.injEq, Prod.mk.injEq] at h
              exact Or.inr (Or.inl ⟨due, h.2.symm⟩)
          · simp only [hav, if_false, Option.some.injEq, Prod.mk.injEq] at h
            exact Or.inr (Or.inr ⟨m, b, h.2.symm, rfl, rfl, by omega, by omega, h.1.symm⟩)

theorem DueInv_borrowBook (s s1 : State) (today : Date) (memberId bookId : Int)
    (out : Outcome) (hinv : DueInv s)
    (h : borrowBook s today memberId bookId = some (s1, out)) : DueInv s1 := by
  rcases borrowBook_cases s s1 today memberId bookId out h with
    ⟨hs, _⟩ | ⟨due, hout⟩ | ⟨m, b, _, _, _, _, _, hs⟩
  · rw [hs]; exact hinv
  · rw [hout] at h
    obtain ⟨m, b, _, _, _, _, _, hadd, hs1⟩ := borrowBook_issued_inv s s1 _ _ _ _ _ h
    rw [hs1]
    intro t ht
    rcases List.mem_cons.1 ht with rfl | ht
    · exact addDays_month _ _ _ hadd
    · exact hinv t ht
  · rw [hs]; exact hinv

/-- Every way `autoAssignFromWaitlist` can end. -/
theorem autoAssign_cases (s s1 : State) (today : Date) (b : Book) (a : Assign)
    (h : autoAssignFromWaitlist s today b = some (s1, a)) :
    (a = Assign.nothing ∧ s1 = s ∧ (b.available_copies ≤ 0 ∨ b.waitlist = [])) ∨
    (∃ id rest, 0 < b.available_copies ∧ b.waitlist = id :: rest ∧
      findMember s.memberHead id = none ∧ a = Assign.memberMissing id ∧
      s1 = { s with bookTable := storeBook s.bookTable (dequeued b rest) }) ∨
    (∃ id rest m, 0 < b.available_copies ∧ b.waitlist = id :: rest ∧
      findMember s.memberHead id = some m ∧ m.borrowed_count ≥ maxBooksAllowed m ∧
      a = Assign.limitReached id ∧
      s1 = { s with bookTable := storeBook s.bookTable (dequeued b rest) }) ∨
    (∃ id rest m due, 0 < b.available_copies ∧ b.waitlist = id :: rest ∧
      findMember s.memberHead id = some m ∧ m.borrowed_count < maxBooksAllowed m ∧
      addDays today MAX_BORROW_DAYS = some due ∧ a = Assign.assigned id today due ∧
      s1 = addTransaction
        { s with
          bookTable := storeBook (storeBook s.bookTable (dequeued b rest))
            { dequeued b rest with available_copies := b.available_copies - 1 },
          memberHead := storeMember s.memberHead
            { m with borrowed_count := m.borrowed_count + 1 } }
        b.id id today due) := by
  by_cases hn : b.available_copies ≤ 0 ∨ b.waitlist = []
  · rw [autoAssign_nothing s today b hn] at h
    simp only [Option.some.injEq, Prod.mk.injEq] at h
    exact Or.inl ⟨h.2.symm, h.1.symm, hn⟩
  · have hav : 0 < b.available_copies := by
      by_contra hc
      exact hn (Or.inl (by omega))
    cases hw : b.waitlist with
    | nil => exact absurd (Or.inr hw) hn
    | cons id rest =>
      rw [autoAssign_front s today b id rest hav hw] at h
      cases hm : findMember s.memberHead id with
      | none =>
        simp only [hm, Option.some.injEq, Prod.mk.injEq] at h
        exact Or.inr (Or.inl ⟨id, rest, hav, rfl, hm, h.2.symm, h.1.symm⟩)
      | some m =>
        simp only [hm] at h
        by_cases hlim : m.borrowed_count ≥ maxBooksAllowed m
        · simp only [hlim, if_true, Option.some.injEq, Prod.mk.injEq] at h
          exact Or.inr (Or.inr (Or.inl ⟨id, rest, m, hav, rfl, hm, hlim, h.2.symm, h.1.symm⟩))
        · simp only [hlim, if_false] at h
          cases hd : addDays today MAX_BORROW_DAYS with
          | none => simp [hd] at h
          | some due =>
            simp only [hd, Option.some.injEq, Prod.mk.injEq] at h
            exact Or.inr (Or.inr (Or.inr ⟨id, rest, m, due, hav, rfl, hm, by omega,
              rfl, h.2.symm, h.1.symm⟩))

/-- Every way `returnBook` can end: one of its three lookups fails and the
state is untouched, or the transaction is closed and the promotion step runs
on the updated state. -/
theorem returnBook_cases (s s1 : State) (today ta : Date) (memberId bookId : Int)
    (out : Outcome) (h : returnBook s today ta memberId bookId = some (s1, out)) :
    (s1 = s ∧ (out = Outcome.memberNotFound ∨ out = Outcome.bookNotFound ∨
        out = Outcome.noActiveTransaction)) ∨
    (∃ m b t diff a, findMember s.memberHead memberId = some m ∧
      findBook s.bookTable bookId = some (some b) ∧
      findActiveTransaction s.transHead bookId memberId = some t ∧
      daysBetween t.due_date today = some diff ∧
      autoAssignFromWaitlist (returnUpdate s today m b t diff) ta
        { b with available_copies := b.available_copies + 1 } = some (s1, a) ∧
      out = Outcome.returned today (computeFine diff) a) := by
  unfold returnBook at h
  cases hm : findMember s.memberHead memberId with
  | none =>
    simp only [hm, Option.some.injEq, Prod.mk.injEq] at h
    exact Or.inl ⟨h.1.symm, Or.inl h.2.symm⟩
  | some m =>
    simp only [hm] at h
    cases hf : findBook s.bookTable bookId with
    | none => simp [hf] at h
    | some r =>
      cases r with
      | none =>
        simp only [hf, Option.some.injEq, Prod.mk.injEq] at h
        exact Or.inl ⟨h.1.symm, Or.inr (Or.inl h.2.symm)⟩
      | some b =>
        simp only [hf] at h
        cases ht : findActiveTransaction s.transHead bookId memberId with
        | none =>
          simp only [ht, Option.some.injEq, Prod.mk.injEq] at h
          exact Or.inl ⟨h.1.symm, Or.inr (Or.inr h.2.symm)⟩
        | some t =>
          simp only [ht] at h
          cases hd : daysBetween t.due_date today with
          | none => simp [hd] at h
          | some diff =>
            simp only [hd] at h
            cases ha : autoAssignFromWaitlist (returnUpdate s today m b t diff) ta
                { b with available_copies := b.available_copies + 1 } with
            | none => simp [ha] at h
            | some r =>
              obtain ⟨s2, a⟩ := r
              simp only [ha, Option.some.injEq, Prod.mk.injEq] at h
              refine Or.inr ⟨m, b, t, diff, a, rfl, rfl, rfl, hd, ?_, h.2.symm⟩
              rw [ha, h.1]

theorem DueInv_autoAssign (s s1 : State) (today : Date) (b : Book) (a : Assign)
    (hinv : DueInv s) (h : autoAssignFromWaitlist s today b = some (s1, a)) : DueInv s1 := by
  rcases autoAssign_cases s s1 today b a h with
    ⟨_, hs, _⟩ | ⟨_, _, _, _, _, _, hs⟩ | ⟨_, _, _, _, _, _, _, _, hs⟩ |
    ⟨_, _, _, due, _, _, _, _, hadd, _, hs⟩
  · rw [hs]; exact hinv
  · rw [hs]; exact hinv
  · rw [hs]; exact hinv
  · rw [hs]
    intro t ht
    rcases List.mem_cons.1 ht with rfl | ht
    · exact addDays_month _ _ _ hadd
    · exact hinv t ht

theorem DueInv_returnUpdate (s : State) (today : Date) (m : Member) (b : Book)
    (t : Transaction) (diff : Int) (hinv : DueInv s) (ht : t ∈ s.transHead) :
    DueInv (returnUpdate s today m b t diff) := by
  intro x hx
  unfold returnUpdate at hx
  rcases mem_storeTransaction hx with rfl | hx
  · exact hinv t ht
  · exact hinv x hx

theorem DueInv_exec (s s1 : State) (c : Command) (out : Outcome) (hinv : DueInv s)
    (h : exec s c = some (s1, out)) : DueInv s1 := by
  cases c with
  | addBook id title author total_copies =>
    unfold DueInv
    rw [(addBook_transHead s s1 _ _ _ _ out h).1]
    exact hinv
  | removeBook id =>
    unfold DueInv
    rw [(removeBook_transHead s s1 _ out h).1]
    exact hinv
  | registerMember id name type =>
    simp only [exec, Option.some.injEq] at h
    unfold DueInv
    rw [← show (registerMember s id name type).1 = s1 by rw [h],
      (registerMember_transHead s id name type).1]
    exact hinv
  | deleteMember id =>
    simp only [exec, Option.some.injEq] at h
    unfold DueInv
    rw [← show (deleteMember s id).1 = s1 by rw [h], (deleteMember_transHead s id).1]
    exact hinv
  | borrowBook today memberId bookId => exact DueInv_borrowBook s s1 _ _ _ out hinv h
  | returnBook today ta memberId bookId =>
    rcases returnBook_cases s s1 today ta memberId bookId out h with
      ⟨hs, _⟩ | ⟨m, b, t, diff, a, _, _, ht, _, ha, _⟩
    · rw [hs]; exact hinv
    · exact DueInv_autoAssign _ s1 ta _ a
        (DueInv_returnUpdate s today m b t diff hinv (findActiveTransaction_some ht).1) ha

theorem DueInv_of_Reachable (s : State) (h : Reachable s) : DueInv s := by
  induction h with
  | init =>
    intro t ht
    simp [initialState] at ht
  | step c _ hexec ih => exact DueInv_exec _ _ c _ ih hexec

/-! ## C7: what a return does to the two counters -/

theorem findBook_storeBook_twice (tbl : List (List Book)) (b0 b1 b2 : Book)
    (h : findBook tbl b0.id = some (some b0)) (h1 : b1.id = b0.id) (h2 : b2.id = b0.id)
    (id : Int) :
    findBook (storeBook (storeBook tbl b1) b2) id
      = if id = b0.id then some (some b2) else findBook tbl id := by
  have hb1 : findBook tbl b1.id = some (some b0) := by rw [h1]; exact h
  have hb2 : findBook (storeBook tbl b1) b2.id = some (some b1) := by
    rw [findBook_storeBook _ _ b0 hb1, h2, h1]
    simp
  rw [findBook_storeBook _ _ b1 hb2, findBook_storeBook _ _ b0 hb1, h2, h1]
  split <;> rfl

/-- What the promotion step leaves behind, in terms of lookups; `b` is the
content of the book node it is called on. -/
theorem autoAssign_effect (s s1 : State) (today : Date) (b : Book) (a : Assign)
    (hb : findBook s.bookTable b.id = some (some b))
    (h : autoAssignFromWaitlist s today b = some (s1, a)) :
    (a = Assign.nothing ∧ s1 = s ∧ (b.available_copies ≤ 0 ∨ b.waitlist = [])) ∨
    (∃ id rest, 0 < b.available_copies ∧ b.waitlist = id :: rest ∧
      ((a = Assign.memberMissing id ∧ findMember s.memberHead id = none) ∨
       (a = Assign.limitReached id ∧
         ∃ m, findMember s.memberHead id = some m ∧
           m.borrowed_count ≥ maxBooksAllowed m)) ∧
      findBook s1.bookTable b.id = some (some (dequeued b rest)) ∧
      (∀ id1, id1 ≠ b.id → findBook s1.bookTable id1 = findBook s.bookTable id1) ∧
      s1.memberHead = s.memberHead ∧ s1.transHead = s.transHead ∧
      s1.nextTransId = s.nextTransId) ∨
    (∃ id rest m due, 0 < b.available_copies ∧ b.waitlist = id :: rest ∧
      findMember s.memberHead id = some m ∧ m.borrowed_count < maxBooksAllowed m ∧
      addDays today MAX_BORROW_DAYS = some due ∧ a = Assign.assigned id today due ∧
      findBook s1.bookTable b.id
        = some (some { dequeued b rest with available_copies := b.available_copies - 1 }) ∧
      (∀ id1, id1 ≠ b.id → findBook s1.bookTable id1 = findBook s.bookTable id1) ∧
      findMember s1.memberHead id
        = some { m with borrowed_count := m.borrowed_count + 1 } ∧
      (∀ id1, id1 ≠ id → findMember s1.memberHead id1 = findMember s.memberHead id1) ∧
      s1.transHead =
        { id := s.nextTransId, bookId := b.id, memberId := id, borrow_date := today,
          due_date := due, return_date := { day := 0, month := 0, year := 0 },
          is_returned := false, fine := 0 } :: s.transHead ∧
      s1.nextTransId = s.nextTransId + 1) := by
  have hd : ∀ rest, findBook s.bookTable (dequeued b rest).id = some (some b) := fun _ => hb
  rcases autoAssign_cases s s1 today b a h with
    ⟨ha, hs, hc⟩ | ⟨id, rest, hav, hw, hm, ha, hs⟩ | ⟨id, rest, m, hav, hw, hm, hlim, ha, hs⟩ |
    ⟨id, rest, m, due, hav, hw, hm, hlim, hadd, ha, hs⟩
  · exact Or.inl ⟨ha, hs, hc⟩
  · refine Or.inr (Or.inl ⟨id, rest, hav, hw, Or.inl ⟨ha, hm⟩, ?_, ?_, ?_, ?_, ?_⟩)
    · rw [hs]
      show findBook (storeBook s.bookTable _) b.id = _
      rw [findBook_storeBook _ _ b (hd rest)]
      simp [dequeued]
    · intro id1 hid1
      rw [hs]
      show findBook (storeBook s.bookTable _) id1 = _
      rw [findBook_storeBook _ _ b (hd rest)]
      simp [dequeued, hid1]
    · rw [hs]
    · rw [hs]
    · rw [hs]
  · refine Or.inr (Or.inl ⟨id, rest, hav, hw, Or.inr ⟨ha, m, hm, hlim⟩, ?_, ?_, ?_, ?_, ?_⟩)
    · rw [hs]
      show findBook (storeBook s.bookTable _) b.id = _
      rw [findBook_storeBook _ _ b (hd rest)]
      simp [dequeued]
    · intro id1 hid1
      rw [hs]
      show findBook (storeBook s.bookTable _) id1 = _
      rw [findBook_storeBook _ _ b (hd rest)]
      simp [dequeued, hid1]
    · rw [hs]
    · rw [hs]
    · rw [hs]
  · have hmid := findMember_id hm
    have hm1 : findMember s.memberHead
        ({ m with borrowed_count := m.borrowed_count + 1 } : Member).id = some m := by
      rw [show ({ m with borrowed_count := m.borrowed_count + 1 } : Member).id = id
        from hmid]
      exact hm
    refine Or.inr (Or.inr ⟨id, rest, m, due, hav, hw, hm, hlim, hadd, ha, ?_, ?_, ?_, ?_, ?_,
      ?_⟩)
    · rw [hs]
      show findBook (storeBook (storeBook s.bookTable _) _) b.id = _
      rw [findBook_storeBook_twice s.bookTable b (dequeued b rest)
        { dequeued b rest with available_copies := b.available_copies - 1 } hb rfl rfl]
      simp
    · intro id1 hid1
      rw [hs]
      show findBook (storeBook (storeBook s.bookTable _) _) id1 = _
      rw [findBook_storeBook_twice s.bookTable b (dequeued b rest)
        { dequeued b rest with available_copies := b.available_copies - 1 } hb rfl rfl]
      simp [hid1]
    · rw [hs]
      show findMember (storeMember s.memberHead _) id = _
      rw [findMember_storeMember _ _ m hm1]
      simp [hmid]
    · intro id1 hid1
      rw [hs]
      show findMember (storeMember s.memberHead _) id1 = _
      rw [findMember_storeMember _ _ m hm1]
      simp [hmid, hid1]
    · rw [hs]; rfl
    · rw [hs]; rfl

theorem returnUpdate_findBook_other (s : State) (today : Date) (m : Member) (b : Book)
    (t : Transaction) (diff : Int) (hb : findBook s.bookTable b.id = some (some b))
    (id : Int) (hid : id ≠ b.id) :
    findBook (returnUpdate s today m b t diff).bookTable id = findBook s.bookTable id := by
  unfold returnUpdate
  simp only
  have hb1 : findBook s.bookTable
      ({ b with available_copies := b.available_copies + 1 } : Book).id = some (some b) := hb
  rw [findBook_storeBook _ _ b hb1]
  simp [hid]

theorem returnUpdate_findMember (s : State) (today : Date) (m : Member) (b : Book)
    (t : Transaction) (diff : Int) (hm : findMember s.memberHead m.id = some m) (id : Int) :
    findMember (returnUpdate s today m b t diff).memberHead id
      = if id = m.id then
          some (if m.borrowed_count > 0 then
            { m with borrowed_count := m.borrowed_count - 1 } else m)
        else findMember s.memberHead id := by
  unfold returnUpdate
  simp only
  have hid : (if m.borrowed_count > 0 then
      ({ m with borrowed_count := m.borrowed_count - 1 } : Member) else m).id = m.id := by
    split <;> rfl
  have hm1 : findMember s.memberHead (if m.borrowed_count > 0 then
      ({ m with borrowed_count := m.borrowed_count - 1 } : Member) else m).id = some m := by
    rw [hid]; exact hm
  rw [findMember_storeMember _ _ m hm1, hid]

/-- C7 as the code has it. In a reachable state, a return by a member `m` found
under `memberId` of a book `b` found under `bookId`, with an active
transaction for the pair (the dates `today` and `ta` read by `returnBook` and
by the promotion step being calendar dates), goes through.
`returnBook` itself makes `available_copies` one greater and `borrowed_count`
one smaller: that is the state it hands to `autoAssignFromWaitlist`. After the
whole operation these values stand when nobody was promoted; when a waitlisted
member `p` was promoted the copy is issued again, so `available_copies` is what
it was before the return, and `borrowed_count` of `m` is one smaller when `p`
is another member and what it was before when `p` is `m`. -/
theorem returnBook_counts (s : State) (hs : Reachable s) (today ta : Date)
    (htoday : validDate today) (hta : validDate ta) (memberId bookId : Int) (m : Member)
    (b : Book) (t : Transaction)
    (hm : findMember s.memberHead memberId = some m)
    (hb : findBook s.bookTable bookId = some (some b))
    (ht : findActiveTransaction s.transHead bookId memberId = some t) :
    ∃ diff s1 auto b1 m1,
      returnBook s today ta memberId bookId
        = some (s1, Outcome.returned today (computeFine diff) auto) ∧
      findBook (returnUpdate s today m b t diff).bookTable bookId
        = some (some { b with available_copies := b.available_copies + 1 }) ∧
      findMember (returnUpdate s today m b t diff).memberHead memberId
        = some { m with borrowed_count := m.borrowed_count - 1 } ∧
      findBook s1.bookTable bookId = some (some b1) ∧
      findMember s1.memberHead memberId = some m1 ∧
      ((∀ p d due, auto ≠ Assign.assigned p d due) →
        b1.available_copies = b.available_copies + 1 ∧
        m1.borrowed_count = m.borrowed_count - 1) ∧
      (∀ p d due, auto = Assign.assigned p d due →
        b1.available_copies = b.available_copies ∧
        m1.borrowed_count
          = if p = memberId then m.borrowed_count else m.borrowed_count - 1) := by
  have hinv := Inv_of_Reachable s hs
  have hdueinv := DueInv_of_Reachable s hs
  obtain ⟨htm, htr, _, htmem⟩ := findActiveTransaction_some ht
  obtain ⟨diff, hdiff⟩ := daysBetween_some t.due_date today (hdueinv t htm)
    ⟨htoday.1, htoday.2.1⟩
  have hbid := findBook_id hb
  have hmid := findMember_id hm
  have hpos : 0 < m.borrowed_count := by
    have h1 := (hinv.loans memberId m hm).1
    have h2 := activeForMember_pos htm htr
    rw [htmem] at h2
    omega
  have hb' : findBook s.bookTable b.id = some (some b) := by rw [hbid]; exact hb
  have hm' : findMember s.memberHead m.id = some m := by rw [hmid]; exact hm
  obtain ⟨s1, a, ha, _, _⟩ := autoAssign_ledger (returnUpdate s today m b t diff) ta
    { b with available_copies := b.available_copies + 1 } hta.1 hta.2.1
  have hub : findBook (returnUpdate s today m b t diff).bookTable bookId
      = some (some { b with available_copies := b.available_copies + 1 }) := by
    rw [← hbid]
    exact returnUpdate_findBook s today m b t diff hb'
  have hum : findMember (returnUpdate s today m b t diff).memberHead memberId
      = some { m with borrowed_count := m.borrowed_count - 1 } := by
    rw [returnUpdate_findMember s today m b t diff hm' memberId, if_pos hmid.symm,
      if_pos hpos]
  have hret := returnBook_found s today ta memberId bookId m b t diff hm hb ht hdiff s1 a ha
  have hub' : findBook (returnUpdate s today m b t diff).bookTable
      ({ b with available_copies := b.available_copies + 1 } : Book).id
      = some (some { b with available_copies := b.available_copies + 1 }) :=
    returnUpdate_findBook s today m b t diff hb'
  have hidb : ({ b with available_copies := b.available_copies + 1 } : Book).id = bookId :=
    hbid
  rcases autoAssign_effect _ s1 ta _ a hub' ha with
    ⟨hnone, hs1, _⟩ |
    ⟨id, rest, _, _, hkind, hfb, _, hmem, _, _⟩ |
    ⟨id, rest, mp, due, _, _, hmp, _, _, hassign, hfb, _, hfm, hfmo, _, _⟩
  · refine ⟨diff, s1, a, _, _, hret, hub, hum, by rw [hs1]; exact hub,
      by rw [hs1]; exact hum, fun _ => ⟨rfl, rfl⟩, ?_⟩
    intro p d due hp
    rw [hnone] at hp
    cases hp
  · rw [hidb] at hfb
    refine ⟨diff, s1, a, _, _, hret, hub, hum, hfb, by rw [hmem]; exact hum,
      fun _ => ⟨rfl, rfl⟩, ?_⟩
    intro p d due hp
    rcases hkind with ⟨hk, _⟩ | ⟨hk, _⟩ <;> rw [hk] at hp <;> cases hp
  · rw [hidb] at hfb
    by_cases hpm : id = memberId
    · rw [hpm] at hfm hmp
      rw [hum] at hmp
      have hmpe := Option.some.inj hmp
      refine ⟨diff, s1, a, _, _, hret, hub, hum, hfb, hfm, ?_, ?_⟩
      · intro hno
        exact absurd hassign (hno _ _ _)
      · intro p d due hp
        rw [hassign] at hp
        simp only [Assign.assigned.injEq] at hp
        rw [← hp.1, hpm, if_pos rfl, ← hmpe]
        simp [dequeued]
    · have hfm2 := hfmo memberId (fun e => hpm e.symm)
      rw [hum] at hfm2
      refine ⟨diff, s1, a, _, _, hret, hub, hum, hfb, hfm2, ?_, ?_⟩
      · intro hno
        exact absurd hassign (hno _ _ _)
      · intro p d due hp
        rw [hassign] at hp
        simp only [Assign.assigned.injEq] at hp
        rw [← hp.1, if_neg hpm]
        simp [dequeued]

theorem run_selfWaitCommands : run initialState selfWaitCommands = some selfWaitState := by
  decide

theorem Reachable_selfWaitState : Reachable selfWaitState :=
  Reachable_run initialState selfWaitState selfWaitCommands Reachable.init
    run_selfWaitCommands

/-- C7 as the spec has it, refuted on the code. In the reachable state
`selfWaitState` member 1 holds the only copy of book 7 and is on its waitlist.
The return of the book by member 1 succeeds, and after the whole operation
`available_copies` is 0 as before, not 1 greater, and `borrowed_count` of
member 1 is 1 as before, not 1 smaller: the copy went back to member 1. -/
theorem returnBook_counts_counterexample :
    Reachable selfWaitState ∧
    ∃ b0 m0 t0 b1 m1 out,
      findBook selfWaitState.bookTable 7 = some (some b0) ∧
      findMember selfWaitState.memberHead 1 = some m0 ∧
      findActiveTransaction selfWaitState.transHead 7 1 = some t0 ∧
      returnBook selfWaitState { day := 20, month := 3, year := 5 }
          { day := 20, month := 3, year := 5 } 1 7
        = some (selfWaitReturned, out) ∧
      findBook selfWaitReturned.bookTable 7 = some (some b1) ∧
      findMember selfWaitReturned.memberHead 1 = some m1 ∧
      b1.available_copies ≠ b0.available_copies + 1 ∧
      m1.borrowed_count ≠ m0.borrowed_count - 1 :=
  ⟨Reachable_selfWaitState,
   { id := 7, title := "Title", author := "Author", total_copies := 1,
     available_copies := 0, waitlist := [1] },
   { id := 1, name := "Ann", type := 1, borrowed_count := 1 },
   { id := 1, bookId := 7, memberId := 1,
     borrow_date := { day := 1, month := 3, year := 5 },
     due_date := { day := 15, month := 3, year := 5 },
     return_date := { day := 0, month := 0, year := 0 },
     is_returned := false, fine := 0 },
   { id := 7, title := "Title", author := "Author", total_copies := 1,
     available_copies := 0, waitlist := [] },
   { id := 1, name := "Ann", type := 1, borrowed_count := 1 },
   Outcome.returned { day := 20, month := 3, year := 5 } 25
     (Assign.assigned 1 { day := 20, month := 3, year := 5 }
       { day := 3, month := 4, year := 5 }),
   by decide, by decide, by decide, by decide, by decide, by decide, by decide, by decide⟩

theorem returnBook_counts_witness :
    ∃ diff s1 auto b1 m1,
      returnBook sessionState { day := 20, month := 3, year := 5 }
          { day := 21, month := 3, year := 5 } 1 7
        = some (s1, Outcome.returned { day := 20, month := 3, year := 5 }
            (computeFine diff) auto) ∧
      findBook (returnUpdate sessionState { day := 20, month := 3, year := 5 }
          { id := 1, name := "Ann", type := 1, borrowed_count := 1 }
          { id := 7, title := "Title", author := "Author", total_copies := 1,
            available_copies := 0, waitlist := [2] }
          { id := 1, bookId := 7, memberId := 1,
            borrow_date := { day := 1, month := 3, year := 5 },
            due_date := { day := 15, month := 3, year := 5 },
            return_date := { day := 0, month := 0, year := 0 },
            is_returned := false, fine := 0 } diff).bookTable 7
        = some (some { id := 7, title := "Title", author := "Author", total_copies := 1,
                       available_copies := 0 + 1, waitlist := [2] }) ∧
      findMember (returnUpdate sessionState { day := 20, month := 3, year := 5 }
          { id := 1, name := "Ann", type := 1, borrowed_count := 1 }
          { id := 7, title := "Title", author := "Author", total_copies := 1,
            available_copies := 0, waitlist := [2] }
          { id := 1, bookId := 7, memberId := 1,
            borrow_date := { day := 1, month := 3, year := 5 },
            due_date := { day := 15, month := 3, year := 5 },
            return_date := { day := 0, month := 0, year := 0 },
            is_returned := false, fine := 0 } diff).memberHead 1
        = some { id := 1, name := "Ann", type := 1, borrowed_count := 1 - 1 } ∧
      findBook s1.bookTable 7 = some (some b1) ∧
      findMember s1.memberHead 1 = some m1 ∧
      ((∀ p d due, auto ≠ Assign.assigned p d due) →
        b1.available_copies = 0 + 1 ∧ m1.borrowed_count = 1 - 1) ∧
      (∀ p d due, auto = Assign.assigned p d due →
        b1.available_copies = 0 ∧
        m1.borrowed_count = if p = 1 then 1 else 1 - 1) :=
  returnBook_counts sessionState Reachable_sessionState { day := 20, month := 3, year := 5 }
    { day := 21, month := 3, year := 5 } (by decide) (by decide) 1 7
    { id := 1, name := "Ann", type := 1, borrowed_count := 1 }
    { id := 7, title := "Title", author := "Author", total_copies := 1,
      available_copies := 0, waitlist := [2] }
    { id := 1, bookId := 7, memberId := 1,
      borrow_date := { day := 1, month := 3, year := 5 },
      due_date := { day := 15, month := 3, year := 5 },
      return_date := { day := 0, month := 0, year := 0 },
      is_returned := false, fine := 0 }
    (by decide) (by decide) (by decide)

/-! ## C9: promotion on return -/

/-- C9. Promotion on return: in a reachable state let book `X` have
`total_copies = 1` and `available_copies = 0`, its copy held by `member1` (an
active transaction `t` for the pair), and let `member2`, registered and below
the limit, be the only entry of the waitlist. Then `returnBook` for
`member1` and `X` goes through and reports the promotion of `member2`;
afterwards `t` is closed in the ledger with the return date and the computed
fine, `member2` is off the waitlist, which is empty, `available_copies` is 0,
`borrowed_count` of `member2` is one greater, and the ledger starts with a
new active transaction for `(X, member2)` with `borrow_date = today` and
`due_date = addDays today 14`. Here `today` is the calendar date that
`getToday()` gives the promotion step, and `r` the calendar date it gave
`returnBook` just before (the same day unless midnight falls in between). -/
theorem returnBook_promotes (s : State) (hs : Reachable s) (r today : Date)
    (hr : validDate r) (htoday : validDate today) (X member1 member2 : Int) (b : Book)
    (m1 m2 : Member) (t : Transaction)
    (hb : findBook s.bookTable X = some (some b))
    (htot : b.total_copies = 1) (hav : b.available_copies = 0)
    (hw : b.waitlist = [member2])
    (hm1 : findMember s.memberHead member1 = some m1)
    (ht : findActiveTransaction s.transHead X member1 = some t)
    (hm2 : findMember s.memberHead member2 = some m2)
    (hlim : m2.borrowed_count < maxBooksAllowed m2) (hne : member1 ≠ member2) :
    ∃ diff due s1 pre post,
      daysBetween t.due_date r = some diff ∧
      addDays today MAX_BORROW_DAYS = some due ∧
      returnBook s r today member1 X
        = some (s1, Outcome.returned r (computeFine diff)
            (Assign.assigned member2 today due)) ∧
      s.transHead = pre ++ t :: post ∧
      (∀ x ∈ pre, isActiveFor X member1 x = false) ∧
      s1.transHead =
        { id := s.nextTransId, bookId := X, memberId := member2, borrow_date := today,
          due_date := due, return_date := { day := 0, month := 0, year := 0 },
          is_returned := false, fine := 0 } ::
        (pre ++ { t with return_date := r, is_returned := true,
                         fine := computeFine diff } :: post) ∧
      findBook s1.bookTable X
        = some (some { b with total_copies := 1, available_copies := 0, waitlist := [] }) ∧
      findMember s1.memberHead member2
        = some { m2 with borrowed_count := m2.borrowed_count + 1 } := by
  have hdueinv := DueInv_of_Reachable s hs
  obtain ⟨htm, _, _, _⟩ := findActiveTransaction_some ht
  obtain ⟨diff, hdiff⟩ := daysBetween_some t.due_date r (hdueinv t htm)
    ⟨hr.1, hr.2.1⟩
  have hbid := findBook_id hb
  have hmid := findMember_id hm1
  have hb' : findBook s.bookTable b.id = some (some b) := by rw [hbid]; exact hb
  have hm' : findMember s.memberHead m1.id = some m1 := by rw [hmid]; exact hm1
  obtain ⟨s1, a, ha, _, _⟩ := autoAssign_ledger (returnUpdate s r m1 b t diff) today
    { b with available_copies := b.available_copies + 1 } htoday.1 htoday.2.1
  have hret := returnBook_found s r today member1 X m1 b t diff hm1 hb ht hdiff s1 a ha
  have hub' : findBook (returnUpdate s r m1 b t diff).bookTable
      ({ b with available_copies := b.available_copies + 1 } : Book).id
      = some (some { b with available_copies := b.available_copies + 1 }) :=
    returnUpdate_findBook s r m1 b t diff hb'
  have hum2 : findMember (returnUpdate s r m1 b t diff).memberHead member2 = some m2 := by
    rw [returnUpdate_findMember s r m1 b t diff hm' member2,
      if_neg (by rw [hmid]; exact fun e => hne e.symm)]
    exact hm2
  obtain ⟨pre, post, hsplit, hpre, hrep⟩ :=
    replaceFirst_split (isActiveFor X member1) t s.transHead ht
  have hupd : (returnUpdate s r m1 b t diff).transHead
      = pre ++ { t with return_date := r, is_returned := true,
                        fine := computeFine diff } :: post := by
    unfold returnUpdate storeTransaction
    simp only [hbid, hmid]
    exact hrep _
  have hnext : (returnUpdate s r m1 b t diff).nextTransId = s.nextTransId := rfl
  rcases autoAssign_effect _ s1 today _ a hub' ha with
    ⟨_, _, hc⟩ |
    ⟨id, rest, _, hwl, hkind, _⟩ |
    ⟨id, rest, mp, due, _, hwl, hmp, _, hadd, hassign, hfb, _, hfm, _, htrans, _⟩
  · exfalso
    rcases hc with hc | hc
    · simp only at hc
      omega
    · simp only at hc
      rw [hw] at hc
      cases hc
  · exfalso
    simp only [hw, List.cons.injEq] at hwl
    rw [← hwl.1] at hkind
    rcases hkind with ⟨_, hnone⟩ | ⟨_, mx, hmx, hge⟩
    · rw [hum2] at hnone
      cases hnone
    · rw [hum2] at hmx
      rw [← Option.some.inj hmx] at hge
      omega
  · simp only [hw, List.cons.injEq] at hwl
    obtain ⟨hid, hrest⟩ := hwl
    rw [← hid] at hassign hfm hmp htrans
    rw [hum2] at hmp
    rw [← Option.some.inj hmp] at hfm
    rw [hassign] at hret
    refine ⟨diff, due, s1, pre, post, hdiff, hadd, hret, hsplit, hpre, ?_, ?_, hfm⟩
    · rw [htrans, hupd, hnext]
      simp [hbid]
    · have hfb2 : findBook s1.bookTable b.id = _ := hfb
      rw [hbid] at hfb2
      rw [hfb2, ← hrest]
      simp [dequeued, hav, htot, hbid]

theorem returnBook_promotes_witness :
    ∃ diff due s1 pre post,
      daysBetween { day := 15, month := 3, year := 5 } { day := 20, month := 3, year := 5 }
        = some diff ∧
      addDays { day := 20, month := 3, year := 5 } MAX_BORROW_DAYS = some due ∧
      returnBook sessionState { day := 20, month := 3, year := 5 }
          { day := 20, month := 3, year := 5 } 1 7
        = some (s1, Outcome.returned { day := 20, month := 3, year := 5 } (computeFine diff)
            (Assign.assigned 2 { day := 20, month := 3, year := 5 } due)) ∧
      sessionState.transHead = pre ++
        { id := 1, bookId := 7, memberId := 1,
          borrow_date := { day := 1, month := 3, year := 5 },
          due_date := { day := 15, month := 3, year := 5 },
          return_date := { day := 0, month := 0, year := 0 },
          is_returned := false, fine := 0 } :: post ∧
      (∀ x ∈ pre, isActiveFor 7 1 x = false) ∧
      s1.transHead =
        { id := sessionState.nextTransId, bookId := 7, memberId := 2,
          borrow_date := { day := 20, month := 3, year := 5 },
          due_date := due, return_date := { day := 0, month := 0, year := 0 },
          is_returned := false, fine := 0 } ::
        (pre ++ { id := 1, bookId := 7, memberId := 1,
                  borrow_date := { day := 1, month := 3, year := 5 },
                  due_date := { day := 15, month := 3, year := 5 },
                  return_date := { day := 20, month := 3, year := 5 },
                  is_returned := true, fine := computeFine diff } :: post) ∧
      findBook s1.bookTable 7
        = some (some { id := 7, title := "Title", author := "Author", total_copies := 1,
                       available_copies := 0, waitlist := [] }) ∧
      findMember s1.memberHead 2
        = some { id := 2, name := "Bob", type := 1, borrowed_count := 0 + 1 } :=
  returnBook_promotes sessionState Reachable_sessionState
    { day := 20, month := 3, year := 5 } { day := 20, month := 3, year := 5 }
    (by decide) (by decide) 7 1 2
    { id := 7, title := "Title", author := "Author", total_copies := 1,
      available_copies := 0, waitlist := [2] }
    { id := 1, name := "Ann", type := 1, borrowed_count := 1 }
    { id := 2, name := "Bob", type := 1, borrowed_count := 0 }
    { id := 1, bookId := 7, memberId := 1,
      borrow_date := { day := 1, month := 3, year := 5 },
      due_date := { day := 15, month := 3, year := 5 },
      return_date := { day := 0, month := 0, year := 0 },
      is_returned := false, fine := 0 }
    (by decide) (by decide) (by decide) (by decide) (by decide) (by decide) (by decide)
    (by decide) (by decide)

/-! ## C10: one promotion per call -/

/-- C10. Auto-assign is non-cascading. Called on a book node `b` (with `today`
a calendar date) `autoAssignFromWaitlist` returns; the waitlist of the book
is afterwards what it was or what it was without its front entry, and the
ledger is what it was or has one new transaction in front. When it reports a
promotion, exactly the front entry is gone and `available_copies` is one
smaller, however many copies and entries there were. When the front entry is
a member at the borrow limit, the result is the old state with that entry
unlinked from the waitlist and nothing else changed: the entry is not queued
again, no transaction is opened, `available_copies` is as before, and the
next entry is still waiting. -/
theorem autoAssign_once (s : State) (today : Date) (b : Book) (htoday : validDate today)
    (hb : findBook s.bookTable b.id = some (some b)) :
    ∃ s1 a b1,
      autoAssignFromWaitlist s today b = some (s1, a) ∧
      findBook s1.bookTable b.id = some (some b1) ∧
      (b1.waitlist = b.waitlist ∨ ∃ id, b.waitlist = id :: b1.waitlist) ∧
      (s1.transHead = s.transHead ∨ ∃ tnew, s1.transHead = tnew :: s.transHead) ∧
      (∀ p d due, a = Assign.assigned p d due →
        b.waitlist = p :: b1.waitlist ∧
        b1.available_copies = b.available_copies - 1 ∧
        ∃ tnew, s1.transHead = tnew :: s.transHead) ∧
      (∀ id rest m, 0 < b.available_copies → b.waitlist = id :: rest →
        findMember s.memberHead id = some m → m.borrowed_count ≥ maxBooksAllowed m →
        a = Assign.limitReached id ∧
        s1 = { s with bookTable := storeBook s.bookTable (dequeued b rest) } ∧
        b1 = { b with waitlist := rest } ∧
        s1.transHead = s.transHead ∧ s1.memberHead = s.memberHead) := by
  obtain ⟨s1, a, ha, _, _⟩ := autoAssign_ledger s today b htoday.1 htoday.2.1
  have hcases := autoAssign_cases s s1 today b a ha
  rcases autoAssign_effect s s1 today b a hb ha with
    ⟨hnone, hs1, hc⟩ |
    ⟨id, rest, hav, hwl, hkind, hfb, _, hmem, htr, _⟩ |
    ⟨id, rest, mp, due, hav, hwl, hmp, hlt, _, hassign, hfb, _, _, _, htrans, _⟩
  · refine ⟨s1, a, b, ha, by rw [hs1]; exact hb, Or.inl rfl, Or.inl (by rw [hs1]), ?_, ?_⟩
    · intro p d due hp
      rw [hnone] at hp
      cases hp
    · intro id rest m hav hwl _ _
      exfalso
      rcases hc with hc | hc
      · omega
      · rw [hwl] at hc
        cases hc
  · refine ⟨s1, a, dequeued b rest, ha, hfb, Or.inr ⟨id, hwl⟩, Or.inl htr, ?_, ?_⟩
    · intro p d due hp
      rcases hkind with ⟨hk, _⟩ | ⟨hk, _⟩ <;> rw [hk] at hp <;> cases hp
    · intro id2 rest2 m _ hwl2 hm2 hge
      rw [hwl] at hwl2
      simp only [List.cons.injEq] at hwl2
      obtain ⟨hid, hrest⟩ := hwl2
      subst hid
      subst hrest
      rcases hkind with ⟨_, hnone⟩ | ⟨hk, _⟩
      · rw [hm2] at hnone
        cases hnone
      · refine ⟨hk, ?_, rfl, htr, hmem⟩
        rcases hcases with
          ⟨hn, _, _⟩ | ⟨_, r3, _, hw3, _, _, hs3⟩ | ⟨_, r3, _, _, hw3, _, _, _, hs3⟩ |
          ⟨_, _, _, _, _, _, _, _, _, ha4, _⟩
        · rw [hk] at hn
          cases hn
        · rw [hwl] at hw3
          simp only [List.cons.injEq] at hw3
          rw [hs3, hw3.2]
        · rw [hwl] at hw3
          simp only [List.cons.injEq] at hw3
          rw [hs3, hw3.2]
        · rw [hk] at ha4
          cases ha4
  · refine ⟨s1, a, _, ha, hfb, Or.inr ⟨id, hwl⟩, Or.inr ⟨_, htrans⟩, ?_, ?_⟩
    · intro p d due hp
      rw [hassign] at hp
      simp only [Assign.assigned.injEq] at hp
      rw [← hp.1]
      exact ⟨hwl, rfl, _, htrans⟩
    · intro id2 rest2 m _ hwl2 hm2 hge
      exfalso
      rw [hwl] at hwl2
      simp only [List.cons.injEq] at hwl2
      rw [← hwl2.1, hmp] at hm2
      rw [← Option.some.inj hm2] at hge
      omega

theorem autoAssign_once_witness :
    ∃ s1 a b1,
      autoAssignFromWaitlist queuedState { day := 20, month := 3, year := 5 }
        { id := 7, title := "Title", author := "Author", total_copies := 2,
          available_copies := 2, waitlist := [1, 2] } = some (s1, a) ∧
      findBook s1.bookTable 7 = some (some b1) ∧
      (b1.waitlist = [1, 2] ∨ ∃ id, [1, 2] = id :: b1.waitlist) ∧
      (s1.transHead = queuedState.transHead ∨
        ∃ tnew, s1.transHead = tnew :: queuedState.transHead) ∧
      (∀ p d due, a = Assign.assigned p d due →
        [1, 2] = p :: b1.waitlist ∧
        b1.available_copies = 2 - 1 ∧
        ∃ tnew, s1.transHead = tnew :: queuedState.transHead) ∧
      (∀ id rest m, (0 : Int) < 2 → [1, 2] = id :: rest →
        findMember queuedState.memberHead id = some m →
        m.borrowed_count ≥ maxBooksAllowed m →
        a = Assign.limitReached id ∧
        s1 = { queuedState with
               bookTable := storeBook queuedState.bookTable
                 (dequeued { id := 7, title := "Title", author := "Author",
                             total_copies := 2, available_copies := 2,
                             waitlist := [1, 2] } rest) } ∧
        b1 = { id := 7, title := "Title", author := "Author", total_copies := 2,
               available_copies := 2, waitlist := rest } ∧
        s1.transHead = queuedState.transHead ∧ s1.memberHead = queuedState.memberHead) :=
  autoAssign_once queuedState { day := 20, month := 3, year := 5 }
    { id := 7, title := "Title", author := "Author", total_copies := 2,
      available_copies := 2, waitlist := [1, 2] } (by decide) (by decide)

theorem autoAssign_queuedState :
    autoAssignFromWaitlist queuedState { day := 20, month := 3, year := 5 }
        { id := 7, title := "Title", author := "Author", total_copies := 2,
          available_copies := 2, waitlist := [1, 2] }
      = some ({ queuedState with
                bookTable := (List.replicate 101 ([] : List Book)).set 7
                  [{ id := 7, title := "Title", author := "Author", total_copies := 2,
                     available_copies := 2, waitlist := [2] }] },
              Assign.limitReached 1) := by
  decide

/-! ## C8: the waitlist is first in, first out -/

/-- The queue law: the ids `dequeueWait` has returned, followed by the ids still
in the queue, are the ids the queue started with followed by the ids
`enqueueWait` received, in that order. -/
theorem queueRun_fifo (book : Book) (ops : List (Option Int)) :
    (queueRun book ops).1 ++ (queueRun book ops).2.waitlist
      = book.waitlist ++ ops.filterMap id := by
  induction ops generalizing book with
  | nil => simp [queueRun]
  | cons op ops ih =>
    cases op with
    | some id =>
      simp only [queueRun, List.filterMap_cons, id_eq]
      rw [ih]
      simp [enqueueWait]
    | none =>
      simp only [queueRun, List.filterMap_cons, id_eq]
      cases hw : book.waitlist with
      | nil =>
        simp only [isWaitlistEmpty, hw, List.isEmpty_nil, if_true]
        rw [ih, hw]
      | cons x rest =>
        simp only [isWaitlistEmpty, hw, List.isEmpty_cons, Bool.false_eq_true, if_false]
        have h1 : (dequeueWait book).1 = x := by simp [dequeueWait, hw]
        have h2 : (dequeueWait book).2.waitlist = rest := by simp [dequeueWait, hw]
        rw [List.cons_append, ih, h1, h2]
        simp

/-- A borrow that ends with the member on the waitlist: the member is found
and below the limit, the book has no copy available, and the only change is
the member id behind the rear of the waitlist of the book. -/
theorem borrowBook_waitlisted_inv (s s1 : State) (today : Date) (memberId bookId : Int)
    (b : Book) (hb : findBook s.bookTable bookId = some (some b))
    (h : borrowBook s today memberId bookId = some (s1, Outcome.waitlisted)) :
    Eligible s memberId ∧ b.available_copies ≤ 0 ∧
      findBook s1.bookTable bookId
        = some (some { b with waitlist := b.waitlist ++ [memberId] }) ∧
      s1.memberHead = s.memberHead ∧ s1.transHead = s.transHead := by
  rcases borrowBook_cases s s1 today memberId bookId _ h with
    ⟨_, h1 | h1 | h1⟩ | ⟨due, h1⟩ | ⟨m, b2, _, hm, hb2, hlim, hav, hs⟩
  · cases h1
  · cases h1
  · cases h1
  · cases h1
  · rw [hb] at hb2
    have hbe : b = b2 := Option.some.inj (Option.some.inj hb2)
    subst hbe
    have hbid := findBook_id hb
    have hb1 : findBook s.bookTable (enqueueWait b memberId).id = some (some b) := by
      rw [show (enqueueWait b memberId).id = bookId from hbid]
      exact hb
    refine ⟨⟨m, hm, hlim⟩, hav, ?_, by rw [hs], by rw [hs]⟩
    rw [hs]
    show findBook (storeBook s.bookTable _) bookId = _
    rw [findBook_storeBook _ _ b hb1]
    simp [enqueueWait, hbid]

theorem Eligible_returnUpdate (s : State) (today : Date) (m : Member) (b : Book)
    (t : Transaction) (diff : Int) (q : Int)
    (hm : findMember s.memberHead m.id = some m) (hq : Eligible s q) :
    Eligible (returnUpdate s today m b t diff) q := by
  obtain ⟨mq, hmq, hlt⟩ := hq
  unfold Eligible
  rw [returnUpdate_findMember s today m b t diff hm q]
  by_cases hqm : q = m.id
  · rw [if_pos hqm]
    rw [hqm, hm] at hmq
    have hmm := Option.some.inj hmq
    subst hmm
    by_cases hpos : m.borrowed_count > 0
    · rw [if_pos hpos]
      refine ⟨_, rfl, ?_⟩
      show m.borrowed_count - 1 < maxBooksAllowed m
      omega
    · rw [if_neg hpos]
      exact ⟨_, rfl, hlt⟩
  · rw [if_neg hqm]
    exact ⟨mq, hmq, hlt⟩

/-- One return on a book with no copy left and `p` at the front of its
waitlist, `p` being found and below the limit at promotion time: the return
promotes `p`, the rest of the waitlist stays, no copy is left again, and
every other member eligible at promotion time is eligible afterwards. -/
theorem returnBook_front_at (s s1 : State) (today ta : Date) (r bookId p : Int)
    (rest : List Int) (b : Book) (fine : Int) (a : Assign)
    (hb : findBook s.bookTable bookId = some (some b))
    (hav : b.available_copies = 0) (hw : b.waitlist = p :: rest)
    (hp : EligibleAtPromotion s today r bookId p b)
    (h : returnBook s today ta r bookId = some (s1, Outcome.returned today fine a)) :
    (∃ due, addDays ta MAX_BORROW_DAYS = some due ∧ a = Assign.assigned p ta due) ∧
    (∃ b1, findBook s1.bookTable bookId = some (some b1) ∧ b1.available_copies = 0 ∧
      b1.waitlist = rest) ∧
    (∀ q, q ≠ p → EligibleAtPromotion s today r bookId q b → Eligible s1 q) := by
  rcases returnBook_cases s s1 today ta r bookId _ h with
    ⟨_, h1 | h1 | h1⟩ | ⟨m, b2, t, diff, a2, hm, hb2, ht, hdiff, ha, hout⟩
  · cases h1
  · cases h1
  · cases h1
  · rw [hb] at hb2
    have hbe : b = b2 := Option.some.inj (Option.some.inj hb2)
    subst hbe
    simp only [Outcome.returned.injEq] at hout
    obtain ⟨_, _, hae⟩ := hout
    subst hae
    have hbid := findBook_id hb
    have hb' : findBook s.bookTable b.id = some (some b) := by rw [hbid]; exact hb
    have hub' : findBook (returnUpdate s today m b t diff).bookTable
        ({ b with available_copies := b.available_copies + 1 } : Book).id
        = some (some { b with available_copies := b.available_copies + 1 }) :=
      returnUpdate_findBook s today m b t diff hb'
    obtain ⟨mp0, hmp0, hmp0lt⟩ := hp m t diff hm ht hdiff
    rcases autoAssign_effect _ s1 ta _ a hub' ha with
      ⟨_, _, hc⟩ |
      ⟨id, rest2, _, hwl, hkind, _⟩ |
      ⟨id, rest2, mp, due, _, hwl, hmp, _, hadd, hassign, hfb, _, hfm, hfmo, _, _⟩
    · exfalso
      rcases hc with hc | hc
      · simp only at hc
        omega
      · simp only at hc
        rw [hw] at hc
        cases hc
    · exfalso
      simp only [hw, List.cons.injEq] at hwl
      rw [← hwl.1] at hkind
      rcases hkind with ⟨_, hnone⟩ | ⟨_, mx, hmx, hge⟩
      · rw [hmp0] at hnone
        cases hnone
      · rw [hmp0] at hmx
        rw [← Option.some.inj hmx] at hge
        omega
    · simp only [hw, List.cons.injEq] at hwl
      obtain ⟨hid, hrest⟩ := hwl
      rw [← hid] at hassign hfmo
      refine ⟨⟨due, hadd, hassign⟩, ⟨_, by rw [← hbid]; exact hfb, ?_, ?_⟩, ?_⟩
      · simp only
        omega
      · simp [dequeued, hrest]
      · intro q hqp hq
        obtain ⟨mq, hmq, hlt⟩ := hq m t diff hm ht hdiff
        exact ⟨mq, by rw [hfmo q hqp]; exact hmq, hlt⟩

theorem EligibleAtPromotion_of_Eligible (s : State) (today : Date) (r bookId q : Int)
    (b : Book) (hq : Eligible s q) : EligibleAtPromotion s today r bookId q b := by
  intro m t diff hm _ _
  have hmid := findMember_id hm
  exact Eligible_returnUpdate s today m b t diff q (by rw [hmid]; exact hm) hq

/-- The same step when `p` is eligible already before the return. -/
theorem returnBook_front (s s1 : State) (today ta : Date) (r bookId p : Int)
    (rest : List Int) (b : Book) (fine : Int) (a : Assign)
    (hb : findBook s.bookTable bookId = some (some b))
    (hav : b.available_copies = 0) (hw : b.waitlist = p :: rest) (hp : Eligible s p)
    (h : returnBook s today ta r bookId = some (s1, Outcome.returned today fine a)) :
    (∃ due, addDays ta MAX_BORROW_DAYS = some due ∧ a = Assign.assigned p ta due) ∧
    (∃ b1, findBook s1.bookTable bookId = some (some b1) ∧ b1.available_copies = 0 ∧
      b1.waitlist = rest) ∧
    (∀ q, q ≠ p → Eligible s q → Eligible s1 q) := by
  obtain ⟨h1, h2, h3⟩ := returnBook_front_at s s1 today ta r bookId p rest b fine a hb hav hw
    (EligibleAtPromotion_of_Eligible s today r bookId p b hp) h
  exact ⟨h1, h2, fun q hqp hq =>
    h3 q hqp (EligibleAtPromotion_of_Eligible s today r bookId q b hq)⟩

theorem Eligible_of_memberHead (s s1 : State) (p : Int)
    (h : s1.memberHead = s.memberHead) (hp : Eligible s p) : Eligible s1 p := by
  obtain ⟨m, hm, hlt⟩ := hp
  exact ⟨m, by rw [h]; exact hm, hlt⟩

/-- C8. Waitlist FIFO order. Let book `X` have no copy available and an empty
waitlist, and let three borrows put the distinct members `A`, `B`, `C` on its
waitlist in that order. Then the waitlist is `[A, B, C]`, and three
successive successful returns of `X` (by any members, on any dates `d` read by
`returnBook` and `e` read by the promotion step) promote `A`, then `B`, then
`C`, one per return, after which the waitlist is empty; with nothing but
these returns in between, each of the three is below the limit when their
turn comes. In any state, a successful return of `X` with no copy left
promotes the front entry of the waitlist and leaves the rest queued, provided
that member is found and below the limit at promotion time. More generally
(`queueRun`), over any run of `enqueueWait` and `dequeueWait` calls the ids
dequeued so far followed by the ids still queued are the ids the queue
started with followed by the ids enqueued, in order. -/
theorem waitlist_fifo (s sa sb sc s4 s5 s6 : State) (X A B C : Int) (b : Book)
    (tA tB tC d1 d2 d3 e1 e2 e3 : Date) (r1 r2 r3 : Int) (f1 f2 f3 : Int)
    (a1 a2 a3 : Assign)
    (hb : findBook s.bookTable X = some (some b))
    (hav : b.available_copies = 0) (hw : b.waitlist = [])
    (hAB : A ≠ B) (hAC : A ≠ C) (hBC : B ≠ C)
    (hA : borrowBook s tA A X = some (sa, Outcome.waitlisted))
    (hB : borrowBook sa tB B X = some (sb, Outcome.waitlisted))
    (hC : borrowBook sb tC C X = some (sc, Outcome.waitlisted))
    (h1 : returnBook sc d1 e1 r1 X = some (s4, Outcome.returned d1 f1 a1))
    (h2 : returnBook s4 d2 e2 r2 X = some (s5, Outcome.returned d2 f2 a2))
    (h3 : returnBook s5 d3 e3 r3 X = some (s6, Outcome.returned d3 f3 a3)) :
    (∃ bc, findBook sc.bookTable X = some (some bc) ∧ bc.waitlist = [A, B, C]) ∧
    (∃ due, addDays e1 MAX_BORROW_DAYS = some due ∧ a1 = Assign.assigned A e1 due) ∧
    (∃ b4, findBook s4.bookTable X = some (some b4) ∧ b4.waitlist = [B, C]) ∧
    (∃ due, addDays e2 MAX_BORROW_DAYS = some due ∧ a2 = Assign.assigned B e2 due) ∧
    (∃ b5, findBook s5.bookTable X = some (some b5) ∧ b5.waitlist = [C]) ∧
    (∃ due, addDays e3 MAX_BORROW_DAYS = some due ∧ a3 = Assign.assigned C e3 due) ∧
    (∃ b6, findBook s6.bookTable X = some (some b6) ∧ b6.waitlist = []) ∧
    (∀ (u u1 : State) (d e : Date) (r p : Int) (rest : List Int) (bk : Book) (f : Int)
        (a : Assign),
      findBook u.bookTable X = some (some bk) → bk.available_copies = 0 →
      bk.waitlist = p :: rest → EligibleAtPromotion u d r X p bk →
      returnBook u d e r X = some (u1, Outcome.returned d f a) →
      (∃ due, addDays e MAX_BORROW_DAYS = some due ∧ a = Assign.assigned p e due) ∧
      ∃ b1, findBook u1.bookTable X = some (some b1) ∧ b1.available_copies = 0 ∧
        b1.waitlist = rest) ∧
    ∀ (book : Book) (ops : List (Option Int)),
      (queueRun book ops).1 ++ (queueRun book ops).2.waitlist
        = book.waitlist ++ ops.filterMap id := by
  obtain ⟨eA, _, hba, hma, _⟩ := borrowBook_waitlisted_inv s sa tA A X b hb hA
  obtain ⟨eB, _, hbb, hmb, _⟩ := borrowBook_waitlisted_inv sa sb tB B X _ hba hB
  obtain ⟨eC, _, hbc, hmc, _⟩ := borrowBook_waitlisted_inv sb sc tC C X _ hbb hC
  have eA' : Eligible sc A :=
    Eligible_of_memberHead sb sc A hmc
      (Eligible_of_memberHead sa sb A hmb (Eligible_of_memberHead s sa A hma eA))
  have eB' : Eligible sc B :=
    Eligible_of_memberHead sb sc B hmc (Eligible_of_memberHead sa sb B hmb eB)
  have eC' : Eligible sc C := Eligible_of_memberHead sb sc C hmc eC
  obtain ⟨p1, ⟨b4, hb4, hav4, hw4⟩, k1⟩ :=
    returnBook_front sc s4 d1 e1 r1 X A [B, C] _ f1 a1 hbc hav (by simp [hw]) eA' h1
  obtain ⟨p2, ⟨b5, hb5, hav5, hw5⟩, k2⟩ :=
    returnBook_front s4 s5 d2 e2 r2 X B [C] b4 f2 a2 hb4 hav4 hw4
      (k1 B (fun e => hAB e.symm) eB') h2
  obtain ⟨p3, ⟨b6, hb6, _, hw6⟩, _⟩ :=
    returnBook_front s5 s6 d3 e3 r3 X C [] b5 f3 a3 hb5 hav5 hw5
      (k2 C (fun e => hBC e.symm) (k1 C (fun e => hAC e.symm) eC')) h3
  refine ⟨⟨_, hbc, by simp [hw]⟩, p1, ⟨b4, hb4, hw4⟩, p2, ⟨b5, hb5, hw5⟩, p3, ⟨b6, hb6, hw6⟩,
    ?_, queueRun_fifo⟩
  intro u u1 d e r p rest bk f a hbk hav0 hwl hel hret
  obtain ⟨q1, q2, _⟩ := returnBook_front_at u u1 d e r X p rest bk f a hbk hav0 hwl hel hret
  exact ⟨q1, q2⟩

theorem waitlist_fifo_witness :
    (∃ bc, findBook (fifoState 9).bookTable 7 = some (some bc) ∧ bc.waitlist = [1, 2, 3]) ∧
    (∃ due, addDays { day := 10, month := 3, year := 5 } MAX_BORROW_DAYS = some due ∧
      Assign.assigned 1 { day := 10, month := 3, year := 5 }
          { day := 24, month := 3, year := 5 }
        = Assign.assigned 1 { day := 10, month := 3, year := 5 } due) ∧
    (∃ b4, findBook (fifoState 10).bookTable 7 = some (some b4) ∧ b4.waitlist = [2, 3]) ∧
    (∃ due, addDays { day := 20, month := 3, year := 5 } MAX_BORROW_DAYS = some due ∧
      Assign.assigned 2 { day := 20, month := 3, year := 5 }
          { day := 3, month := 4, year := 5 }
        = Assign.assigned 2 { day := 20, month := 3, year := 5 } due) ∧
    (∃ b5, findBook (fifoState 11).bookTable 7 = some (some b5) ∧ b5.waitlist = [3]) ∧
    (∃ due, addDays { day := 30, month := 3, year := 5 } MAX_BORROW_DAYS = some due ∧
      Assign.assigned 3 { day := 30, month := 3, year := 5 }
          { day := 13, month := 4, year := 5 }
        = Assign.assigned 3 { day := 30, month := 3, year := 5 } due) ∧
    (∃ b6, findBook (fifoState 12).bookTable 7 = some (some b6) ∧ b6.waitlist = []) ∧
    (∀ (u u1 : State) (d e : Date) (r p : Int) (rest : List Int) (bk : Book) (f : Int)
        (a : Assign),
      findBook u.bookTable 7 = some (some bk) → bk.available_copies = 0 →
      bk.waitlist = p :: rest → EligibleAtPromotion u d r 7 p bk →
      returnBook u d e r 7 = some (u1, Outcome.returned d f a) →
      (∃ due, addDays e MAX_BORROW_DAYS = some due ∧ a = Assign.assigned p e due) ∧
      ∃ b1, findBook u1.bookTable 7 = some (some b1) ∧ b1.available_copies = 0 ∧
        b1.waitlist = rest) ∧
    ∀ (book : Book) (ops : List (Option Int)),
      (queueRun book ops).1 ++ (queueRun book ops).2.waitlist
        = book.waitlist ++ ops.filterMap id :=
  waitlist_fifo (fifoState 6) (fifoState 7) (fifoState 8) (fifoState 9) (fifoState 10)
    (fifoState 11) (fifoState 12) 7 1 2 3
    { id := 7, title := "Title", author := "Author", total_copies := 1,
      available_copies := 0, waitlist := [] }
    { day := 2, month := 3, year := 5 } { day := 3, month := 3, year := 5 }
    { day := 4, month := 3, year := 5 } { day := 10, month := 3, year := 5 }
    { day := 20, month := 3, year := 5 } { day := 30, month := 3, year := 5 }
    { day := 10, month := 3, year := 5 } { day := 20, month := 3, year := 5 }
    { day := 30, month := 3, year := 5 } 9 1 2 0 0 0
    (Assign.assigned 1 { day := 10, month := 3, year := 5 }
      { day := 24, month := 3, year := 5 })
    (Assign.assigned 2 { day := 20, month := 3, year := 5 }
      { day := 3, month := 4, year := 5 })
    (Assign.assigned 3 { day := 30, month := 3, year := 5 }
      { day := 13, month := 4, year := 5 })
    (by decide) (by decide) (by decide) (by decide) (by decide) (by decide)
    (by decide) (by decide) (by decide) (by decide) (by decide) (by decide)


/-! ## C11: removing a book -/

theorem hashBookId_range (id : Int) (hid : -2147483648 < id) :
    0 ≤ hashBookId id ∧ hashBookId id < BOOK_TABLE_SIZE := by
  unfold hashBookId BOOK_TABLE_SIZE
  by_cases hneg : id < 0
  · have hw : wrapInt (-id) = -id := by
      unfold wrapInt
      omega
    simp only [hneg, if_true, hw]
    constructor
    · exact Int.tmod_nonneg _ (by omega)
    · exact Int.tmod_lt_of_pos _ (by decide)
  · simp only [hneg, if_false]
    constructor
    · exact Int.tmod_nonneg _ (by omega)
    · exact Int.tmod_lt_of_pos _ (by decide)

/-- The lookup of `findBook` reads inside the table for every id above the
least `int`. -/
theorem findBook_defined (tbl : List (List Book)) (hsize : (tbl.length : Int) = BOOK_TABLE_SIZE)
    (id : Int) (hid : -2147483648 < id) :
    ∃ chain, chainAt tbl (hashBookId id) = some chain ∧
      findBook tbl id = some (chain.find? (fun curr => curr.id == id)) := by
  obtain ⟨h0, h1⟩ := hashBookId_range id hid
  have hlt : (hashBookId id).toNat < tbl.length := by omega
  refine ⟨tbl[(hashBookId id).toNat], ?_, ?_⟩
  · unfold chainAt
    rw [if_pos h0, List.getElem?_eq_getElem hlt]
  · unfold findBook chainAt
    rw [if_pos h0, List.getElem?_eq_getElem hlt]

/-- The node found by `find?` is the one the unlink loop cuts out. -/
theorem unlinkFirst_split {α : Type} (p : α → Bool) (y : α) (l : List α)
    (h : l.find? p = some y) :
    ∃ pre post, l = pre ++ y :: post ∧ (∀ z ∈ pre, p z = false) ∧
      unlinkFirst p l = some (pre ++ post) := by
  induction l with
  | nil => simp at h
  | cons z zs ih =>
    rw [List.find?_cons] at h
    cases hp : p z with
    | true =>
      simp only [hp, Option.some.injEq] at h
      subst h
      exact ⟨[], zs, rfl, by simp, by simp [unlinkFirst, hp]⟩
    | false =>
      simp only [hp] at h
      obtain ⟨pre, post, e1, e2, e3⟩ := ih h
      refine ⟨z :: pre, post, by simp [e1], ?_, by simp [unlinkFirst, hp, e3]⟩
      intro w hw
      rcases List.mem_cons.1 hw with rfl | hw
      · exact hp
      · exact e2 w hw

theorem bookHasActiveTransactions_iff (l : List Transaction) (id : Int) :
    bookHasActiveTransactions l id = true ↔
      ∃ t ∈ l, t.is_returned = false ∧ t.bookId = id := by
  unfold bookHasActiveTransactions
  simp [List.any_eq_true]

theorem bookHasActiveTransactions_false (l : List Transaction) (id : Int) :
    bookHasActiveTransactions l id = false ↔
      ∀ t ∈ l, t.is_returned = false → t.bookId ≠ id := by
  rw [← Bool.not_eq_true, bookHasActiveTransactions_iff]
  constructor
  · intro h t ht hr he
    exact h ⟨t, ht, hr, he⟩
  · rintro h ⟨t, ht, hr, he⟩
    exact h t ht hr he

/-- The four rejections of `removeBook` and its last branch, for a book found
under `id`. -/
theorem removeBook_found (s : State) (id : Int) (b : Book)
    (hf : findBook s.bookTable id = some (some b)) :
    (b.available_copies ≠ b.total_copies →
      removeBook s id = some (s, Outcome.booksOnLoan)) ∧
    (b.available_copies = b.total_copies → b.waitlist ≠ [] →
      removeBook s id = some (s, Outcome.waitlistNotEmpty)) ∧
    (b.available_copies = b.total_copies → b.waitlist = [] →
      bookHasActiveTransactions s.transHead id = true →
      removeBook s id = some (s, Outcome.activeTransactionsExist)) ∧
    (b.available_copies = b.total_copies → b.waitlist = [] →
      bookHasActiveTransactions s.transHead id = false →
      ∃ pre post, chainAt s.bookTable (hashBookId id) = some (pre ++ b :: post) ∧
        (∀ x ∈ pre, x.id ≠ id) ∧
        unlinkFirst (fun curr => curr.id == id) (pre ++ b :: post) = some (pre ++ post) ∧
        removeBook s id
          = some ({ s with bookTable := setChain s.bookTable (hashBookId id) (pre ++ post) },
              Outcome.bookRemoved)) := by
  refine ⟨?_, ?_, ?_, ?_⟩
  · intro h1
    unfold removeBook
    simp only [hf, h1, ne_eq, not_false_eq_true, if_true]
  · intro h1 h2
    have hw : isWaitlistEmpty b = false := by
      unfold isWaitlistEmpty
      cases hb : b.waitlist with
      | nil => exact absurd hb h2
      | cons x xs => rfl
    unfold removeBook
    simp [hf, h1, hw]
  · intro h1 h2 h3
    have hw : isWaitlistEmpty b = true := by
      unfold isWaitlistEmpty
      rw [h2]
      rfl
    unfold removeBook
    simp [hf, h1, hw, h3]
  · intro h1 h2 h3
    have hw : isWaitlistEmpty b = true := by
      unfold isWaitlistEmpty
      rw [h2]
      rfl
    obtain ⟨chain, hc, hfind⟩ := findBook_some hf
    obtain ⟨pre, post, e1, e2, e3⟩ :=
      unlinkFirst_split (fun curr => curr.id == id) b chain hfind
    refine ⟨pre, post, by rw [hc, e1], ?_, by rw [← e1]; exact e3, ?_⟩
    · intro x hx
      simpa using e2 x hx
    · unfold removeBook
      simp [hf, h1, hw, h3, hc, e3]

/-- C11. Book removal, for a table of the shape every reachable state has and
every id above the least `int`: the lookup `findBook` of `id` is defined, and
`removeBook` succeeds exactly when it finds a book whose `available_copies`
equals `total_copies`, whose waitlist is empty and that no active transaction
references. On success exactly the found node is cut out of its chain: `id` is
no longer found, every other id is found as before, members and ledger are
untouched. Otherwise the state is returned as it was, with "not found" when
the lookup gives `NULL`, "copies borrowed" when the counts differ, "waitlist
not empty" when the counts agree and the waitlist is not empty, and "active
transactions exist" when only the ledger test fails. -/
theorem removeBook_contract (s : State) (hwf : TableWF s.bookTable) (id : Int)
    (hid : -2147483648 < id) :
    ∃ r, findBook s.bookTable id = some r ∧
      ((∃ s1, removeBook s id = some (s1, Outcome.bookRemoved)) ↔
        ∃ b, r = some b ∧ b.available_copies = b.total_copies ∧ b.waitlist = [] ∧
          ∀ t ∈ s.transHead, t.is_returned = false → t.bookId ≠ id) ∧
      (∀ s1, removeBook s id = some (s1, Outcome.bookRemoved) →
        (∃ b pre post, r = some b ∧
          chainAt s.bookTable (hashBookId id) = some (pre ++ b :: post) ∧
          (∀ x ∈ pre, x.id ≠ id) ∧
          s1.bookTable = setChain s.bookTable (hashBookId id) (pre ++ post)) ∧
        findBook s1.bookTable id = some none ∧
        (∀ id2, id2 ≠ id → findBook s1.bookTable id2 = findBook s.bookTable id2) ∧
        s1.memberHead = s.memberHead ∧ s1.transHead = s.transHead ∧
        s1.nextTransId = s.nextTransId) ∧
      (r = none → removeBook s id = some (s, Outcome.bookNotFound)) ∧
      (∀ b, r = some b → b.available_copies ≠ b.total_copies →
        removeBook s id = some (s, Outcome.booksOnLoan)) ∧
      (∀ b, r = some b → b.available_copies = b.total_copies → b.waitlist ≠ [] →
        removeBook s id = some (s, Outcome.waitlistNotEmpty)) ∧
      (∀ b, r = some b → b.available_copies = b.total_copies → b.waitlist = [] →
        (∃ t ∈ s.transHead, t.is_returned = false ∧ t.bookId = id) →
        removeBook s id = some (s, Outcome.activeTransactionsExist)) := by
  obtain ⟨chain, hc, hfind⟩ := findBook_defined s.bookTable hwf.size id hid
  refine ⟨_, hfind, ?_⟩
  cases hr : chain.find? (fun curr => curr.id == id) with
  | none =>
    rw [hr] at hfind
    have hres : removeBook s id = some (s, Outcome.bookNotFound) := by
      unfold removeBook
      simp only [hfind]
    refine ⟨⟨?_, ?_⟩, ?_, fun _ => hres, ?_, ?_, ?_⟩
    · rintro ⟨s1, h1⟩
      rw [hres] at h1
      simp at h1
    · rintro ⟨b, hb, _⟩
      cases hb
    · intro s1 h1
      rw [hres] at h1
      simp at h1
    · intro b hb
      cases hb
    · intro b hb
      cases hb
    · intro b hb
      cases hb
  | some b =>
    rw [hr] at hfind
    obtain ⟨hloan, hwait, hact, hok⟩ := removeBook_found s id b hfind
    have hsucc : ∀ s1, removeBook s id = some (s1, Outcome.bookRemoved) →
        b.available_copies = b.total_copies ∧ b.waitlist = [] ∧
          bookHasActiveTransactions s.transHead id = false := by
      intro s1 h1
      by_cases e1 : b.available_copies = b.total_copies
      · by_cases e2 : b.waitlist = []
        · cases e3 : bookHasActiveTransactions s.transHead id with
          | false => exact ⟨e1, e2, rfl⟩
          | true =>
            rw [hact e1 e2 e3] at h1
            simp at h1
        · rw [hwait e1 e2] at h1
          simp at h1
      · rw [hloan e1] at h1
        simp at h1
    refine ⟨⟨?_, ?_⟩, ?_, ?_, ?_, ?_, ?_⟩
    · rintro ⟨s1, h1⟩
      obtain ⟨e1, e2, e3⟩ := hsucc s1 h1
      exact ⟨b, rfl, e1, e2, (bookHasActiveTransactions_false _ _).1 e3⟩
    · rintro ⟨b1, hb1, e1, e2, e3⟩
      cases hb1
      obtain ⟨pre, post, _, _, _, hrem⟩ :=
        hok e1 e2 ((bookHasActiveTransactions_false _ _).2 e3)
      exact ⟨_, hrem⟩
    · intro s1 h1
      obtain ⟨e1, e2, e3⟩ := hsucc s1 h1
      obtain ⟨pre, post, hch, hpre, hu, hrem⟩ := hok e1 e2 e3
      rw [hrem] at h1
      simp only [Option.some.injEq, Prod.mk.injEq, and_true] at h1
      subst h1
      refine ⟨⟨b, pre, post, rfl, hch, hpre, rfl⟩, ?_, ?_, rfl, rfl, rfl⟩
      · exact findBook_unlink_same s.bookTable hwf id _ _ hch hu
      · intro id2 hne
        exact findBook_unlink s.bookTable id _ _ hch hu id2 hne
    · intro hb
      cases hb
    · intro b1 hb1
      cases hb1
      exact hloan
    · intro b1 hb1
      cases hb1
      exact hwait
    · intro b1 hb1 e1 e2 e3
      cases hb1
      exact hact e1 e2 ((bookHasActiveTransactions_iff _ _).2 e3)

theorem run_readyState : run initialState (sessionCommands.take 3) = some readyState := by
  decide

theorem Reachable_readyState : Reachable readyState :=
  Reachable_run initialState readyState (sessionCommands.take 3) Reachable.init run_readyState

theorem removeBook_contract_witness :
    TableWF readyState.bookTable ∧ TableWF sessionState.bookTable ∧
    (-2147483648 : Int) < 7 ∧ (-2147483648 : Int) < 8 ∧
    (∃ s1, removeBook readyState 7 = some (s1, Outcome.bookRemoved) ∧
      findBook s1.bookTable 7 = some none ∧
      (∀ id2, id2 ≠ 7 → findBook s1.bookTable id2 = findBook readyState.bookTable id2) ∧
      s1.memberHead = readyState.memberHead ∧ s1.transHead = readyState.transHead) ∧
    removeBook readyState 8 = some (readyState, Outcome.bookNotFound) ∧
    removeBook sessionState 7 = some (sessionState, Outcome.booksOnLoan) := by
  have hw1 := (Inv_of_Reachable readyState Reachable_readyState).table
  have hw2 := (Inv_of_Reachable sessionState Reachable_sessionState).table
  refine ⟨hw1, hw2, by decide, by decide, ?_, ?_, ?_⟩
  · obtain ⟨r, hr, hiff, hsucc, _⟩ := removeBook_contract readyState hw1 7 (by decide)
    have hb : findBook readyState.bookTable 7
        = some (some { id := 7, title := "Title", author := "Author", total_copies := 1,
                       available_copies := 1, waitlist := [] }) := by decide
    rw [hb] at hr
    simp only [Option.some.injEq] at hr
    obtain ⟨s1, h1⟩ := hiff.2 ⟨_, hr.symm, by decide, by decide, by decide⟩
    obtain ⟨_, h2, h3, h4, h5, _⟩ := hsucc s1 h1
    exact ⟨s1, h1, h2, h3, h4, h5⟩
  · obtain ⟨r, hr, _, _, hnone, _⟩ := removeBook_contract readyState hw1 8 (by decide)
    have hb : findBook readyState.bookTable 8 = some none := by decide
    rw [hb] at hr
    simp only [Option.some.injEq] at hr
    exact hnone hr.symm
  · obtain ⟨r, hr, _, _, _, hloan, _⟩ := removeBook_contract sessionState hw2 7 (by decide)
    have hb : findBook sessionState.bookTable 7
        = some (some { id := 7, title := "Title", author := "Author", total_copies := 1,
                       available_copies := 0, waitlist := [2] }) := by decide
    rw [hb] at hr
    simp only [Option.some.injEq] at hr
    exact hloan _ hr.symm (by decide)

/-! ## Waitlists reference registered members -/

theorem mem_storeBook (tbl : List (List Book)) (b1 : Book) (chain : List Book)
    (hc : chain ∈ storeBook tbl b1) (x : Book) (hx : x ∈ chain) :
    x = b1 ∨ ∃ chain0 ∈ tbl, x ∈ chain0 := by
  unfold storeBook at hc
  split at hc
  · exact Or.inr ⟨chain, hc, hx⟩
  · rename_i chain0 hc0
    unfold setChain at hc
    rcases List.mem_or_eq_of_mem_set hc with hc | hc
    · exact Or.inr ⟨chain, hc, hx⟩
    · rw [hc] at hx
      rcases mem_replaceFirst _ _ _ _ hx with h | h
      · exact Or.inl h
      · exact Or.inr ⟨chain0, chainAt_mem hc0, h⟩

theorem findMember_ids {l : List Member} {id : Int} {m : Member}
    (h : findMember l id = some m) : id ∈ l.map (fun m => m.id) := by
  have h1 := findMember_id h
  have h2 := findMember_mem h
  exact List.mem_map.2 ⟨m, h2, h1⟩

theorem findMember_of_ids {l : List Member} {id : Int}
    (h : id ∈ l.map (fun m => m.id)) : ∃ m, findMember l id = some m := by
  obtain ⟨m0, hm0, hid⟩ := List.mem_map.1 h
  unfold findMember
  cases hf : l.find? (fun curr => curr.id == id) with
  | some m => exact ⟨m, rfl⟩
  | none =>
    have := List.find?_eq_none.1 hf m0 hm0
    simp [hid] at this

theorem WaitInv_storeBook (tbl : List (List Book)) (mh : List Member) (b1 : Book)
    (h : WaitInv tbl mh) (hb1 : ∀ w ∈ b1.waitlist, w ∈ mh.map (fun m => m.id)) :
    WaitInv (storeBook tbl b1) mh := by
  intro chain hc x hx w hw
  rcases mem_storeBook tbl b1 chain hc x hx with rfl | ⟨chain0, hc0, hx0⟩
  · exact hb1 w hw
  · exact h chain0 hc0 x hx0 w hw

theorem WaitInv_members (tbl : List (List Book)) (mh mh1 : List Member)
    (h : WaitInv tbl mh)
    (hids : ∀ w ∈ mh.map (fun m => m.id), w ∈ mh1.map (fun m => m.id)) :
    WaitInv tbl mh1 :=
  fun chain hc x hx w hw => hids w (h chain hc x hx w hw)

theorem WaitInv_storeMember (tbl : List (List Book)) (mh : List Member) (m1 : Member)
    (h : WaitInv tbl mh) : WaitInv tbl (storeMember mh m1) := by
  apply WaitInv_members tbl mh _ h
  intro w hw
  rw [storeMember_ids]
  exact hw

theorem WaitInv_found {tbl : List (List Book)} {mh : List Member} {id : Int} {b : Book}
    (h : WaitInv tbl mh) (hb : findBook tbl id = some (some b)) :
    ∀ w ∈ b.waitlist, w ∈ mh.map (fun m => m.id) := by
  obtain ⟨chain, hc, hx⟩ := findBook_mem hb
  exact h chain hc b hx

theorem memberInAnyWaitlist_iff (tbl : List (List Book)) (id : Int) :
    memberInAnyWaitlist tbl id = true ↔ ∃ chain ∈ tbl, ∃ b ∈ chain, id ∈ b.waitlist := by
  unfold memberInAnyWaitlist
  simp [List.any_eq_true]

theorem memberInAnyWaitlist_false (tbl : List (List Book)) (id : Int) :
    memberInAnyWaitlist tbl id = false ↔ ∀ chain ∈ tbl, ∀ b ∈ chain, id ∉ b.waitlist := by
  rw [← Bool.not_eq_true, memberInAnyWaitlist_iff]
  constructor
  · intro h chain hc b hb hw
    exact h ⟨chain, hc, b, hb, hw⟩
  · rintro h ⟨chain, hc, b, hb, hw⟩
    exact h chain hc b hb hw

theorem WaitInv_initialState : WaitInv initialState.bookTable initialState.memberHead := by
  intro chain hc b hb
  have : chain = [] := List.eq_of_mem_replicate hc
  rw [this] at hb
  cases hb

theorem WaitInv_registerMember (s : State) (id : Int) (name : String) (type : Int)
    (h : WaitInv s.bookTable s.memberHead) :
    WaitInv (registerMember s id name type).1.bookTable
      (registerMember s id name type).1.memberHead := by
  unfold registerMember
  split
  · exact h
  · apply WaitInv_members _ _ _ h
    intro w hw
    simp only [List.map_cons, List.mem_cons]
    exact Or.inr hw

theorem WaitInv_deleteMember (s : State) (id : Int)
    (h : WaitInv s.bookTable s.memberHead) :
    WaitInv (deleteMember s id).1.bookTable (deleteMember s id).1.memberHead := by
  unfold deleteMember
  split
  · exact h
  · rename_i hact
    cases hw : memberInAnyWaitlist s.bookTable id with
    | true => simpa using h
    | false =>
      simp only [Bool.false_eq_true, if_false]
      cases hu : unlinkFirst (fun (curr : Member) => curr.id == id) s.memberHead with
      | none => exact h
      | some rest =>
        simp only
        intro chain hc b hb w hwl
        have hne : w ≠ id := by
          intro e
          rw [e] at hwl
          exact (memberInAnyWaitlist_false _ _).1 hw chain hc b hb hwl
        obtain ⟨m, hm, hid⟩ := List.mem_map.1 (h chain hc b hb w hwl)
        rw [unlinkFirst_eq] at hu
        split at hu
        · simp only [Option.some.injEq] at hu
          subst hu
          refine List.mem_map.2 ⟨m, ?_, hid⟩
          rw [List.mem_eraseP_of_neg]
          · exact hm
          · simp only [beq_iff_eq]
            rw [hid]
            exact hne
        · simp at hu

theorem WaitInv_addBook (s s1 : State) (id : Int) (title author : String) (tc : Int)
    (out : Outcome) (h : WaitInv s.bookTable s.memberHead)
    (he : addBook s id title author tc = some (s1, out)) :
    WaitInv s1.bookTable s1.memberHead := by
  unfold addBook at he
  cases hf : findBook s.bookTable id with
  | none => simp [hf] at he
  | some r =>
    cases r with
    | some b0 =>
      simp only [hf, Option.some.injEq, Prod.mk.injEq] at he
      rw [← he.1]
      exact h
    | none =>
      simp only [hf] at he
      cases hc : chainAt s.bookTable (hashBookId id) with
      | none => simp [hc] at he
      | some chain =>
        simp only [hc, Option.some.injEq, Prod.mk.injEq] at he
        obtain ⟨he, _⟩ := he
        subst he
        intro chain1 hc1 b hb w hw
        simp only at hc1
        unfold setChain at hc1
        rcases List.mem_or_eq_of_mem_set hc1 with hc1 | hc1
        · exact h chain1 hc1 b hb w hw
        · rw [hc1] at hb
          rcases List.mem_cons.1 hb with hb | hb
          · rw [hb] at hw
            cases hw
          · exact h chain (chainAt_mem hc) b hb w hw

theorem WaitInv_removeBook (s s1 : State) (id : Int) (out : Outcome)
    (h : WaitInv s.bookTable s.memberHead) (he : removeBook s id = some (s1, out)) :
    WaitInv s1.bookTable s1.memberHead := by
  unfold removeBook at he
  cases hf : findBook s.bookTable id with
  | none => simp [hf] at he
  | some r =>
    cases r with
    | none =>
      simp only [hf, Option.some.injEq, Prod.mk.injEq] at he
      rw [← he.1]
      exact h
    | some b =>
      simp only [hf] at he
      split at he
      · simp only [Option.some.injEq, Prod.mk.injEq] at he
        rw [← he.1]
        exact h
      · split at he
        · simp only [Option.some.injEq, Prod.mk.injEq] at he
          rw [← he.1]
          exact h
        · split at he
          · simp only [Option.some.injEq, Prod.mk.injEq] at he
            rw [← he.1]
            exact h
          · obtain ⟨chain, hc, _⟩ := findBook_some hf
            simp only [hc] at he
            cases hu : unlinkFirst (fun (curr : Book) => curr.id == id) chain with
            | none =>
              simp only [hu, Option.some.injEq, Prod.mk.injEq] at he
              rw [← he.1]
              exact h
            | some chain1 =>
              simp only [hu, Option.some.injEq, Prod.mk.injEq] at he
              obtain ⟨he, _⟩ := he
              subst he
              intro chain2 hc2 b2 hb2 w hw
              simp only at hc2
              unfold setChain at hc2
              rcases List.mem_or_eq_of_mem_set hc2 with hc2 | hc2
              · exact h chain2 hc2 b2 hb2 w hw
              · rw [hc2] at hb2
                exact h chain (chainAt_mem hc) b2
                  ((unlinkFirst_sublist _ _ _ hu).subset hb2) w hw

theorem WaitInv_borrowBook (s s1 : State) (today : Date) (memberId bookId : Int)
    (out : Outcome) (h : WaitInv s.bookTable s.memberHead)
    (he : borrowBook s today memberId bookId = some (s1, out)) :
    WaitInv s1.bookTable s1.memberHead := by
  rcases borrowBook_cases s s1 today memberId bookId out he with
    ⟨e, _⟩ | ⟨due, hout⟩ | ⟨m, b, _, hm, hb, _, _, e⟩
  · rw [e]
    exact h
  · rw [hout] at he
    obtain ⟨m, b, hm, hb, _, _, _, _, e⟩ :=
      borrowBook_issued_inv s s1 today today due memberId bookId he
    rw [e]
    unfold addTransaction
    simp only
    apply WaitInv_storeMember
    apply WaitInv_storeBook _ _ _ h
    intro w hw
    exact WaitInv_found h hb w hw
  · rw [e]
    simp only
    apply WaitInv_storeBook _ _ _ h
    intro w hw
    unfold enqueueWait at hw
    simp only [List.mem_append, List.mem_singleton] at hw
    rcases hw with hw | hw
    · exact WaitInv_found h hb w hw
    · rw [hw]
      exact findMember_ids hm

theorem WaitInv_returnUpdate (s : State) (today : Date) (m : Member) (b : Book)
    (t : Transaction) (diff : Int) (bookId : Int)
    (h : WaitInv s.bookTable s.memberHead)
    (hb : findBook s.bookTable bookId = some (some b)) :
    WaitInv (returnUpdate s today m b t diff).bookTable
      (returnUpdate s today m b t diff).memberHead := by
  unfold returnUpdate
  simp only
  apply WaitInv_storeMember
  apply WaitInv_storeBook _ _ _ h
  intro w hw
  exact WaitInv_found h hb w hw

theorem WaitInv_autoAssign (s s1 : State) (today : Date) (b : Book) (a : Assign)
    (h : WaitInv s.bookTable s.memberHead)
    (hb : ∀ w ∈ b.waitlist, w ∈ s.memberHead.map (fun m => m.id))
    (he : autoAssignFromWaitlist s today b = some (s1, a)) :
    WaitInv s1.bookTable s1.memberHead := by
  rcases autoAssign_cases s s1 today b a he with
    ⟨_, e, _⟩ | ⟨id, rest, _, hw, _, _, e⟩ | ⟨id, rest, m, _, hw, _, _, _, e⟩ |
    ⟨id, rest, m, due, _, hw, _, _, _, _, e⟩
  · rw [e]
    exact h
  · rw [e]
    apply WaitInv_storeBook _ _ _ h
    intro w hw1
    exact hb w (by rw [hw]; exact List.mem_cons_of_mem _ hw1)
  · rw [e]
    apply WaitInv_storeBook _ _ _ h
    intro w hw1
    exact hb w (by rw [hw]; exact List.mem_cons_of_mem _ hw1)
  · rw [e]
    unfold addTransaction
    simp only
    apply WaitInv_storeMember
    apply WaitInv_storeBook
    · apply WaitInv_storeBook _ _ _ h
      intro w hw1
      exact hb w (by rw [hw]; exact List.mem_cons_of_mem _ hw1)
    · intro w hw1
      exact hb w (by rw [hw]; exact List.mem_cons_of_mem _ hw1)

theorem WaitInv_returnBook (s s1 : State) (today ta : Date) (memberId bookId : Int)
    (out : Outcome) (h : WaitInv s.bookTable s.memberHead)
    (he : returnBook s today ta memberId bookId = some (s1, out)) :
    WaitInv s1.bookTable s1.memberHead := by
  rcases returnBook_cases s s1 today ta memberId bookId out he with
    ⟨e, _⟩ | ⟨m, b, t, diff, a, hm, hb, _, _, hauto, _⟩
  · rw [e]
    exact h
  · apply WaitInv_autoAssign _ _ ta _ a (WaitInv_returnUpdate s today m b t diff bookId h hb) ?_
      hauto
    intro w hw
    have h1 := WaitInv_found h hb w hw
    unfold returnUpdate
    simp only
    rw [storeMember_ids]
    exact h1

theorem WaitInv_exec (s s1 : State) (c : Command) (out : Outcome)
    (h : WaitInv s.bookTable s.memberHead) (he : exec s c = some (s1, out)) :
    WaitInv s1.bookTable s1.memberHead := by
  cases c with
  | addBook id title author total_copies => exact WaitInv_addBook s s1 _ _ _ _ out h he
  | removeBook id => exact WaitInv_removeBook s s1 id out h he
  | registerMember id name type =>
    simp only [exec, Option.some.injEq] at he
    have := WaitInv_registerMember s id name type h
    rw [he] at this
    exact this
  | deleteMember id =>
    simp only [exec, Option.some.injEq] at he
    have := WaitInv_deleteMember s id h
    rw [he] at this
    exact this
  | borrowBook today memberId bookId => exact WaitInv_borrowBook s s1 _ _ _ out h he
  | returnBook today ta memberId bookId => exact WaitInv_returnBook s s1 _ _ _ _ out h he

theorem WaitInv_of_ReachableWithAssign (s : State) (h : ReachableWithAssign s) :
    WaitInv s.bookTable s.memberHead := by
  induction h with
  | init => exact WaitInv_initialState
  | step c _ hexec ih => exact WaitInv_exec _ _ c _ ih hexec
  | assign today b _ hb ha ih => exact WaitInv_autoAssign _ _ today b _ ih (WaitInv_found ih hb) ha

theorem WaitInv_of_Reachable (s : State) (h : Reachable s) :
    WaitInv s.bookTable s.memberHead :=
  WaitInv_of_ReachableWithAssign s (ReachableWithAssign_of_Reachable s h)


/-! ## C12: deleting a member -/

theorem memberHasActiveBorrows_iff (l : List Transaction) (id : Int) :
    memberHasActiveBorrows l id = true ↔
      ∃ t ∈ l, t.is_returned = false ∧ t.memberId = id := by
  unfold memberHasActiveBorrows
  simp [List.any_eq_true]

theorem memberHasActiveBorrows_false (l : List Transaction) (id : Int) :
    memberHasActiveBorrows l id = false ↔
      ∀ t ∈ l, t.is_returned = false → t.memberId ≠ id := by
  rw [← Bool.not_eq_true, memberHasActiveBorrows_iff]
  constructor
  · intro h t ht hr he
    exact h ⟨t, ht, hr, he⟩
  · rintro h ⟨t, ht, hr, he⟩
    exact h t ht hr he

theorem findMember_none_iff (l : List Member) (id : Int) :
    findMember l id = none ↔ ∀ m ∈ l, m.id ≠ id := by
  unfold findMember
  simp [List.find?_eq_none]

/-- The three rejections of `deleteMember` and its last branch, in the order of
the source. -/
theorem deleteMember_branches (s : State) (id : Int) :
    (memberHasActiveBorrows s.transHead id = true →
      deleteMember s id = (s, Outcome.hasActiveBorrows)) ∧
    (memberHasActiveBorrows s.transHead id = false →
      memberInAnyWaitlist s.bookTable id = true →
      deleteMember s id = (s, Outcome.inWaitlist)) ∧
    (memberHasActiveBorrows s.transHead id = false →
      memberInAnyWaitlist s.bookTable id = false →
      findMember s.memberHead id = none →
      deleteMember s id = (s, Outcome.memberNotFound)) ∧
    (∀ m, memberHasActiveBorrows s.transHead id = false →
      memberInAnyWaitlist s.bookTable id = false →
      findMember s.memberHead id = some m →
      ∃ pre post, s.memberHead = pre ++ m :: post ∧ (∀ x ∈ pre, x.id ≠ id) ∧
        deleteMember s id = ({ s with memberHead := pre ++ post }, Outcome.memberDeleted)) := by
  refine ⟨?_, ?_, ?_, ?_⟩
  · intro h1
    unfold deleteMember
    simp [h1]
  · intro h1 h2
    unfold deleteMember
    simp [h1, h2]
  · intro h1 h2 h3
    have hu : unlinkFirst (fun (curr : Member) => curr.id == id) s.memberHead = none :=
      (unlinkFirst_none _ _).2 h3
    unfold deleteMember
    simp [h1, h2, hu]
  · intro m h1 h2 h3
    obtain ⟨pre, post, e1, e2, e3⟩ :=
      unlinkFirst_split (fun (curr : Member) => curr.id == id) m s.memberHead h3
    refine ⟨pre, post, e1, ?_, ?_⟩
    · intro x hx
      simpa using e2 x hx
    · unfold deleteMember
      simp [h1, h2, e3]

/-- C12. Member deletion in a reachable state. `deleteMember` answers "member
not found" when no member of the list has the id; "active borrowed books" when
an active transaction of the ledger carries the id; "in a waitlist" when no
active transaction carries it and the id is in the waitlist of some book;
otherwise it cuts exactly the node of that member out of the list, after which
no member has the id and all other nodes are as before. In every case other than
the deletion the state (members, table, ledger) is returned as it was, and the
deletion leaves table and ledger as they were. -/
theorem deleteMember_contract (s : State) (hs : Reachable s) (id : Int) :
    ((∀ m ∈ s.memberHead, m.id ≠ id) → deleteMember s id = (s, Outcome.memberNotFound)) ∧
    ((∃ t ∈ s.transHead, t.is_returned = false ∧ t.memberId = id) →
      deleteMember s id = (s, Outcome.hasActiveBorrows)) ∧
    ((∀ t ∈ s.transHead, t.is_returned = false → t.memberId ≠ id) →
      (∃ chain ∈ s.bookTable, ∃ b ∈ chain, id ∈ b.waitlist) →
      deleteMember s id = (s, Outcome.inWaitlist)) ∧
    (∀ m ∈ s.memberHead, m.id = id →
      (∀ t ∈ s.transHead, t.is_returned = false → t.memberId ≠ id) →
      (∀ chain ∈ s.bookTable, ∀ b ∈ chain, id ∉ b.waitlist) →
      ∃ pre post, s.memberHead = pre ++ m :: post ∧
        deleteMember s id = ({ s with memberHead := pre ++ post }, Outcome.memberDeleted) ∧
        (∀ x ∈ pre ++ post, x.id ≠ id)) ∧
    (∀ s1 out, deleteMember s id = (s1, out) → out ≠ Outcome.memberDeleted → s1 = s) := by
  have hinv := Inv_of_Reachable s hs
  have hwait := WaitInv_of_Reachable s hs
  obtain ⟨b1, b2, b3, b4⟩ := deleteMember_branches s id
  refine ⟨?_, ?_, ?_, ?_, ?_⟩
  · intro hno
    have hnone := (findMember_none_iff _ _).2 hno
    apply b3 _ _ hnone
    · rw [memberHasActiveBorrows_false]
      intro t ht hr he
      obtain ⟨_, m, hm⟩ := hinv.refs t ht hr
      rw [he, hnone] at hm
      cases hm
    · rw [memberInAnyWaitlist_false]
      intro chain hc b hb hw
      obtain ⟨m, hm⟩ := findMember_of_ids (hwait chain hc b hb id hw)
      rw [hnone] at hm
      cases hm
  · intro h
    exact b1 ((memberHasActiveBorrows_iff _ _).2 h)
  · intro h1 h2
    exact b2 ((memberHasActiveBorrows_false _ _).2 h1) ((memberInAnyWaitlist_iff _ _).2 h2)
  · intro m hm hid h1 h2
    have hfm : findMember s.memberHead id = some m := by
      rw [← hid]
      exact findMember_of_mem _ m hinv.members hm
    obtain ⟨pre, post, e1, e2, e3⟩ :=
      b4 m ((memberHasActiveBorrows_false _ _).2 h1) ((memberInAnyWaitlist_false _ _).2 h2) hfm
    refine ⟨pre, post, e1, e3, ?_⟩
    have hnd := hinv.members
    rw [e1, List.map_append, List.map_cons] at hnd
    have hnd1 := List.nodup_middle.1 hnd
    rw [List.nodup_cons, ← List.map_append] at hnd1
    intro x hx he
    apply hnd1.1
    rw [hid, ← he]
    exact List.mem_map.2 ⟨x, hx, rfl⟩
  · intro s1 out h hout
    cases ha : memberHasActiveBorrows s.transHead id with
    | true =>
      rw [b1 ha] at h
      simp only [Prod.mk.injEq] at h
      exact h.1.symm
    | false =>
      cases hw : memberInAnyWaitlist s.bookTable id with
      | true =>
        rw [b2 ha hw] at h
        simp only [Prod.mk.injEq] at h
        exact h.1.symm
      | false =>
        cases hf : findMember s.memberHead id with
        | none =>
          rw [b3 ha hw hf] at h
          simp only [Prod.mk.injEq] at h
          exact h.1.symm
        | some m =>
          obtain ⟨pre, post, _, _, e3⟩ := b4 m ha hw hf
          rw [e3] at h
          simp only [Prod.mk.injEq] at h
          exact absurd h.2.symm hout

/-- A member with an active loan who is also on a waitlist: the test of the
ledger comes first, so the answer is "active borrowed books". -/
theorem deleteMember_selfWaitState :
    memberInAnyWaitlist selfWaitState.bookTable 1 = true ∧
    deleteMember selfWaitState 1 = (selfWaitState, Outcome.hasActiveBorrows) := by
  decide

theorem deleteMember_contract_witness :
    Reachable sessionState ∧ Reachable readyState ∧
    deleteMember sessionState 5 = (sessionState, Outcome.memberNotFound) ∧
    deleteMember sessionState 1 = (sessionState, Outcome.hasActiveBorrows) ∧
    deleteMember sessionState 2 = (sessionState, Outcome.inWaitlist) ∧
    (∃ pre post,
      readyState.memberHead
        = pre ++ { id := 2, name := "Bob", type := 1, borrowed_count := 0 } :: post ∧
      deleteMember readyState 2
        = ({ readyState with memberHead := pre ++ post }, Outcome.memberDeleted) ∧
      (∀ x ∈ pre ++ post, x.id ≠ 2)) :=
  ⟨Reachable_sessionState, Reachable_readyState,
   (deleteMember_contract sessionState Reachable_sessionState 5).1 (by decide),
   (deleteMember_contract sessionState Reachable_sessionState 1).2.1 (by decide),
   (deleteMember_contract sessionState Reachable_sessionState 2).2.2.1 (by decide) (by decide),
   (deleteMember_contract readyState Reachable_readyState 2).2.2.2.1 _ (by decide) (by decide)
     (by decide) (by decide)⟩


/-! ## C13: the failures of borrow and return -/

theorem findActiveTransaction_none_iff (l : List Transaction) (bookId memberId : Int) :
    findActiveTransaction l bookId memberId = none ↔
      ∀ t ∈ l, t.is_returned = false → t.bookId = bookId → t.memberId ≠ memberId := by
  unfold findActiveTransaction isActiveFor
  simp [List.find?_eq_none]

/-- In a well-formed table the lookup of an id (above the least `int`) that no
book of the table carries gives `NULL`. -/
theorem findBook_absent (tbl : List (List Book)) (hsize : (tbl.length : Int) = BOOK_TABLE_SIZE)
    (id : Int) (hid : -2147483648 < id) (habs : ∀ chain ∈ tbl, ∀ b ∈ chain, b.id ≠ id) :
    findBook tbl id = some none := by
  obtain ⟨chain, hc, hf⟩ := findBook_defined tbl hsize id hid
  rw [hf]
  cases hr : chain.find? (fun curr => curr.id == id) with
  | none => rfl
  | some b =>
    have h1 := List.find?_some hr
    have h2 := List.mem_of_find?_eq_some hr
    exact absurd (by simpa using h1) (habs chain (chainAt_mem hc) b h2)

/-- C13. The failures of the engine leave the state as it was. `borrowBook` and
`returnBook` answer "member not found" when no member has `memberId` and "book
not found" when the member exists and the lookup of `bookId` gives `NULL` (as it
does when no book of a well-formed table has the id); `borrowBook` answers
"borrow limit reached" when member and book exist and
`borrowed_count ≥ maxBooksAllowed`, whatever `available_copies` is;
`returnBook` answers "no active transaction" when member and book exist and no
active transaction of the ledger has the pair. In each of these cases, and
whenever one of these answers is given, the state returned is the state
itself: every book, waitlist, member and transaction is as before. -/
theorem engine_failures_atomic (s : State) (today ta : Date) (memberId bookId : Int) :
    ((∀ m ∈ s.memberHead, m.id ≠ memberId) →
      borrowBook s today memberId bookId = some (s, Outcome.memberNotFound) ∧
      returnBook s today ta memberId bookId = some (s, Outcome.memberNotFound)) ∧
    (∀ m, findMember s.memberHead memberId = some m →
      findBook s.bookTable bookId = some none →
      borrowBook s today memberId bookId = some (s, Outcome.bookNotFound) ∧
      returnBook s today ta memberId bookId = some (s, Outcome.bookNotFound)) ∧
    (TableWF s.bookTable → -2147483648 < bookId →
      (∀ chain ∈ s.bookTable, ∀ b ∈ chain, b.id ≠ bookId) →
      findBook s.bookTable bookId = some none) ∧
    (∀ m b, findMember s.memberHead memberId = some m →
      findBook s.bookTable bookId = some (some b) →
      m.borrowed_count ≥ maxBooksAllowed m →
      borrowBook s today memberId bookId = some (s, Outcome.borrowLimitReached)) ∧
    (∀ m b, findMember s.memberHead memberId = some m →
      findBook s.bookTable bookId = some (some b) →
      (∀ t ∈ s.transHead, t.is_returned = false → t.bookId = bookId →
        t.memberId ≠ memberId) →
      returnBook s today ta memberId bookId = some (s, Outcome.noActiveTransaction)) ∧
    (∀ s1 out, borrowBook s today memberId bookId = some (s1, out) →
      out = Outcome.memberNotFound ∨ out = Outcome.bookNotFound ∨
        out = Outcome.borrowLimitReached → s1 = s) ∧
    (∀ s1 out, returnBook s today ta memberId bookId = some (s1, out) →
      out = Outcome.memberNotFound ∨ out = Outcome.bookNotFound ∨
        out = Outcome.noActiveTransaction → s1 = s) := by
  refine ⟨?_, ?_, ?_, ?_, ?_, ?_, ?_⟩
  · intro hno
    have hnone := (findMember_none_iff _ _).2 hno
    constructor
    · unfold borrowBook
      simp only [hnone]
    · unfold returnBook
      simp only [hnone]
  · intro m hm hb
    constructor
    · unfold borrowBook
      simp only [hm, hb]
    · unfold returnBook
      simp only [hm, hb]
  · intro hwf hid habs
    exact findBook_absent s.bookTable hwf.size bookId hid habs
  · intro m b hm hb hlim
    unfold borrowBook
    simp only [hm, hb, hlim, if_true]
  · intro m b hm hb hno
    have hnone := (findActiveTransaction_none_iff _ _ _).2 hno
    unfold returnBook
    simp only [hm, hb, hnone]
  · intro s1 out h hout
    rcases borrowBook_cases s s1 today memberId bookId out h with
      ⟨e, _⟩ | ⟨due, e⟩ | ⟨m, b, e, _⟩
    · exact e
    · rw [e] at hout
      simp at hout
    · rw [e] at hout
      simp at hout
  · intro s1 out h hout
    rcases returnBook_cases s s1 today ta memberId bookId out h with
      ⟨e, _⟩ | ⟨m, b, t, diff, a, _, _, _, _, _, e⟩
    · exact e
    · rw [e] at hout
      simp at hout

theorem engine_failures_atomic_witness :
    ((∀ m ∈ sessionState.memberHead, m.id ≠ 5) ∧
      borrowBook sessionState ⟨20, 3, 5⟩ 5 7 = some (sessionState, Outcome.memberNotFound) ∧
      returnBook sessionState ⟨20, 3, 5⟩ ⟨20, 3, 5⟩ 5 7
        = some (sessionState, Outcome.memberNotFound)) ∧
    (findMember sessionState.memberHead 1
        = some { id := 1, name := "Ann", type := 1, borrowed_count := 1 } ∧
      findBook sessionState.bookTable 8 = some none ∧
      borrowBook sessionState ⟨20, 3, 5⟩ 1 8 = some (sessionState, Outcome.bookNotFound) ∧
      returnBook sessionState ⟨20, 3, 5⟩ ⟨20, 3, 5⟩ 1 8
        = some (sessionState, Outcome.bookNotFound)) ∧
    (findMember queuedState.memberHead 1
        = some { id := 1, name := "Ann", type := 1, borrowed_count := 3 } ∧
      findBook queuedState.bookTable 7
        = some (some
            { id := 7, title := "Title", author := "Author", total_copies := 2,
              available_copies := 2, waitlist := [1, 2] }) ∧
      borrowBook queuedState ⟨20, 3, 5⟩ 1 7 = some (queuedState, Outcome.borrowLimitReached)) ∧
    ((∀ t ∈ sessionState.transHead, t.is_returned = false → t.bookId = 7 → t.memberId ≠ 2) ∧
      returnBook sessionState ⟨20, 3, 5⟩ ⟨20, 3, 5⟩ 2 7
        = some (sessionState, Outcome.noActiveTransaction)) :=
  ⟨⟨by decide, (engine_failures_atomic sessionState ⟨20, 3, 5⟩ ⟨20, 3, 5⟩ 5 7).1 (by decide)⟩,
   ⟨by decide, by decide,
    (engine_failures_atomic sessionState ⟨20, 3, 5⟩ ⟨20, 3, 5⟩ 1 8).2.1
      { id := 1, name := "Ann", type := 1, borrowed_count := 1 } (by decide) (by decide)⟩,
   ⟨by decide, by decide,
    (engine_failures_atomic queuedState ⟨20, 3, 5⟩ ⟨20, 3, 5⟩ 1 7).2.2.2.1
      { id := 1, name := "Ann", type := 1, borrowed_count := 3 }
      { id := 7, title := "Title", author := "Author", total_copies := 2,
        available_copies := 2, waitlist := [1, 2] } (by decide) (by decide) (by decide)⟩,
   ⟨by decide,
    (engine_failures_atomic sessionState ⟨20, 3, 5⟩ ⟨20, 3, 5⟩ 2 7).2.2.2.2.1
      { id := 2, name := "Bob", type := 1, borrowed_count := 0 }
      { id := 7, title := "Title", author := "Author", total_copies := 1,
        available_copies := 0, waitlist := [2] } (by decide) (by decide) (by decide)⟩⟩


/-! ## C14: active loans of a pair -/

theorem activeForPair_le_book (l : List Transaction) (bookId memberId : Int) :
    activeForPair l bookId memberId ≤ activeForBook l bookId := by
  unfold activeForPair activeForBook
  apply List.countP_mono_left
  intro t _ ht
  unfold isActiveFor at ht
  simp only [Bool.and_eq_true, Bool.not_eq_true', beq_iff_eq] at ht
  simp [ht.1.1, ht.1.2]

theorem activeForPair_le_member (l : List Transaction) (bookId memberId : Int) :
    activeForPair l bookId memberId ≤ activeForMember l memberId := by
  unfold activeForPair activeForMember
  apply List.countP_mono_left
  intro t _ ht
  unfold isActiveFor at ht
  simp only [Bool.and_eq_true, Bool.not_eq_true', beq_iff_eq] at ht
  simp [ht.1.1, ht.2]

theorem activeForPair_pos {l : List Transaction} {bookId memberId : Int}
    (h : 0 < activeForPair l bookId memberId) :
    ∃ t ∈ l, t.is_returned = false ∧ t.bookId = bookId ∧ t.memberId = memberId := by
  unfold activeForPair at h
  obtain ⟨t, ht, hp⟩ := List.countP_pos_iff.1 h
  unfold isActiveFor at hp
  simp only [Bool.and_eq_true, Bool.not_eq_true', beq_iff_eq] at hp
  exact ⟨t, ht, hp.1.1, hp.1.2, hp.2⟩

theorem maxBooksAllowed_le (m : Member) : maxBooksAllowed m ≤ 5 := by
  unfold maxBooksAllowed MAX_BOOKS_STUDENT MAX_BOOKS_FACULTY
  split
  · decide
  · split <;> decide

/-- C14, as the code has it. In every reachable state and for every pair of a
book id and a member id, the active transactions of the pair are bounded by the
copies of the book that are on loan and by the loans of the member: when there
is one, the book and the member exist, and the number of active transactions of
the pair is at most `total_copies - available_copies` and at most
`borrowed_count`, which is at most `maxBooksAllowed` (3 or 5). It is at most
one when the book has a single copy. `borrowBook` makes no test of the ledger,
so nothing smaller holds in general. -/
theorem active_loans_bounded (s : State) (hs : Reachable s) (bookId memberId : Int) :
    (0 < activeForPair s.transHead bookId memberId →
      ∃ b m, findBook s.bookTable bookId = some (some b) ∧
        findMember s.memberHead memberId = some m ∧
        (activeForPair s.transHead bookId memberId : Int)
          ≤ b.total_copies - b.available_copies ∧
        (activeForPair s.transHead bookId memberId : Int) ≤ m.borrowed_count ∧
        m.borrowed_count ≤ maxBooksAllowed m ∧ maxBooksAllowed m ≤ 5) ∧
    (∀ b, findBook s.bookTable bookId = some (some b) → b.total_copies = 1 →
      activeForPair s.transHead bookId memberId ≤ 1) := by
  have hinv := Inv_of_Reachable s hs
  have h1 := activeForPair_le_book s.transHead bookId memberId
  have h2 := activeForPair_le_member s.transHead bookId memberId
  constructor
  · intro hpos
    obtain ⟨t, ht, hr, hb, hm⟩ := activeForPair_pos hpos
    obtain ⟨⟨b, hfb⟩, ⟨m, hfm⟩⟩ := hinv.refs t ht hr
    rw [hb] at hfb
    rw [hm] at hfm
    obtain ⟨_, hc⟩ := hinv.copies bookId b hfb
    obtain ⟨hl, hmax, _⟩ := hinv.loans memberId m hfm
    refine ⟨b, m, hfb, hfm, by omega, by omega, hmax, maxBooksAllowed_le m⟩
  · intro b hfb htot
    obtain ⟨h0, hc⟩ := hinv.copies bookId b hfb
    omega

theorem run_doubleLoanCommands :
    run initialState doubleLoanCommands = some doubleLoanState := by
  decide

theorem Reachable_doubleLoanState : Reachable doubleLoanState :=
  Reachable_run initialState doubleLoanState doubleLoanCommands Reachable.init
    run_doubleLoanCommands

/-- C14 as the spec has it, refuted on the code. After the four commands of
`doubleLoanCommands` the reachable state `doubleLoanState` holds two active
transactions for book 7 and member 1, so "at most one for every pair" does not
hold in every reachable state. -/
theorem active_loans_bounded_counterexample :
    Reachable doubleLoanState ∧
    activeForPair doubleLoanState.transHead 7 1 = 2 ∧
    (∃ t1 ∈ doubleLoanState.transHead, ∃ t2 ∈ doubleLoanState.transHead,
      t1 ≠ t2 ∧ t1.is_returned = false ∧ t2.is_returned = false ∧
      t1.bookId = 7 ∧ t2.bookId = 7 ∧ t1.memberId = 1 ∧ t2.memberId = 1) ∧
    ¬ (∀ s, Reachable s → ∀ bookId memberId,
        activeForPair s.transHead bookId memberId ≤ 1) := by
  refine ⟨Reachable_doubleLoanState, by decide, by decide, ?_⟩
  intro h
  have h1 := h doubleLoanState Reachable_doubleLoanState 7 1
  have h2 : activeForPair doubleLoanState.transHead 7 1 = 2 := by decide
  omega

theorem active_loans_bounded_witness :
    Reachable doubleLoanState ∧ 0 < activeForPair doubleLoanState.transHead 7 1 ∧
    (∃ b m, findBook doubleLoanState.bookTable 7 = some (some b) ∧
      findMember doubleLoanState.memberHead 1 = some m ∧
      (activeForPair doubleLoanState.transHead 7 1 : Int)
        ≤ b.total_copies - b.available_copies ∧
      (activeForPair doubleLoanState.transHead 7 1 : Int) ≤ m.borrowed_count ∧
      m.borrowed_count ≤ maxBooksAllowed m ∧ maxBooksAllowed m ≤ 5) ∧
    Reachable sessionState ∧
    activeForPair sessionState.transHead 7 1 ≤ 1 :=
  ⟨Reachable_doubleLoanState, by decide,
   (active_loans_bounded doubleLoanState Reachable_doubleLoanState 7 1).1 (by decide),
   Reachable_sessionState,
   (active_loans_bounded sessionState Reachable_sessionState 7 1).2
     { id := 7, title := "Title", author := "Author", total_copies := 1,
       available_copies := 0, waitlist := [2] } (by decide) (by decide)⟩


/-! ## C15: what waitlisting changes -/

/-- C15. Waitlisting has no other effect: for a member `m` found under
`memberId` with `borrowed_count < maxBooksAllowed m` and a book `b` found under
`bookId` with no copy available, `borrowBook` answers "waitlisted", and the
state changes in the node of `b` alone, whose waitlist gets `memberId` behind
its entries, which keep their order. The counts of the book, every other node
of its chain, every other chain, the list of members with every
`borrowed_count`, the ledger and `nextTransId` are as before. -/
theorem borrowBook_waitlist_frame (s : State) (today : Date) (memberId bookId : Int)
    (m : Member) (b : Book)
    (hm : findMember s.memberHead memberId = some m)
    (hb : findBook s.bookTable bookId = some (some b))
    (hlim : m.borrowed_count < maxBooksAllowed m) (hav : b.available_copies ≤ 0) :
    ∃ pre post s1,
      borrowBook s today memberId bookId = some (s1, Outcome.waitlisted) ∧
      chainAt s.bookTable (hashBookId bookId) = some (pre ++ b :: post) ∧
      (∀ x ∈ pre, x.id ≠ bookId) ∧
      s1.bookTable = setChain s.bookTable (hashBookId bookId)
        (pre ++ { b with waitlist := b.waitlist ++ [memberId] } :: post) ∧
      findBook s1.bookTable bookId
        = some (some { b with waitlist := b.waitlist ++ [memberId] }) ∧
      (∀ id, id ≠ bookId → findBook s1.bookTable id = findBook s.bookTable id) ∧
      s1.memberHead = s.memberHead ∧ s1.transHead = s.transHead ∧
      s1.nextTransId = s.nextTransId := by
  obtain ⟨pre, post, hchain, hpre, hstore⟩ := findBook_split hb
  have hbid := findBook_id hb
  have hb1 : findBook s.bookTable (enqueueWait b memberId).id = some (some b) := by
    show findBook s.bookTable b.id = some (some b)
    rw [hbid]
    exact hb
  refine ⟨pre, post, _, borrowBook_waitlisted s today memberId bookId m b hm hb hlim hav,
    hchain, hpre, hstore (enqueueWait b memberId) hbid, ?_, ?_, rfl, rfl, rfl⟩
  · have := findBook_storeBook s.bookTable (enqueueWait b memberId) b hb1 bookId
    rw [this]
    have e : bookId = (enqueueWait b memberId).id := hbid.symm
    rw [if_pos e]
    rfl
  · intro id hid
    have := findBook_storeBook s.bookTable (enqueueWait b memberId) b hb1 id
    rw [this]
    have e : ¬ id = (enqueueWait b memberId).id := by
      show ¬ id = b.id
      rw [hbid]
      exact hid
    rw [if_neg e]

theorem borrowBook_waitlist_frame_witness :
    findMember loanState.memberHead 2
      = some { id := 2, name := "Bob", type := 1, borrowed_count := 0 } ∧
    findBook loanState.bookTable 7
      = some (some
          { id := 7, title := "Title", author := "Author", total_copies := 1,
            available_copies := 0, waitlist := [] }) ∧
    (0 : Int) < maxBooksAllowed { id := 2, name := "Bob", type := 1, borrowed_count := 0 } ∧
    ∃ pre post s1,
      borrowBook loanState ⟨2, 3, 5⟩ 2 7 = some (s1, Outcome.waitlisted) ∧
      chainAt loanState.bookTable (hashBookId 7)
        = some (pre ++
            { id := 7, title := "Title", author := "Author", total_copies := 1,
              available_copies := 0, waitlist := [] } :: post) ∧
      (∀ x ∈ pre, x.id ≠ 7) ∧
      s1.bookTable = setChain loanState.bookTable (hashBookId 7)
        (pre ++
          { id := 7, title := "Title", author := "Author", total_copies := 1,
            available_copies := 0, waitlist := [] ++ [2] } :: post) ∧
      findBook s1.bookTable 7
        = some (some
            { id := 7, title := "Title", author := "Author", total_copies := 1,
              available_copies := 0, waitlist := [] ++ [2] }) ∧
      (∀ id, id ≠ 7 → findBook s1.bookTable id = findBook loanState.bookTable id) ∧
      s1.memberHead = loanState.memberHead ∧ s1.transHead = loanState.transHead ∧
      s1.nextTransId = loanState.nextTransId :=
  ⟨by decide, by decide, by decide,
   borrowBook_waitlist_frame loanState ⟨2, 3, 5⟩ 2 7
     { id := 2, name := "Bob", type := 1, borrowed_count := 0 }
     { id := 7, title := "Title", author := "Author", total_copies := 1,
       available_copies := 0, waitlist := [] }
     (by decide) (by decide) (by decide) (by decide)⟩


/-! ## C16: serial numbers and the calendar order -/

theorem dateLt_trichotomy (a b : Date) : dateLt a b ∨ a = b ∨ dateLt b a := by
  by_cases h : a = b
  · exact Or.inr (Or.inl h)
  · have hne : a.year ≠ b.year ∨ a.month ≠ b.month ∨ a.day ≠ b.day := by
      by_contra hc
      apply h
      cases a
      cases b
      simp only [Date.mk.injEq]
      simp only at hc
      omega
    unfold dateLt
    omega

theorem dateLt_asymm (a b : Date) (h : dateLt a b) : ¬ dateLt b a ∧ a ≠ b := by
  unfold dateLt at *
  constructor
  · omega
  · intro e
    subst e
    omega

/-- The sign of the difference of two serial numbers follows the calendar
order of the dates. -/
theorem serial_diff_sign (d1 d2 : Date) (a1 a2 : Int) (hv1 : validDate d1)
    (hv2 : validDate d2) (hy1 : 1 ≤ d1.year) (hy2 : 1 ≤ d2.year)
    (h1 : dateToSerial d1 = some a1) (h2 : dateToSerial d2 = some a2) :
    (dateLt d1 d2 ↔ a1 < a2) ∧ (a2 - a1 < 0 ↔ dateLt d2 d1) ∧ (a2 - a1 = 0 ↔ d1 = d2) := by
  have hfw : dateLt d1 d2 → a1 < a2 := fun h =>
    dateToSerial_lt d1 d2 a1 a2 hv1 hv2 hy1 h h1 h2
  have hbw : dateLt d2 d1 → a2 < a1 := fun h =>
    dateToSerial_lt d2 d1 a2 a1 hv2 hv1 hy2 h h2 h1
  have heq : d1 = d2 → a1 = a2 := by
    intro e
    subst e
    rw [h1] at h2
    exact Option.some.inj h2
  refine ⟨⟨hfw, ?_⟩, ⟨?_, ?_⟩, ⟨?_, ?_⟩⟩
  · intro hlt
    rcases dateLt_trichotomy d1 d2 with h | h | h
    · exact h
    · have := heq h
      omega
    · have := hbw h
      omega
  · intro hk
    rcases dateLt_trichotomy d1 d2 with h | h | h
    · have := hfw h
      omega
    · have := heq h
      omega
    · exact h
  · intro h
    have := hbw h
    omega
  · intro hk
    rcases dateLt_trichotomy d1 d2 with h | h | h
    · have := hfw h
      omega
    · exact h
    · have := hbw h
      omega
  · intro h
    have := heq h
    omega

/-- C16, within the range of `int`. The serial number of 1 January of year 1
is 1. For dates `d1`, `d2` of the Gregorian calendar with `year ≥ 1`, both
serial numbers are defined and `d1` comes before `d2` in the order by year,
month, day exactly when its serial number is the smaller one. `daysBetween d1
d2` is the difference of the two numbers cut to the 32 bits of an `int`. When
the difference is a value of an `int`, as it is whenever both years are at
most 5879610, `daysBetween d1 d2` is that difference: negative exactly when
`d2` comes before `d1`, and 0 exactly when the dates are equal. -/
theorem dateToSerial_strictMono (d1 d2 : Date) (hv1 : validDate d1) (hv2 : validDate d2)
    (hy1 : 1 ≤ d1.year) (hy2 : 1 ≤ d2.year) :
    dateToSerial { day := 1, month := 1, year := 1 } = some 1 ∧
    ∃ a1 a2, dateToSerial d1 = some a1 ∧ dateToSerial d2 = some a2 ∧
      (dateLt d1 d2 ↔ a1 < a2) ∧
      ∃ k, daysBetween d1 d2 = some k ∧ k = wrapInt (a2 - a1) ∧
        (-2147483648 ≤ a2 - a1 → a2 - a1 ≤ 2147483647 →
          k = a2 - a1 ∧ (k < 0 ↔ dateLt d2 d1) ∧ (k = 0 ↔ d1 = d2)) ∧
        (d1.year ≤ 5879610 → d2.year ≤ 5879610 →
          k = a2 - a1 ∧ (k < 0 ↔ dateLt d2 d1) ∧ (k = 0 ↔ d1 = d2)) := by
  refine ⟨by decide, ?_⟩
  obtain ⟨a1, h1⟩ := dateToSerial_valid d1 hv1
  obtain ⟨a2, h2⟩ := dateToSerial_valid d2 hv2
  obtain ⟨hord, hneg, hzero⟩ := serial_diff_sign d1 d2 a1 a2 hv1 hv2 hy1 hy2 h1 h2
  have hnear : -2147483648 ≤ a2 - a1 → a2 - a1 ≤ 2147483647 →
      wrapInt (a2 - a1) = a2 - a1 ∧ (wrapInt (a2 - a1) < 0 ↔ dateLt d2 d1) ∧
        (wrapInt (a2 - a1) = 0 ↔ d1 = d2) := by
    intro hlo hhi
    rw [wrapInt_of_range _ hlo hhi]
    exact ⟨rfl, hneg, hzero⟩
  refine ⟨a1, a2, h1, h2, hord, wrapInt (a2 - a1), daysBetween_eq d1 d2 a1 a2 h1 h2, rfl,
    hnear, ?_⟩
  intro hs1 hs2
  obtain ⟨b1, hb1, hb1lo, hb1hi⟩ := dateToSerial_small d1 hv1 hy1 hs1
  obtain ⟨b2, hb2, hb2lo, hb2hi⟩ := dateToSerial_small d2 hv2 hy2 hs2
  rw [h1] at hb1
  rw [h2] at hb2
  have e1 := Option.some.inj hb1
  have e2 := Option.some.inj hb2
  exact hnear (by omega) (by omega)

theorem dateToSerial_strictMono_witness :
    validDate ⟨28, 2, 4⟩ ∧ validDate ⟨1, 3, 4⟩ ∧ (1 : Int) ≤ 4 ∧
    dateToSerial { day := 1, month := 1, year := 1 } = some 1 ∧
    ∃ a1 a2, dateToSerial ⟨28, 2, 4⟩ = some a1 ∧ dateToSerial ⟨1, 3, 4⟩ = some a2 ∧
      (dateLt ⟨28, 2, 4⟩ ⟨1, 3, 4⟩ ↔ a1 < a2) ∧
      ∃ k, daysBetween ⟨28, 2, 4⟩ ⟨1, 3, 4⟩ = some k ∧ k = wrapInt (a2 - a1) ∧
        (-2147483648 ≤ a2 - a1 → a2 - a1 ≤ 2147483647 →
          k = a2 - a1 ∧ (k < 0 ↔ dateLt ⟨1, 3, 4⟩ ⟨28, 2, 4⟩) ∧
            (k = 0 ↔ (⟨28, 2, 4⟩ : Date) = ⟨1, 3, 4⟩)) ∧
        ((4 : Int) ≤ 5879610 → (4 : Int) ≤ 5879610 →
          k = a2 - a1 ∧ (k < 0 ↔ dateLt ⟨1, 3, 4⟩ ⟨28, 2, 4⟩) ∧
            (k = 0 ↔ (⟨28, 2, 4⟩ : Date) = ⟨1, 3, 4⟩)) :=
  ⟨by decide, by decide, by decide,
   dateToSerial_strictMono ⟨28, 2, 4⟩ ⟨1, 3, 4⟩ (by decide) (by decide) (by decide)
     (by decide)⟩

/-- C16 as the spec has it, refuted on the code. 1 January of year 1 and
1 January of year 5879612 are dates of the calendar, 2147483820 days apart by
their serial numbers; `daysBetween` from the first to the second is
-2147483476, negative although the second date does not come before the
first. -/
theorem dateToSerial_strictMono_counterexample :
    validDate ⟨1, 1, 1⟩ ∧ validDate ⟨1, 1, 5879612⟩ ∧
    dateToSerial ⟨1, 1, 1⟩ = some 1 ∧ dateToSerial ⟨1, 1, 5879612⟩ = some 2147483821 ∧
    daysBetween ⟨1, 1, 1⟩ ⟨1, 1, 5879612⟩ = some (-2147483476) ∧
    ¬ dateLt ⟨1, 1, 5879612⟩ ⟨1, 1, 1⟩ ∧
    ¬ (∀ (d1 d2 : Date) (k : Int), validDate d1 → validDate d2 → 1 ≤ d1.year →
        1 ≤ d2.year → daysBetween d1 d2 = some k → (k < 0 ↔ dateLt d2 d1)) := by
  have hbet : daysBetween ⟨1, 1, 1⟩ ⟨1, 1, 5879612⟩ = some (-2147483476) := by
    rw [daysBetween_eq ⟨1, 1, 1⟩ ⟨1, 1, 5879612⟩ 1 2147483821 (by decide) dateToSerial_far]
    decide
  refine ⟨by decide, by decide, by decide, dateToSerial_far, hbet, by decide, ?_⟩
  intro h
  have h1 := (h ⟨1, 1, 1⟩ ⟨1, 1, 5879612⟩ (-2147483476) (by decide) (by decide) (by decide)
    (by decide) hbet).1 (by decide)
  exact absurd h1 (by decide)

/-! ## C17: `addDays` returns, with a date of the calendar -/

/-- More iterations than the loop needs do not change its result. -/
theorem addDaysLoop_fuel_mono (fuel : Nat) (d e : Date) (h : addDaysLoop fuel d = some e)
    (fuel1 : Nat) (hle : fuel ≤ fuel1) : addDaysLoop fuel1 d = some e := by
  induction fuel generalizing d fuel1 with
  | zero => simp [addDaysLoop] at h
  | succ fuel ih =>
    obtain ⟨k, rfl⟩ : ∃ k, fuel1 = k + 1 := ⟨fuel1 - 1, by omega⟩
    unfold addDaysLoop at h ⊢
    cases hd : daysInMonth d.month d.year with
    | none => simp [hd] at h
    | some dim =>
      simp only [hd] at h ⊢
      by_cases hday : d.day ≤ dim
      · simp only [hday, if_true] at h ⊢
        exact h
      · simp only [hday, if_false] at h ⊢
        exact ih (rollover d dim) h k (by omega)

theorem addDays_zero (d : Date) (hv : validDate d) : addDays d 0 = some d := by
  obtain ⟨h1, h12, hd1, dim, hdim, hle⟩ := hv
  obtain ⟨dim2, hdim2, _, hhi⟩ := daysInMonth_bounds d.month d.year h1 h12
  rw [hdim] at hdim2
  have hdd : dim = dim2 := Option.some.inj hdim2
  unfold addDays
  simp only [add_zero]
  rw [wrapInt_of_range d.day (by omega) (by omega)]
  unfold addDaysLoop
  simp only [hdim, hle, if_true]

/-- C17, within the range of `int`. For a date `d` of the Gregorian calendar
and `n ≥ 0` the rollover loop of `addDays` ends, within `d.day + n + 1` passes
and with the same result for every larger bound; the date it returns has its
month in `1..12` and its day at most `daysInMonth`, and for `n = 0` it is `d`.
The day is at least 1 when `d.day + n` is a value of an `int`. The year is not
before that of `d` when moreover the date `n` days after `d` is not later than
31 December 2147483647, whose serial number is 784352295939: no year wraps. -/
theorem addDays_total (d : Date) (n : Int) (hv : validDate d) (hn : 0 ≤ n) :
    ∃ e, addDays d n = some e ∧
      (∀ fuel, (wrapInt (d.day + n)).toNat < fuel →
        addDaysLoop fuel { d with day := wrapInt (d.day + n) } = some e) ∧
      1 ≤ e.month ∧ e.month ≤ 12 ∧
      (∃ dim, daysInMonth e.month e.year = some dim ∧ e.day ≤ dim) ∧
      (n = 0 → e = d) ∧
      (d.day + n ≤ 2147483647 → 1 ≤ e.day) ∧
      (∀ a, d.day + n ≤ 2147483647 → -2147483648 ≤ d.year → dateToSerial d = some a →
        (1 ≤ d.year → a + n ≤ 784352295939) →
        d.year ≤ e.year ∧ e.year ≤ 2147483647) := by
  obtain ⟨h1, h12, hd1, dim, hdim, hd2⟩ := hv
  obtain ⟨e, he, e1, e12, edim, eday, _, eyr⟩ := addDays_spec d n h1 h12
  refine ⟨e, he, ?_, e1, e12, edim, ?_, ?_, ?_⟩
  · intro fuel hfuel
    unfold addDays at he
    exact addDaysLoop_fuel_mono _ _ e he fuel (by simp only; omega)
  · intro h0
    rw [h0, addDays_zero d ⟨h1, h12, hd1, dim, hdim, hd2⟩] at he
    exact (Option.some.inj he).symm
  · intro hday
    exact eday (by rw [wrapInt_of_range _ (by omega) hday]; omega)
  · intro a hday hylo ha hend
    have hw : wrapInt (d.day + n) = d.day + n := wrapInt_of_range _ (by omega) hday
    obtain ⟨hyl, _⟩ := daysBeforeMonth_next d.month d.year dim h1 h12 hdim
    have hm0 := daysBeforeMonth_nonneg d.month (isLeap d.year) h1 h12
    obtain ⟨dim2, hdim2, hdlo, hdhi⟩ := daysInMonth_bounds d.month d.year h1 h12
    rw [hdim] at hdim2
    have hdd : dim = dim2 := Option.some.inj hdim2
    have hyl2 : yearLength d.year ≤ 366 := by
      unfold yearLength
      split <;> decide
    by_cases hy : 1 ≤ d.year
    · have hlast := hend hy
      rw [dateToSerial_dayNumber d h1 h12 hy] at ha
      have hnum := Option.some.inj ha
      have hyhi : d.year ≤ 2147483647 := by
        by_contra hc
        have hys := yearStart_mono 2147483648 d.year (by omega)
        rw [yearStart_last] at hys
        unfold dayNumber at hnum
        omega
      obtain ⟨ey, ehi, _⟩ := eyr hylo hyhi (by rw [hw]; omega)
      exact ⟨ey, ehi⟩
    · have hys := yearStart_mono d.year 1 (by omega)
      have h11 : yearStart 1 = 0 := by decide
      have hb : dayNumber d - d.day + wrapInt (d.day + n) ≤ 784352295939 := by
        rw [hw]
        unfold dayNumber
        omega
      obtain ⟨ey, ehi, _⟩ := eyr hylo (by omega) hb
      exact ⟨ey, ehi⟩

theorem addDays_total_witness :
    validDate ⟨31, 12, 3⟩ ∧ (0 : Int) ≤ 60 ∧
    ∃ e, addDays ⟨31, 12, 3⟩ 60 = some e ∧
      (∀ fuel, (wrapInt ((31 : Int) + 60)).toNat < fuel →
        addDaysLoop fuel { (⟨31, 12, 3⟩ : Date) with day := wrapInt (31 + 60) } = some e) ∧
      1 ≤ e.month ∧ e.month ≤ 12 ∧
      (∃ dim, daysInMonth e.month e.year = some dim ∧ e.day ≤ dim) ∧
      ((60 : Int) = 0 → e = ⟨31, 12, 3⟩) ∧
      ((31 : Int) + 60 ≤ 2147483647 → 1 ≤ e.day) ∧
      (∀ a, (31 : Int) + 60 ≤ 2147483647 → (-2147483648 : Int) ≤ 3 →
        dateToSerial ⟨31, 12, 3⟩ = some a →
        ((1 : Int) ≤ 3 → a + 60 ≤ 784352295939) →
        3 ≤ e.year ∧ e.year ≤ 2147483647) :=
  ⟨by decide, by decide, addDays_total ⟨31, 12, 3⟩ 60 (by decide) (by decide)⟩

/-- C17 as the spec has it, refuted on the code. Adding the largest `int` to
1 January of year 5 wraps the day: the loop ends at once with day -2147483648,
which is no day of a month. Adding one day to 31 December of the largest `int`
year wraps the year: the result is in year -2147483648, before the year of the
date it started from. -/
theorem addDays_total_counterexample :
    validDate ⟨1, 1, 5⟩ ∧ (0 : Int) ≤ 2147483647 ∧
    addDays ⟨1, 1, 5⟩ 2147483647 = some ⟨-2147483648, 1, 5⟩ ∧
    validDate ⟨31, 12, 2147483647⟩ ∧ (0 : Int) ≤ 1 ∧
    addDays ⟨31, 12, 2147483647⟩ 1 = some ⟨1, 1, -2147483648⟩ ∧
    ¬ (∀ (d : Date) (n : Int), validDate d → 0 ≤ n →
        ∃ e, addDays d n = some e ∧ 1 ≤ e.day ∧ d.year ≤ e.year) := by
  have h1 : addDays ⟨1, 1, 5⟩ 2147483647 = some ⟨-2147483648, 1, 5⟩ := by decide
  refine ⟨by decide, by decide, h1, by decide, by decide, by decide, ?_⟩
  intro h
  obtain ⟨e, he, hday, _⟩ := h ⟨1, 1, 5⟩ 2147483647 (by decide) (by decide)
  rw [h1] at he
  rw [← Option.some.inj he] at hday
  exact absurd hday (by decide)

/-! ## C18: conservation of copies -/

/-- C18. Conservation of copies: in every reachable state, every book of the
table has `available_copies` plus the number of active transactions of the
ledger with its id equal to `total_copies`. So for a book whose
`available_copies` equals `total_copies` the ledger test of `removeBook` finds
nothing, and `removeBook` never answers "active transactions exist". -/
theorem copies_conserved (s : State) (hs : Reachable s) :
    (∀ chain ∈ s.bookTable, ∀ b ∈ chain,
      b.available_copies + (activeForBook s.transHead b.id : Int) = b.total_copies) ∧
    (∀ id b, findBook s.bookTable id = some (some b) →
      b.available_copies = b.total_copies →
      bookHasActiveTransactions s.transHead id = false) ∧
    (∀ id s1, removeBook s id ≠ some (s1, Outcome.activeTransactionsExist)) := by
  have hinv := Inv_of_Reachable s hs
  have hsecond : ∀ id b, findBook s.bookTable id = some (some b) →
      b.available_copies = b.total_copies →
      bookHasActiveTransactions s.transHead id = false := by
    intro id b hb he
    obtain ⟨_, hc⟩ := hinv.copies id b hb
    have h0 : activeForBook s.transHead id = 0 := by omega
    rw [bookHasActiveTransactions_false]
    intro t ht hr hid
    have := activeForBook_pos ht hr
    rw [hid, h0] at this
    omega
  refine ⟨?_, hsecond, ?_⟩
  · intro chain hc b hb
    exact (hinv.copies b.id b (findBook_of_mem s.bookTable hinv.table chain hc b hb)).2
  · intro id s1 h
    cases hf : findBook s.bookTable id with
    | none =>
      unfold removeBook at h
      simp [hf] at h
    | some r =>
      cases r with
      | none =>
        unfold removeBook at h
        simp [hf] at h
      | some b =>
        obtain ⟨hloan, hwait, _, hok⟩ := removeBook_found s id b hf
        by_cases e1 : b.available_copies = b.total_copies
        · by_cases e2 : b.waitlist = []
          · obtain ⟨pre, post, _, _, _, hrem⟩ := hok e1 e2 (hsecond id b hf e1)
            rw [hrem] at h
            simp at h
          · rw [hwait e1 e2] at h
            simp at h
        · rw [hloan e1] at h
          simp at h

theorem copies_conserved_witness :
    Reachable doubleLoanState ∧
    (∀ chain ∈ doubleLoanState.bookTable, ∀ b ∈ chain,
      b.available_copies + (activeForBook doubleLoanState.transHead b.id : Int)
        = b.total_copies) ∧
    (∀ id b, findBook doubleLoanState.bookTable id = some (some b) →
      b.available_copies = b.total_copies →
      bookHasActiveTransactions doubleLoanState.transHead id = false) ∧
    (∀ id s1, removeBook doubleLoanState id ≠ some (s1, Outcome.activeTransactionsExist)) :=
  ⟨Reachable_doubleLoanState, copies_conserved doubleLoanState Reachable_doubleLoanState⟩


/-! ## C19: the loan counter and the ledger -/

theorem memberHasActiveBorrows_of_zero {l : List Transaction} {id : Int}
    (h : activeForMember l id = 0) : memberHasActiveBorrows l id = false := by
  rw [memberHasActiveBorrows_false]
  intro t ht hr hid
  have := activeForMember_pos ht hr
  rw [hid, h] at this
  omega

/-- C19. The loan counter matches the ledger: in every reachable state every
member of the list has `borrowed_count` equal to the number of active
transactions of the ledger with the member's id. So on every return that
succeeds the member has `borrowed_count > 0`, the guard of the decrement is
true, and the state handed to the promotion step holds `borrowed_count - 1`
for the member; and `deleteMember` deletes exactly when a member with the id
exists, has `borrowed_count = 0` and is in no waitlist. -/
theorem loans_counted (s : State) (hs : Reachable s) :
    (∀ m ∈ s.memberHead, m.borrowed_count = (activeForMember s.transHead m.id : Int)) ∧
    (∀ today ta memberId bookId s1 r fine auto,
      returnBook s today ta memberId bookId = some (s1, Outcome.returned r fine auto) →
      ∃ m b t diff, findMember s.memberHead memberId = some m ∧
        findBook s.bookTable bookId = some (some b) ∧
        findActiveTransaction s.transHead bookId memberId = some t ∧
        daysBetween t.due_date today = some diff ∧
        0 < m.borrowed_count ∧
        findMember (returnUpdate s today m b t diff).memberHead memberId
          = some { m with borrowed_count := m.borrowed_count - 1 }) ∧
    (∀ id, (∃ s1, deleteMember s id = (s1, Outcome.memberDeleted)) ↔
      ∃ m ∈ s.memberHead, m.id = id ∧ m.borrowed_count = 0 ∧
        ∀ chain ∈ s.bookTable, ∀ b ∈ chain, id ∉ b.waitlist) := by
  have hinv := Inv_of_Reachable s hs
  refine ⟨?_, ?_, ?_⟩
  · intro m hm
    exact (hinv.loans m.id m (findMember_of_mem _ m hinv.members hm)).1
  · intro today ta memberId bookId s1 r fine auto h
    rcases returnBook_cases s s1 today ta memberId bookId _ h with
      ⟨_, e⟩ | ⟨m, b, t, diff, a, hm, hb, ht, hd, _, _⟩
    · simp at e
    · obtain ⟨htm, hr, _, hmid⟩ := findActiveTransaction_some ht
      have hpos := activeForMember_pos htm hr
      rw [hmid] at hpos
      have hcount := (hinv.loans memberId m hm).1
      have hgt : 0 < m.borrowed_count := by omega
      refine ⟨m, b, t, diff, hm, hb, ht, hd, hgt, ?_⟩
      have hid := findMember_id hm
      have hm1 : findMember s.memberHead m.id = some m := by
        rw [hid]
        exact hm
      rw [returnUpdate_findMember s today m b t diff hm1 memberId, if_pos hid.symm]
      have hg : m.borrowed_count > 0 := hgt
      simp only [hg, if_true]
  · intro id
    obtain ⟨b1, b2, b3, b4⟩ := deleteMember_branches s id
    constructor
    · rintro ⟨s1, h⟩
      cases ha : memberHasActiveBorrows s.transHead id with
      | true =>
        rw [b1 ha] at h
        simp at h
      | false =>
        cases hw : memberInAnyWaitlist s.bookTable id with
        | true =>
          rw [b2 ha hw] at h
          simp at h
        | false =>
          cases hf : findMember s.memberHead id with
          | none =>
            rw [b3 ha hw hf] at h
            simp at h
          | some m =>
            have hcount := (hinv.loans id m hf).1
            rw [activeForMember_zero ha] at hcount
            exact ⟨m, findMember_mem hf, findMember_id hf, by simpa using hcount,
              (memberInAnyWaitlist_false _ _).1 hw⟩
    · rintro ⟨m, hm, hid, h0, hw⟩
      have hf : findMember s.memberHead id = some m := by
        rw [← hid]
        exact findMember_of_mem _ m hinv.members hm
      have hcount := (hinv.loans id m hf).1
      have hz : activeForMember s.transHead id = 0 := by omega
      obtain ⟨pre, post, _, _, e⟩ :=
        b4 m (memberHasActiveBorrows_of_zero hz) ((memberInAnyWaitlist_false _ _).2 hw) hf
      exact ⟨_, e⟩

theorem loans_counted_witness :
    Reachable sessionState ∧ Reachable readyState ∧
    (∀ m ∈ sessionState.memberHead,
      m.borrowed_count = (activeForMember sessionState.transHead m.id : Int)) ∧
    (∃ m b t diff, findMember sessionState.memberHead 1 = some m ∧
      findBook sessionState.bookTable 7 = some (some b) ∧
      findActiveTransaction sessionState.transHead 7 1 = some t ∧
      daysBetween t.due_date ⟨20, 3, 5⟩ = some diff ∧
      0 < m.borrowed_count ∧
      findMember (returnUpdate sessionState ⟨20, 3, 5⟩ m b t diff).memberHead 1
        = some { m with borrowed_count := m.borrowed_count - 1 }) ∧
    (∃ s1, deleteMember readyState 2 = (s1, Outcome.memberDeleted)) := by
  refine ⟨Reachable_sessionState, Reachable_readyState,
    (loans_counted sessionState Reachable_sessionState).1, ?_,
    ((loans_counted readyState Reachable_readyState).2.2 2).2
      ⟨{ id := 2, name := "Bob", type := 1, borrowed_count := 0 }, by decide, by decide,
        by decide, by decide⟩⟩
  have hout : (returnBook sessionState ⟨20, 3, 5⟩ ⟨20, 3, 5⟩ 1 7).map (fun r => r.2)
      = some (Outcome.returned ⟨20, 3, 5⟩ 25 (Assign.assigned 2 ⟨20, 3, 5⟩ ⟨3, 4, 5⟩)) := by
    decide
  cases hr : returnBook sessionState ⟨20, 3, 5⟩ ⟨20, 3, 5⟩ 1 7 with
  | none =>
    rw [hr] at hout
    simp at hout
  | some p =>
    obtain ⟨s1, out⟩ := p
    rw [hr] at hout
    simp only [Option.map_some', Option.some.injEq] at hout
    subst hout
    exact (loans_counted sessionState Reachable_sessionState).2.1 _ _ _ _ _ _ _ _ hr


/-! ## C20: waitlists and the member list -/

theorem autoAssign_not_missing (s s1 : State) (today : Date) (b : Book) (id : Int)
    (hb : ∀ w ∈ b.waitlist, w ∈ s.memberHead.map (fun m => m.id)) :
    autoAssignFromWaitlist s today b ≠ some (s1, Assign.memberMissing id) := by
  intro h
  rcases autoAssign_cases s s1 today b _ h with
    ⟨e, _⟩ | ⟨id1, rest, _, hw, hnone, _, _⟩ | ⟨id1, rest, m, _, _, _, _, e, _⟩ |
    ⟨id1, rest, m, due, _, _, _, _, _, e, _⟩
  · simp at e
  · obtain ⟨m, hm⟩ := findMember_of_ids (hb id1 (by rw [hw]; exact List.mem_cons_self _ _))
    rw [hnone] at hm
    cases hm
  · simp at e
  · simp at e

/-- C20. Waitlists only reference registered members: in every reachable state
every id in the waitlist of a book of the table is the id of a member of the
list. So the promotion step never takes its "waitlisted member not found"
branch: not in the call that `returnBook` makes, and not when called on a book
of the table in a reachable state. -/
theorem waitlists_registered (s : State) (hs : Reachable s) :
    (∀ chain ∈ s.bookTable, ∀ b ∈ chain, ∀ w ∈ b.waitlist, ∃ m ∈ s.memberHead, m.id = w) ∧
    (∀ today ta memberId bookId s1 r fine auto,
      returnBook s today ta memberId bookId = some (s1, Outcome.returned r fine auto) →
      ∀ id, auto ≠ Assign.memberMissing id) ∧
    (∀ today b s1 id, (∃ chain ∈ s.bookTable, b ∈ chain) →
      autoAssignFromWaitlist s today b ≠ some (s1, Assign.memberMissing id)) := by
  have hwait := WaitInv_of_Reachable s hs
  refine ⟨?_, ?_, ?_⟩
  · intro chain hc b hb w hw
    obtain ⟨m, hm, hid⟩ := List.mem_map.1 (hwait chain hc b hb w hw)
    exact ⟨m, hm, hid⟩
  · intro today ta memberId bookId s1 r fine auto h id hauto
    rcases returnBook_cases s s1 today ta memberId bookId _ h with
      ⟨_, e⟩ | ⟨m, b, t, diff, a, hm, hb, _, _, ha, e⟩
    · simp at e
    · simp only [Outcome.returned.injEq] at e
      rw [← e.2.2, hauto] at ha
      refine autoAssign_not_missing _ s1 ta _ id ?_ ha
      intro w hw
      have h1 := WaitInv_found hwait hb w hw
      unfold returnUpdate
      simp only
      rw [storeMember_ids]
      exact h1
  · rintro today b s1 id ⟨chain, hc, hb⟩
    exact autoAssign_not_missing s s1 today b id (hwait chain hc b hb)

theorem waitlists_registered_witness :
    Reachable sessionState ∧
    (∀ chain ∈ sessionState.bookTable, ∀ b ∈ chain, ∀ w ∈ b.waitlist,
      ∃ m ∈ sessionState.memberHead, m.id = w) ∧
    (∀ today ta memberId bookId s1 r fine auto,
      returnBook sessionState today ta memberId bookId
        = some (s1, Outcome.returned r fine auto) →
      ∀ id, auto ≠ Assign.memberMissing id) ∧
    (∀ today b s1 id, (∃ chain ∈ sessionState.bookTable, b ∈ chain) →
      autoAssignFromWaitlist sessionState today b ≠ some (s1, Assign.memberMissing id)) :=
  ⟨Reachable_sessionState, waitlists_registered sessionState Reachable_sessionState⟩


/-! ## C21: the bucket index -/

theorem hashBookId_least : hashBookId (-2147483648) = -34 := by
  decide

theorem chainAt_least (tbl : List (List Book)) :
    chainAt tbl (hashBookId (-2147483648)) = none := by
  rw [hashBookId_least]
  unfold chainAt
  rw [if_neg (by decide)]

theorem findBook_least (tbl : List (List Book)) : findBook tbl (-2147483648) = none := by
  unfold findBook
  rw [chainAt_least]

/-- With the negation wrapping as `int` arithmetic does, an id and its negative
share their bucket index, for every value of an `int`. -/
theorem hashBookId_neg (id : Int) (hlo : -2147483648 ≤ id) (hhi : id ≤ 2147483647) :
    hashBookId (wrapInt (-id)) = hashBookId id := by
  by_cases hmin : id = -2147483648
  · subst hmin
    decide
  · have hw : wrapInt (-id) = -id := by
      unfold wrapInt
      omega
    rw [hw]
    unfold hashBookId
    by_cases hneg : id < 0
    · have h1 : ¬ (-id < 0) := by omega
      simp only [h1, hneg, if_true, if_false, hw]
    · by_cases hz : id = 0
      · subst hz
        rfl
      · have h1 : -id < 0 := by omega
        have hw2 : wrapInt (- -id) = id := by
          unfold wrapInt
          omega
        simp only [h1, hneg, if_true, if_false, hw2]

/-- C21. The bucket index at the least `int`, and at every other one. For
`id = -2147483648` the negation of `hashBookId` wraps to the same value and the
truncating remainder by 101 is `-34`, so `hashBookId` returns `-34`: the read
`bookTable[index]` of `findBook` is outside every table, and `findBook`,
`addBook` and `removeBook` have no defined result for this id in any state.
For every other value of an `int` the index is in `0..100`, and for every value
of an `int` the id and its (wrapping) negative have the same index. -/
theorem hashBookId_least_int :
    hashBookId (-2147483648) = -34 ∧
    ¬ (0 ≤ hashBookId (-2147483648) ∧ hashBookId (-2147483648) ≤ 100) ∧
    (∀ tbl : List (List Book), chainAt tbl (hashBookId (-2147483648)) = none) ∧
    (∀ (s : State) (title author : String) (total_copies : Int),
      findBook s.bookTable (-2147483648) = none ∧
      addBook s (-2147483648) title author total_copies = none ∧
      removeBook s (-2147483648) = none) ∧
    (∀ id : Int, -2147483648 < id → id ≤ 2147483647 →
      0 ≤ hashBookId id ∧ hashBookId id ≤ 100) ∧
    (∀ id : Int, -2147483648 ≤ id → id ≤ 2147483647 →
      hashBookId (wrapInt (-id)) = hashBookId id) := by
  refine ⟨hashBookId_least, ?_, chainAt_least, ?_, ?_, hashBookId_neg⟩
  · rw [hashBookId_least]
    decide
  · intro s title author total_copies
    refine ⟨findBook_least _, ?_, ?_⟩
    · unfold addBook
      rw [findBook_least]
    · unfold removeBook
      rw [findBook_least]
  · intro id hlo _
    obtain ⟨h0, h1⟩ := hashBookId_range id hlo
    unfold BOOK_TABLE_SIZE at h1
    exact ⟨h0, by omega⟩

theorem hashBookId_least_int_witness :
    ((-2147483648 : Int) < -7 ∧ (-7 : Int) ≤ 2147483647 ∧
      0 ≤ hashBookId (-7) ∧ hashBookId (-7) ≤ 100) ∧
    ((-2147483648 : Int) ≤ 2147483647 ∧
      hashBookId (wrapInt (-2147483647)) = hashBookId 2147483647) ∧
    findBook initialState.bookTable (-2147483648) = none ∧
    addBook initialState (-2147483648) "Title" "Author" 1 = none :=
  ⟨⟨by decide, by decide, hashBookId_least_int.2.2.2.2.1 (-7) (by decide) (by decide)⟩,
   ⟨by decide, hashBookId_least_int.2.2.2.2.2 2147483647 (by decide) (by decide)⟩,
   (hashBookId_least_int.2.2.2.1 initialState "Title" "Author" 1).1,
   (hashBookId_least_int.2.2.2.1 initialState "Title" "Author" 1).2.1⟩

end Library
